import Mathlib

/-!
Verification development for the scatter-kg-recursive repository.

The file shallow-embeds four components of the repository and settles the
frozen claims about them:

* `Observer` — the workflow-tree observer of `scripts/diagnose-tree.ts`
  (`getExpectedChildrenCount`, `buildTreeNode`, `collectLeaves`,
  `checkAllChildrenDiscovered`, `isComplete`).
* `ClusterSim` — the discrete-event cluster simulation of
  `scripts/cluster-sim/simulate.ts` (`ClusterSimulation`).
* `DescribeRetry` — `callGeminiWithJsonRetry` as given in full in
  `tasks/todo.md`.
* `Register` — `substituteEnvVars` of the registration script.

All definitions are executable; machine integers are modelled as `Int`/`Nat`
(the values the scripts compute stay far below 2^53, except inside the seeded
PRNG where the JavaScript double rounding above 2^53 is noted at the
definition).  JavaScript strings are modelled as Lean `String`s, with the
few string operations the scripts use re-expressed on the underlying
character list so that they evaluate inside the kernel (JS indexes UTF-16
units; every string the claims touch is plain ASCII, where the two notions
coincide).
-/

namespace Observer

/-- One entry of `log_data.entry.handoffs` (diagnose-tree.ts, `LogEntry`
interface): `{ type: string; outputs?: string[]; invocations?: Array<unknown>;
delegated?: boolean }`.  Only the length of `invocations` is ever inspected,
so its elements are modelled as strings. -/
structure Handoff where
  type : String
  outputs : Option (List String)
  invocations : Option (List String)
  delegated : Option Bool
deriving DecidableEq, Repr

/-- A log entity as the observer reads it.  The nested TS shape
`properties.status`, `properties.klados_id`, `properties.log_data.messages`
(each message contributing its optional `metadata.numCopies`),
`properties.log_data.entry.handoffs` and the `sent_to` relationship targets
are flattened into one record. -/
structure LogEntry where
  status : String
  kladosId : String
  messages : List (Option Int)
  handoffs : List Handoff
  sentTo : List String
deriving DecidableEq, Repr

/-- Scan of `log.properties.log_data.messages` for the first message carrying
`metadata.numCopies` (the `for (const msg of messages)` loop of
`getExpectedChildrenCount`). -/
def findNumCopies : List (Option Int) → Option Int
  | [] => none
  | some n :: _ => some n
  | none :: rest => findNumCopies rest

/-- The `for (const handoff of handoffs)` accumulation loop of
`getExpectedChildrenCount`.  `total = -1; break` on a delegated scatter is
modelled by returning `-1` outright.  JS truthiness: `handoff.outputs &&
handoff.outputs.length > 0` is true exactly when the field is present with a
non-empty array (an empty array is truthy in JS, so presence alone does not
suffice), and `handoff.delegated` is true exactly for `some true`. -/
def countHandoffs : Int → List Handoff → Int
  | total, [] => total
  | total, h :: rest =>
    if h.type == "invoke" || h.type == "pass" then
      countHandoffs (total + 1) rest
    else if h.type == "scatter" then
      match h.outputs with
      | some (o :: os) => countHandoffs (total + ((o :: os).length : Int)) rest
      | _ =>
        match h.invocations with
        | some (i :: is) => countHandoffs (total + ((i :: is).length : Int)) rest
        | _ => if h.delegated.getD false then -1 else countHandoffs (total + 1) rest
    else if h.type == "gather" then
      countHandoffs (total + 1) rest
    else
      countHandoffs total rest

/-- `getExpectedChildrenCount` of diagnose-tree.ts. -/
def getExpectedChildrenCount (log : LogEntry) : Int :=
  match findNumCopies log.messages with
  | some n => n
  | none =>
    if log.handoffs.isEmpty then 0
    else countHandoffs 0 log.handoffs

/-! Reference definitions for claim C1, written from the specification text
(§4.3 of the spec) rather than from the loop in the source.  Two variants are
given: `expectedChildrenClaim` follows the claim verbatim (`scatter: if
outputs present → +len(outputs)`), `expectedChildrenRef` is the amended
reading in which `outputs` / `invocations` must be present *and non-empty* to
contribute their length. -/

/-- Weight of one handoff under the claim's verbatim reading: presence of the
`outputs` field suffices. -/
def claimWeight (h : Handoff) : Int :=
  if h.type == "invoke" then 1
  else if h.type == "pass" then 1
  else if h.type == "gather" then 1
  else if h.type == "scatter" then
    match h.outputs, h.invocations with
    | some os, _ => (os.length : Int)
    | none, some is => (is.length : Int)
    | none, none => 1
  else 0

/-- A scatter handoff that the claim's verbatim reading maps to UNKNOWN:
no `outputs` field, no `invocations` field, `delegated` set. -/
def claimUnknown (h : Handoff) : Bool :=
  h.type == "scatter" && h.outputs.isNone && h.invocations.isNone
    && h.delegated.getD false

/-- Expected-children count under the claim's verbatim reading. -/
def expectedChildrenClaim (log : LogEntry) : Int :=
  match (log.messages.filterMap id).head? with
  | some n => n
  | none =>
    if log.handoffs.any claimUnknown then -1
    else (log.handoffs.map claimWeight).sum

/-- Weight of one handoff under the amended reading: `outputs` (resp.
`invocations`) contributes its length only when present and non-empty. -/
def refWeight (h : Handoff) : Int :=
  if h.type == "invoke" then 1
  else if h.type == "pass" then 1
  else if h.type == "gather" then 1
  else if h.type == "scatter" then
    match h.outputs, h.invocations with
    | some (o :: os), _ => ((o :: os).length : Int)
    | _, some (i :: is) => ((i :: is).length : Int)
    | _, _ => 1
  else 0

/-- A scatter handoff mapping to UNKNOWN under the amended reading: neither a
non-empty `outputs` nor a non-empty `invocations`, and `delegated` set. -/
def refUnknown (h : Handoff) : Bool :=
  h.type == "scatter"
    && (match h.outputs with | some (_ :: _) => false | _ => true)
    && (match h.invocations with | some (_ :: _) => false | _ => true)
    && h.delegated.getD false

/-- Expected-children count under the amended reading: the first
`numCopies` override if any message carries one, else `-1` (UNKNOWN) if some
handoff is an UNKNOWN scatter, else the sum of the per-handoff weights. -/
def expectedChildrenRef (log : LogEntry) : Int :=
  match (log.messages.filterMap id).head? with
  | some n => n
  | none =>
    if log.handoffs.any refUnknown then -1
    else (log.handoffs.map refWeight).sum

/-- The concrete log refuting claim C1 as stated: a single scatter handoff
whose `outputs` field is present but an empty list. -/
def c1Log : LogEntry :=
  { status := "done"
    kladosId := "k"
    messages := []
    handoffs := [{ type := "scatter", outputs := some [], invocations := none,
                   delegated := none }]
    sentTo := [] }

/-- The `TreeNode` record built by `buildTreeNode`.  The diagnostic-only
`problem` string is omitted: it is printed but never consulted by the
completion verdict. -/
inductive TreeNode where
  | mk (id : String) (status : String) (kladosId : String)
       (expectedChildren : Int) (actualChildren : Nat)
       (children : List TreeNode) (isTerminal : Bool) (isLeaf : Bool)

def TreeNode.id : TreeNode → String
  | .mk i _ _ _ _ _ _ _ => i

def TreeNode.status : TreeNode → String
  | .mk _ s _ _ _ _ _ _ => s

def TreeNode.kladosId : TreeNode → String
  | .mk _ _ k _ _ _ _ _ => k

def TreeNode.expectedChildren : TreeNode → Int
  | .mk _ _ _ e _ _ _ _ => e

def TreeNode.actualChildren : TreeNode → Nat
  | .mk _ _ _ _ a _ _ _ => a

def TreeNode.children : TreeNode → List TreeNode
  | .mk _ _ _ _ _ cs _ _ => cs

def TreeNode.isTerminal : TreeNode → Bool
  | .mk _ _ _ _ _ _ t _ => t

def TreeNode.isLeaf : TreeNode → Bool
  | .mk _ _ _ _ _ _ _ l => l

/-- `log.properties.status === 'done' || log.properties.status === 'error'`. -/
def isTerminalStatus (s : String) : Bool :=
  s == "done" || s == "error"

/-- The `for (const rel of sentTo)` recursion of `buildTreeNode`, abstracted
over the recursive call `f` (which threads the `visited` set): children that
come back `null` (already visited) are dropped, the rest are pushed in
order. -/
def buildChildren (f : String → List String → Option TreeNode × List String) :
    List String → List String → List TreeNode × List String
  | [], visited => ([], visited)
  | c :: cs, visited =>
    let r1 := f c visited
    let r2 := buildChildren f cs r1.2
    ((match r1.1 with | some t => t :: r2.1 | none => r2.1), r2.2)

/-- `buildTreeNode` of diagnose-tree.ts.  The mutated `Set<string>` is passed
and returned explicitly; the script marks `logId` visited before fetching.
`fuel` bounds the recursion depth (the script recurses freely; theorem
`c10_buildTreeNode_terminating` shows any `fuel ≥ g.length + 1` gives the
same result, which is the termination argument the visited set provides).
The `none` branch on a failed lookup is unreachable for the closed log
graphs the claims quantify over: the script's `fetchEntity` always yields a
log object for the ids that occur in a workflow tree. -/
def buildTree (g : List (String × LogEntry)) :
    Nat → String → List String → Option TreeNode × List String
  | 0, _, visited => (none, visited)
  | fuel + 1, logId, visited =>
    if visited.contains logId then (none, visited)
    else
      match g.find? (fun p => p.1 == logId) with
      | none => (none, logId :: visited)
      | some (_, log) =>
        let expected := getExpectedChildrenCount log
        let isTerm := isTerminalStatus log.status
        let leaf := log.status == "error" || (isTerm && expected == 0)
        let r := buildChildren (buildTree g fuel) log.sentTo (logId :: visited)
        (some (.mk logId log.status log.kladosId expected log.sentTo.length
                 r.1 isTerm leaf), r.2)

/-- `collectLeaves` of diagnose-tree.ts. -/
def collectLeaves : TreeNode → List TreeNode
  | .mk i st kl e a cs t l =>
    if cs.isEmpty then [.mk i st kl e a cs t l]
    else cs.attach.flatMap (fun ⟨c, _⟩ => collectLeaves c)

/-- `checkAllChildrenDiscovered` of diagnose-tree.ts, reduced to its `ok`
boolean (the script also reports a reason and node id, which only feed the
diagnostic printout).  Non-terminal nodes are assumed OK and their subtrees
are not inspected. -/
def checkAllChildrenDiscovered : TreeNode → Bool
  | .mk _ _ _ e _ cs t _ =>
    if !t then true
    else if e < 0 then false
    else if (cs.length : Int) < e then false
    else cs.attach.all (fun ⟨c, _⟩ => checkAllChildrenDiscovered c)

/-- The completion verdict of the observer (`main` of diagnose-tree.ts):
`allLeavesTerminal && childrenCheck.ok` on the built root. -/
def isComplete (root : TreeNode) : Bool :=
  (collectLeaves root).all (·.isTerminal) && checkAllChildrenDiscovered root

/-- Every node of a built tree, root first (specification-side helper for
quantifying over "every log in the tree"). -/
def allNodes : TreeNode → List TreeNode
  | .mk i st kl e a cs t l =>
    .mk i st kl e a cs t l :: cs.attach.flatMap (fun ⟨c, _⟩ => allNodes c)

/-- The nodes `checkAllChildrenDiscovered` actually inspects: terminal nodes
reachable from the root through terminal ancestors only (the recursion stops
at every non-terminal node). -/
def checkedNodes : TreeNode → List TreeNode
  | .mk i st kl e a cs t l =>
    if t then .mk i st kl e a cs t l :: cs.attach.flatMap (fun ⟨c, _⟩ => checkedNodes c)
    else []

/-- Claim C2's completeness condition, verbatim: every leaf terminal, and
every terminal node of the whole tree has at least its expected children and
is not UNKNOWN. -/
def claimCompleteB (root : TreeNode) : Bool :=
  (collectLeaves root).all (·.isTerminal) &&
  (allNodes root).all (fun n =>
    !n.isTerminal ||
      (decide (n.expectedChildren ≤ (n.children.length : Int)) &&
        n.expectedChildren != -1))

/-- Claim C6's notion of extension: `t'` is `t` with zero or more new logs
attached as additional `sent_to` children anywhere in the tree (new children
are appended after the existing ones, as new `sent_to` relationships are);
the pre-existing nodes keep their identity, status, expected count and
terminality. -/
def extendsTree : TreeNode → TreeNode → Bool
  | .mk i st _ e _ cs t _, t' =>
    i == t'.id && st == t'.status && e == t'.expectedChildren &&
    t == t'.isTerminal && decide (cs.length ≤ t'.children.length) &&
    (cs.zip (t'.children.take cs.length)).attach.all
      (fun ⟨⟨a, b⟩, h⟩ => extendsTree a b)
termination_by t _ => sizeOf t
decreasing_by
  have ha : a ∈ cs := (List.of_mem_zip h).1
  have := List.sizeOf_lt_of_mem ha
  simp only [TreeNode.mk.sizeOf_spec]
  omega

/-- Extension by *complete* subtrees only: as `extendsTree`, with every newly
added subtree required to satisfy the completion verdict itself.  This is the
side condition of the amended claim C6. -/
def extendsComplete : TreeNode → TreeNode → Bool
  | .mk i st _ e _ cs t _, t' =>
    i == t'.id && st == t'.status && e == t'.expectedChildren &&
    t == t'.isTerminal && decide (cs.length ≤ t'.children.length) &&
    (cs.zip (t'.children.take cs.length)).attach.all
      (fun ⟨⟨a, b⟩, h⟩ => extendsComplete a b) &&
    (t'.children.drop cs.length).all isComplete
termination_by t _ => sizeOf t
decreasing_by
  have ha : a ∈ cs := (List.of_mem_zip h).1
  have := List.sizeOf_lt_of_mem ha
  simp only [TreeNode.mk.sizeOf_spec]
  omega

/-- Ids of all nodes of an optional tree (helper for C10). -/
def treeIds : Option TreeNode → List String
  | none => []
  | some t => (allNodes t).map TreeNode.id

/-- Ids of all nodes of a built child list (helper for C10). -/
def childIds (l : List TreeNode) : List String :=
  l.flatMap (fun t => (allNodes t).map TreeNode.id)

/-- Number of graph keys not yet in the visited set (the quantity the
visited set makes decrease on every successful recursion of
`buildTreeNode`). -/
def unvisitedKeys (g : List (String × LogEntry)) (vis : List String) : Nat :=
  ((g.map Prod.fst).filter (fun k => !vis.contains k)).length

/-- The concrete graph refuting claim C2 as stated: a still-running root
whose single child is terminal but reports five expected children and has
none. -/
def c2Graph : List (String × LogEntry) :=
  [("a", { status := "running", kladosId := "k1", messages := [],
           handoffs := [], sentTo := ["b"] }),
   ("b", { status := "done", kladosId := "k2", messages := [some 5],
           handoffs := [], sentTo := [] })]

/-- A complete single-log graph (used to witness the amended C2). -/
def c2DoneGraph : List (String × LogEntry) :=
  [("a", { status := "done", kladosId := "k1", messages := [],
           handoffs := [], sentTo := [] })]

/-- The tree the observer builds from `c2Graph` (checked by `rfl` in the
counterexample theorem). -/
def c2Root : TreeNode :=
  .mk "a" "running" "k1" 0 1 [.mk "b" "done" "k2" 5 0 [] true false] false false

/-- The tree built from `c2DoneGraph`. -/
def c2DoneRoot : TreeNode :=
  .mk "a" "done" "k1" 0 0 [] true true

/-- C6 counterexample, base tree: a single terminal log expecting no
children. -/
def c6Base : TreeNode :=
  .mk "a" "done" "k" 0 0 [] true true

/-- C6 counterexample, extension: the same log with one new `sent_to` child
that is still running. -/
def c6Ext : TreeNode :=
  .mk "a" "done" "k" 0 1 [.mk "b" "running" "k2" 0 0 [] false false] true true

/-- C6 witness, extension of `c6Base` by one terminal zero-expectation
child. -/
def c6Ext2 : TreeNode :=
  .mk "a" "done" "k" 0 1 [.mk "b2" "done" "k2" 0 0 [] true true] true true

/-- The diamond log graph for C10: `a` fans out to `b` and `d`, both of which
send to the shared (gather) child `c`. -/
def c10Graph : List (String × LogEntry) :=
  [("a", { status := "done", kladosId := "k1", messages := [],
           handoffs := [], sentTo := ["b", "d"] }),
   ("b", { status := "done", kladosId := "k2", messages := [],
           handoffs := [], sentTo := ["c"] }),
   ("d", { status := "done", kladosId := "k3", messages := [],
           handoffs := [], sentTo := ["c"] }),
   ("c", { status := "done", kladosId := "k4", messages := [],
           handoffs := [], sentTo := [] })]

/-- The tree built from the diamond graph: the shared child `c` appears only
under `b`, the first parent the depth-first search reaches it from; `d`,
although it also `sent_to` `c`, gets no child node. -/
def c10Root : TreeNode :=
  .mk "a" "done" "k1" 0 2
    [.mk "b" "done" "k2" 0 1 [.mk "c" "done" "k4" 0 0 [] true true] true true,
     .mk "d" "done" "k3" 0 1 [] true true] true true

end Observer

namespace ClusterSim

/-- An entity of the simulation data (`Entity` interface of simulate.ts).
The optional `description` field is never read by the simulation and is
omitted. -/
structure Entity where
  id : String
  type : String
  label : String
  layer : Int
deriving DecidableEq, Repr

/-- One similarity entry (`SimilarityEntry`).  The simulation never inspects
`score`: peers are consumed in the order the data file lists them (descending
score).  The field is kept, as an integer stand-in for the float, to record
that it exists. -/
structure SimilarityEntry where
  peerId : String
  score : Int
deriving DecidableEq, Repr

/-- `SimulationData`: the entity list and the per-entity similarity lists.
`collectionId`/`fetchedAt` are display-only and omitted; the
`similarities` record is an association list. -/
structure SimulationData where
  entities : List Entity
  similarities : List (String × List SimilarityEntry)
deriving DecidableEq, Repr

/-- `SimConfig`.  All CLI values are integers; `k` (a `slice` bound) is kept
as a `Nat`.  `verbose` only gates `console.log` and is dropped. -/
structure SimConfig where
  k : Nat
  arrivalSpreadMs : Int
  indexDelayMs : Int
  recheckDelayMs : Int
  followerWaitMinMs : Int
  followerWaitMaxMs : Int
  seed : Int
deriving DecidableEq, Repr

/-- The event types of the discrete-event queue.  `entity_creates_cluster`
and `entity_joins_cluster` are declared in the source but never scheduled,
and the `switch` in `processEvent` has no case for them (they would be
ignored). -/
inductive EventType where
  | entity_arrives
  | entity_indexed
  | entity_searches
  | entity_rechecks
  | entity_creates_cluster
  | entity_joins_cluster
  | follower_wait_ends
deriving DecidableEq, Repr

/-- A queued event.  Of the open `data` record only `data.clusterId` is ever
read back (by `follower_wait_ends`); the `peers` list attached to recheck
events is dead data and omitted. -/
structure Event where
  time : Int
  type : EventType
  entityId : String
  clusterId : Option String
deriving DecidableEq, Repr

/-- `EntityState` of simulate.ts. -/
structure EntityState where
  arrived : Bool
  indexed : Bool
  clusterId : Option String
  isClusterLeader : Bool
  processing : Bool
  waitingForFollowers : Bool
  followerWaitStartTime : Option Int
deriving DecidableEq, Repr

/-- `ClusterState` of simulate.ts.  The JS `Set<string>` of members is an
insertion-ordered duplicate-free list; `setAdd`/`setDel` below implement
`Set.add`/`Set.delete`. -/
structure ClusterState where
  id : String
  leaderId : String
  members : List String
  createdAt : Int
deriving DecidableEq, Repr

/-- `Set.add`: append if absent. -/
def setAdd (l : List String) (x : String) : List String :=
  if l.contains x then l else l ++ [x]

/-- `Set.delete`: remove the element (the list is duplicate-free, so
filtering removes exactly the one occurrence). -/
def setDel (l : List String) (x : String) : List String :=
  l.filter (fun y => y ≠ x)

/-- The whole mutable state of a `ClusterSimulation` object.  The immutable
`entities`/`similarities`/`config` are passed separately to the step
functions.  `seed` is the captured variable of the `seededRandom` closure. -/
structure SimState where
  entityStates : List (String × EntityState)
  clusters : List (String × ClusterState)
  eventQueue : List Event
  currentTime : Int
  nextClusterId : Nat
  seed : Int
deriving DecidableEq, Repr

/-- One step of the linear-congruential generator inside `seededRandom`:
`seed = (seed * 1103515245 + 12345) & 0x7fffffff`.  `&` truncates to the low
31 bits of the integer value; the IEEE-754 rounding JavaScript applies to the
product above 2^53 is not modelled — no theorem in this file depends on the
individual values of the stream, only on its being a function of the seed. -/
def randStep (seed : Int) : Int :=
  (seed * 1103515245 + 12345) % 2147483648

/-- `Math.floor(r * n)` where `r = seed / 0x7fffffff` is the value returned
by `seededRandom` for the post-step seed: computed as `seed * n / 0x7fffffff`
in exact integer arithmetic (both operands non-negative, so `Int` division is
the floor). -/
def randFloor (seed n : Int) : Int :=
  seed * n / 2147483647

/-- Association-list lookup, used for all three JS `Map`s / record fields. -/
def alGet {β : Type} (l : List (String × β)) (k : String) : Option β :=
  (l.find? (fun p => p.1 == k)).map (·.2)

/-- Point update of an association-list value (JS mutates the object held in
the map; keys are unchanged). -/
def alUpd {β : Type} (l : List (String × β)) (k : String) (f : β → β) :
    List (String × β) :=
  l.map (fun p => if p.1 == k then (p.1, f p.2) else p)

/-- The decimal digit characters used by JavaScript number-to-string
coercion. -/
def digitChar (d : Nat) : Char :=
  ['0', '1', '2', '3', '4', '5', '6', '7', '8', '9'].getD d '0'

/-- Decimal digit list of `n`, most significant first, with a structural
fuel (any fuel above `n` yields the digits of `n`). -/
def natDigits : Nat → Nat → List Char
  | 0, _ => []
  | fuel + 1, n =>
    if n < 10 then [ digitChar n]
    else natDigits fuel (n / 10) ++ [ digitChar (n % 10)]

/-- Decimal rendering of `n` (the model of JavaScript template-literal
number coercion). -/
def natStr (n : Nat) : String := ⟨natDigits (n + 1) n⟩

/-- The id given to the `n`-th created cluster (`cluster_` followed by the
decimal rendering of `n`). -/
def mkClusterId (n : Nat) : String :=
  "cluster_" ++ natStr n

/-- Swap of two positions of a list (one step of the Fisher–Yates loop in
`shuffle`). -/
def listSwap {α : Type} (l : List α) (i j : Nat) : List α :=
  match l[i]?, l[j]? with
  | some a, some b => (l.set i b).set j a
  | _, _ => l

/-- The Fisher–Yates loop of `shuffle`, counting `i` down from
`l.length - 1` to `1`; returns the shuffled list and the updated PRNG seed.
The argument of the pattern `c + 1` is the loop variable `i`. -/
def shuffleGo {α : Type} : List α → Int → Nat → List α × Int
  | arr, seed, 0 => (arr, seed)
  | arr, seed, c + 1 =>
    let seed' := randStep seed
    let j := (randFloor seed' ((c + 1 : Nat) + 1)).toNat
    shuffleGo (listSwap arr (c + 1) j) seed' c

/-- `shuffle` of simulate.ts. -/
def shuffle {α : Type} (l : List α) (seed : Int) : List α × Int :=
  shuffleGo l seed (l.length - 1)

/-- `scheduleEvent`: push then re-sort by time.  `Array.prototype.sort` is
stable, and the queue is always sorted, so the new event lands directly after
the existing events whose time is `≤` its own. -/
def scheduleEvent : List Event → Event → List Event
  | [], e => [e]
  | x :: xs, e => if x.time ≤ e.time then x :: scheduleEvent xs e else e :: x :: xs

/-- `getVisiblePeers`: same-layer, already-indexed similarity entries,
truncated to the top `k`. -/
def getVisiblePeers (data : SimulationData) (cfg : SimConfig)
    (states : List (String × EntityState)) (entityId : String) (layer : Int) :
    List SimilarityEntry :=
  let sims := (alGet data.similarities entityId).getD []
  (sims.filter (fun s =>
    match data.entities.find? (fun e => e.id == s.peerId) with
    | none => false
    | some peer =>
      if peer.layer != layer then false
      else
        match alGet states s.peerId with
        | some st => st.indexed
        | none => false)).take cfg.k

/-- `findClusteredPeer`: the first peer whose state records a cluster. -/
def findClusteredPeer (states : List (String × EntityState)) :
    List SimilarityEntry → Option (String × String)
  | [] => none
  | p :: rest =>
    match alGet states p.peerId with
    | some st =>
      match st.clusterId with
      | some c => some (p.peerId, c)
      | none => findClusteredPeer states rest
    | none => findClusteredPeer states rest

/-- `createCluster`: allocate `cluster_${nextClusterId++}` with the leader as
sole member.  Returns the new state and the fresh cluster id. -/
def createCluster (st : SimState) (leaderId : String) : SimState × String :=
  let clusterId := mkClusterId st.nextClusterId
  ({ st with
      clusters := st.clusters ++ [(clusterId,
        { id := clusterId, leaderId := leaderId, members := [leaderId],
          createdAt := st.currentTime })]
      nextClusterId := st.nextClusterId + 1 },
   clusterId)

/-- `joinCluster`: add the entity to the cluster's member set (if the cluster
exists) and point the entity's state at it (unconditionally). -/
def joinCluster (st : SimState) (entityId clusterId : String) : SimState :=
  let st' :=
    if (alGet st.clusters clusterId).isSome then
      let cs := alUpd st.clusters clusterId (fun cl => { cl with members := setAdd cl.members entityId })
      { st with clusters := cs }
    else st
  let es' := alUpd st'.entityStates entityId (fun es => { es with clusterId := some clusterId })
  { st' with entityStates := es' }

/-- `getJitteryWait`: one PRNG step, scaled into
`[followerWaitMinMs, followerWaitMaxMs)`.  Returns the wait and the stepped
seed. -/
def getJitteryWait (cfg : SimConfig) (seed : Int) : Int × Int :=
  let seed' := randStep seed
  (cfg.followerWaitMinMs +
    randFloor seed' (cfg.followerWaitMaxMs - cfg.followerWaitMinMs), seed')

/-- The member-removal half of the fallback's leave-then-join: delete the
entity from its own cluster's member set and drop the cluster entirely once
empty. -/
def removeFromCluster (st : SimState) (entityId myClusterId : String) : SimState :=
  match alGet st.clusters myClusterId with
  | none => st
  | some myCluster =>
    let members' := setDel myCluster.members entityId
    if members'.length = 0 then
      { st with clusters := st.clusters.filter (fun p => p.1 ≠ myClusterId) }
    else
      let cs := alUpd st.clusters myClusterId (fun cl => { cl with members := members' })
      { st with clusters := cs }

/-- Leave my solo cluster and join `target` (the block duplicated in both
fallback steps): remove me from my cluster, join theirs, clear my
leader flag. -/
def leaveAndJoin (st : SimState) (entityId myClusterId target : String) : SimState :=
  let st1 := removeFromCluster st entityId myClusterId
  let st2 := joinCluster st1 entityId target
  let es' := alUpd st2.entityStates entityId (fun es => { es with isClusterLeader := false })
  { st2 with entityStates := es' }

/-- The scan of step 1 of `runFallback`: the first visible semantic peer
whose cluster differs from mine. -/
def semScan (states : List (String × EntityState)) (myClusterId : String) :
    List SimilarityEntry → Option String
  | [] => none
  | p :: rest =>
    match alGet states p.peerId with
    | some ps =>
      match ps.clusterId with
      | some c => if c ≠ myClusterId then some c else semScan states myClusterId rest
      | none => semScan states myClusterId rest
    | none => semScan states myClusterId rest

/-- The scan of step 2 of `runFallback` over the lexicographically sorted
layer entities: `some none` = reached self (stay leader), `some (some c)` =
join `c`, `none` = ran off the end of the list. -/
def lexScan (states : List (String × EntityState)) (entityId myClusterId : String) :
    List Entity → Option (Option String)
  | [] => none
  | ent :: rest =>
    if ent.id = entityId then some none
    else if ent.type == "cluster_leader" then lexScan states entityId myClusterId rest
    else
      match alGet states ent.id with
      | some ps =>
        match ps.clusterId with
        | some c =>
          if c ≠ myClusterId then some (some c)
          else lexScan states entityId myClusterId rest
        | none => lexScan states entityId myClusterId rest
      | none => lexScan states entityId myClusterId rest

/-- Code-point comparison of two id strings, the model of
`a.id.localeCompare(b.id) ≤ 0` (the default locale collation agrees with
code-point order on the ASCII ids the pipeline generates). -/
def charListLe : List Char → List Char → Bool
  | [], _ => true
  | _ :: _, [] => false
  | a :: as, b :: bs =>
    if a.toNat < b.toNat then true
    else if b.toNat < a.toNat then false
    else charListLe as bs

/-- Comparator of the lexicographic fallback. -/
def idLeB (a b : Entity) : Bool :=
  charListLe a.id.data b.id.data

/-- One insertion step of the stable comparison sort. -/
def orderedInsertEnt (a : Entity) : List Entity → List Entity
  | [] => [a]
  | b :: bs => if idLeB a b then a :: b :: bs else b :: orderedInsertEnt a bs

/-- `Array.prototype.sort(cmp)` on the layer entities: a stable comparison
sort, modelled as insertion sort. -/
def sortEntities : List Entity → List Entity
  | [] => []
  | a :: as => orderedInsertEnt a (sortEntities as)

/-- `runFallback` of simulate.ts: semantic step, then lexicographic step,
then the (unreachable, see C3) dissolve block. -/
def runFallback (data : SimulationData) (st : SimState)
    (entityId myClusterId : String) (layer : Int) : SimState :=
  let allSims := (alGet data.similarities entityId).getD []
  let visibleSemanticPeers := allSims.filter (fun s =>
    match data.entities.find? (fun e => e.id == s.peerId) with
    | none => false
    | some peer =>
      if peer.layer != layer then false
      else
        match alGet st.entityStates s.peerId with
        | some ps => ps.indexed
        | none => false)
  match semScan st.entityStates myClusterId visibleSemanticPeers with
  | some target => leaveAndJoin st entityId myClusterId target
  | none =>
    let layerEntities :=
      sortEntities (data.entities.filter (fun e => e.layer == layer))
    match lexScan st.entityStates entityId myClusterId layerEntities with
    | some none => st
    | some (some target) => leaveAndJoin st entityId myClusterId target
    | none =>
      if layerEntities.length = 1 then
        let es' := alUpd st.entityStates entityId (fun es => { es with clusterId := none, isClusterLeader := false })
        { st with
            clusters := st.clusters.filter (fun p => p.1 ≠ myClusterId)
            entityStates := es' }
      else st

/-- `processEvent` of simulate.ts.  The lookups
`this.entityStates.get(event.entityId)!` and
`this.entities.find(...)!` are non-null-asserted in the script; for ids that
are not in the data (which never occur in a run, every scheduled event names
a data entity) the model leaves the state unchanged. -/
def processEvent (data : SimulationData) (cfg : SimConfig)
    (st : SimState) (ev : Event) : SimState :=
  match alGet st.entityStates ev.entityId,
        data.entities.find? (fun e => e.id == ev.entityId) with
  | some _, some entity =>
    match ev.type with
    | .entity_arrives =>
      let es1 := alUpd st.entityStates ev.entityId (fun es => { es with arrived := true })
      let st1 := { st with entityStates := es1 }
      let ixEv : Event :=
        { time := st.currentTime + cfg.indexDelayMs, type := .entity_indexed,
          entityId := ev.entityId, clusterId := none }
      let seEv : Event :=
        { time := st.currentTime, type := .entity_searches,
          entityId := ev.entityId, clusterId := none }
      let st2 := { st1 with eventQueue := scheduleEvent st1.eventQueue ixEv }
      { st2 with eventQueue := scheduleEvent st2.eventQueue seEv }
    | .entity_indexed =>
      let es1 := alUpd st.entityStates ev.entityId (fun es => { es with indexed := true })
      { st with entityStates := es1 }
    | .entity_searches =>
      let es1 := alUpd st.entityStates ev.entityId (fun es => { es with processing := true })
      let st1 := { st with entityStates := es1 }
      let peers := getVisiblePeers data cfg st1.entityStates ev.entityId entity.layer
      if peers.isEmpty then
        let r := createCluster st1 ev.entityId
        let es2 := alUpd r.1.entityStates ev.entityId (fun es =>
          { es with clusterId := some r.2, isClusterLeader := true,
                    waitingForFollowers := true,
                    followerWaitStartTime := some st.currentTime })
        let st2 := { r.1 with entityStates := es2 }
        let jw := getJitteryWait cfg st2.seed
        let fwEv : Event :=
          { time := st.currentTime + jw.1, type := .follower_wait_ends,
            entityId := ev.entityId, clusterId := some r.2 }
        { st2 with
            seed := jw.2
            eventQueue := scheduleEvent st2.eventQueue fwEv }
      else
        match findClusteredPeer st1.entityStates peers with
        | some pc =>
          let st2 := joinCluster st1 ev.entityId pc.2
          let es2 := alUpd st2.entityStates ev.entityId (fun es => { es with processing := false })
          { st2 with entityStates := es2 }
        | none =>
          let rcEv : Event :=
            { time := st.currentTime + cfg.recheckDelayMs, type := .entity_rechecks,
              entityId := ev.entityId, clusterId := none }
          { st1 with eventQueue := scheduleEvent st1.eventQueue rcEv }
    | .entity_rechecks =>
      let peers := getVisiblePeers data cfg st.entityStates ev.entityId entity.layer
      match findClusteredPeer st.entityStates peers with
      | some pc =>
        let st1 := joinCluster st ev.entityId pc.2
        let es1 := alUpd st1.entityStates ev.entityId (fun es => { es with processing := false })
        { st1 with entityStates := es1 }
      | none =>
        let r := createCluster st ev.entityId
        let es1 := alUpd r.1.entityStates ev.entityId (fun es =>
          { es with clusterId := some r.2, isClusterLeader := true,
                    waitingForFollowers := true,
                    followerWaitStartTime := some st.currentTime })
        let st1 := { r.1 with entityStates := es1 }
        let jw := getJitteryWait cfg st1.seed
        let fwEv : Event :=
          { time := st.currentTime + jw.1, type := .follower_wait_ends,
            entityId := ev.entityId, clusterId := some r.2 }
        { st1 with
            seed := jw.2
            eventQueue := scheduleEvent st1.eventQueue fwEv }
    | .follower_wait_ends =>
      let es1 := alUpd st.entityStates ev.entityId (fun es =>
        { es with waitingForFollowers := false, processing := false })
      let st1 := { st with entityStates := es1 }
      match ev.clusterId with
      | none => st1
      | some clusterId =>
        match alGet st1.clusters clusterId with
        | none => st1
        | some cluster =>
          if cluster.members.length > 1 then st1
          else runFallback data st1 ev.entityId clusterId entity.layer
    | .entity_creates_cluster => st
    | .entity_joins_cluster => st
  | _, _ => st

/-- One iteration of the `while (this.eventQueue.length > 0)` loop of
`run()`: shift the first event, advance the clock, process it. -/
def simStep (data : SimulationData) (cfg : SimConfig) (st : SimState) : SimState :=
  match st.eventQueue with
  | [] => st
  | ev :: rest =>
    processEvent data cfg { st with eventQueue := rest, currentTime := ev.time } ev

/-- The state of a fresh `ClusterSimulation` after the arrival-scheduling
prologue of `run()`: per-entity initial states, the shuffled arrival events
`floor(i / n * arrivalSpreadMs)` apart, and the PRNG seed advanced by the
shuffle. -/
def initState (data : SimulationData) (cfg : SimConfig) : SimState :=
  let states := data.entities.map (fun e =>
    (e.id, ({ arrived := false, indexed := false, clusterId := none,
              isClusterLeader := false, processing := false,
              waitingForFollowers := false,
              followerWaitStartTime := none } : EntityState)))
  let sh := shuffle data.entities cfg.seed
  let n := data.entities.length
  let queue := sh.1.enum.foldl (fun q p =>
    let arEv : Event :=
      { time := ((p.1 : Int) * cfg.arrivalSpreadMs) / (n : Int),
        type := .entity_arrives, entityId := p.2.id, clusterId := none }
    scheduleEvent q arEv) []
  { entityStates := states, clusters := [], eventQueue := queue,
    currentTime := 0, nextClusterId := 1, seed := sh.2 }

/-- `run()` = schedule the arrivals, then drain the event queue.  The queue
always empties: each entity contributes at most five events
(arrives, indexed, searches, one recheck, one follower-wait).  `fuel` bounds
the loop; `5 * |entities| + 1` steps always suffice and `simStep` is the
identity on an empty queue, so any larger fuel gives the same state. -/
def runSim (data : SimulationData) (cfg : SimConfig) (fuel : Nat) : SimState :=
  Nat.iterate (simStep data cfg) fuel (initState data cfg)

/-- The cluster portion of `getResults()`: the surviving clusters with their
sizes and members, plus the count of entities with no cluster (the scalar
statistics of `getResults` are arithmetic images of this data). -/
def getResults (st : SimState) : List (String × Nat × List String) × Nat :=
  (st.clusters.map (fun p => (p.1, p.2.members.length, p.2.members)),
   (st.entityStates.filter (fun p => p.2.clusterId.isNone)).length)

/-- The failing input of claim C3: a single entity alone at layer 0, with no
similarity data — the "sole entity at its layer" scenario. -/
def c3Data : SimulationData :=
  { entities := [{ id := "e1", type := "person", label := "Ahab", layer := 0 }]
    similarities := [] }

/-- A default-like config (seed 42; delays as in the validation script). -/
def c3Config : SimConfig :=
  { k := 5, arrivalSpreadMs := 100, indexDelayMs := 1000,
    recheckDelayMs := 10000, followerWaitMinMs := 30000,
    followerWaitMaxMs := 90000, seed := 42 }

/-- The counterexample data of claim C4 as stated: two mutually-similar
entities of type `cluster_leader` (a layer of clusters being re-clustered). -/
def c4Data : SimulationData :=
  { entities := [{ id := "x1", type := "cluster_leader", label := "X1", layer := 1 },
                 { id := "x2", type := "cluster_leader", label := "X2", layer := 1 }]
    similarities := [("x1", [{ peerId := "x2", score := 90 }]),
                     ("x2", [{ peerId := "x1", score := 90 }])] }

/-- A config under which both C4 entities found clusters and both
follower waits expire before either entity is indexed (`indexDelayMs` far
beyond the follower wait). -/
def c4Config : SimConfig :=
  { k := 5, arrivalSpreadMs := 0, indexDelayMs := 1000000000,
    recheckDelayMs := 10000, followerWaitMinMs := 30000,
    followerWaitMaxMs := 90000, seed := 42 }

/-- One entity's state after zero or more `entity_indexed` events: unchanged,
or with `indexed` set. -/
def esIndexUpgrade (es es' : EntityState) : Prop :=
  es' = es ∨ es' = { es with indexed := true }

/-- The relation between two simulation states separated only by
`entity_indexed` processing (the only events that can fire between two
pending follower waits besides the waits themselves): clusters unchanged,
entity states pointwise index-upgraded; clock, queue, seed and counter are
unconstrained as the follower-wait branch never reads them. -/
def indexUpgrade (st st' : SimState) : Prop :=
  st'.clusters = st.clusters ∧
  List.Forall₂ (fun p q => p.1 = q.1 ∧ esIndexUpgrade p.2 q.2)
    st.entityStates st'.entityStates

/-- Concrete two-entity instance of the amended claim C4: two ordinary
(person-typed) entities, mutually similar. -/
def c4wE1 : Entity := { id := "a", type := "person", label := "A", layer := 0 }

/-- The second entity of the concrete C4 instance. -/
def c4wE2 : Entity := { id := "b", type := "person", label := "B", layer := 0 }

/-- The simulation data of the concrete C4 instance. -/
def c4wData : SimulationData :=
  { entities := [c4wE1, c4wE2]
    similarities := [("a", [{ peerId := "b", score := 80 }]),
                     ("b", [{ peerId := "a", score := 80 }])] }

/-- Entity `a` of the concrete C4 instance: leader of its own solo cluster,
follower wait pending. -/
def c4wEs1 : EntityState :=
  { arrived := true, indexed := true, clusterId := some "cluster_1",
    isClusterLeader := true, processing := false, waitingForFollowers := true,
    followerWaitStartTime := some 0 }

/-- Entity `b` of the concrete C4 instance, leader of the second solo
cluster. -/
def c4wEs2 : EntityState :=
  { arrived := true, indexed := true, clusterId := some "cluster_2",
    isClusterLeader := true, processing := false, waitingForFollowers := true,
    followerWaitStartTime := some 0 }

/-- Solo cluster of entity `a`. -/
def c4wCl1 : ClusterState :=
  { id := "cluster_1", leaderId := "a", members := ["a"], createdAt := 0 }

/-- Solo cluster of entity `b`. -/
def c4wCl2 : ClusterState :=
  { id := "cluster_2", leaderId := "b", members := ["b"], createdAt := 0 }

/-- The concrete C4 state just before the first follower wait expires: both
entities lead solo clusters. -/
def c4wState : SimState :=
  { entityStates := [("a", c4wEs1), ("b", c4wEs2)]
    clusters := [("cluster_1", c4wCl1), ("cluster_2", c4wCl2)]
    eventQueue := [], currentTime := 40000, nextClusterId := 3, seed := 7 }

/-- The concrete C4 state after entity `a`'s follower wait has been
processed (no `entity_indexed` event intervenes before `b`'s wait). -/
def c4wMid : SimState :=
  processEvent c4wData c3Config c4wState
    { time := 40000, type := .follower_wait_ends, entityId := "a",
      clusterId := some "cluster_1" }

/-- Value of a decimal digit character (inverse of `digitChar` on 0–9). -/
def digitVal (c : Char) : Nat :=
  if c = '0' then 0 else if c = '1' then 1 else if c = '2' then 2
  else if c = '3' then 3 else if c = '4' then 4 else if c = '5' then 5
  else if c = '6' then 6 else if c = '7' then 7 else if c = '8' then 8 else 9

/-- Numeric value of a digit string (inverse of `natDigits`). -/
def digitsVal (l : List Char) : Nat :=
  l.foldl (fun a c => 10 * a + digitVal c) 0

/-- The events that drive an entity's control flow (everything except the
passive `entity_indexed` flag update and the two unused event types). -/
def ctrl (ev : Event) : Prop :=
  ev.type = .entity_arrives ∨ ev.type = .entity_searches ∨
  ev.type = .entity_rechecks ∨ ev.type = .follower_wait_ends

/-- The recorded cluster id of an entity, seen through the state lookup
(`none` = unknown entity, `some o` = entity present with clusterId `o`). -/
def cidView (st : SimState) (x : String) : Option (Option String) :=
  (alGet st.entityStates x).map (fun es => es.clusterId)

/-- Every cluster key was minted by the cluster-id counter and the minting
index is below the current counter; keys are pairwise distinct. -/
def InvClusters (st : SimState) : Prop :=
  (∀ p ∈ st.clusters, ∃ i, p.1 = mkClusterId i ∧ i < st.nextClusterId) ∧
  (st.clusters.map Prod.fst).Nodup

/-- P1, membership uniqueness: two cluster entries whose member sets share an
entity have the same key (with `InvClusters` this makes them the same
entry). -/
def InvUnique (st : SimState) : Prop :=
  ∀ p ∈ st.clusters, ∀ q ∈ st.clusters, ∀ x,
    x ∈ p.2.members → x ∈ q.2.members → p.1 = q.1

/-- A non-null recorded clusterId names an existing cluster that holds the
entity in its member set. -/
def InvCid (st : SimState) : Prop :=
  ∀ x c, cidView st x = some (some c) →
    ∃ cl, (c, cl) ∈ st.clusters ∧ x ∈ cl.members

/-- Every member of a cluster's member set records that cluster's key as its
clusterId. -/
def InvMem (st : SimState) : Prop :=
  ∀ p ∈ st.clusters, ∀ x, x ∈ p.2.members → cidView st x = some (some p.1)

/-- Scheduling discipline of a pending event: an entity still awaiting
arrival / search / recheck has no cluster; a pending follower wait's cluster
id is the entity's recorded cluster. -/
def qProp (st : SimState) (ev : Event) : Prop :=
  ((ev.type = .entity_arrives ∨ ev.type = .entity_searches ∨
      ev.type = .entity_rechecks) →
    ∀ o, cidView st ev.entityId = some o → o = none) ∧
  (∀ c, ev.type = .follower_wait_ends → ev.clusterId = some c →
    ∀ o, cidView st ev.entityId = some o → o = some c)

/-- The event queue respects the scheduling discipline, and no two pending
control events concern the same entity. -/
def InvQueue (st : SimState) : Prop :=
  (∀ ev ∈ st.eventQueue, qProp st ev) ∧
  List.Pairwise (fun a b => ctrl a → ctrl b → a.entityId ≠ b.entityId)
    st.eventQueue

/-- The cluster-side invariant, abstracted over the cluster list, the
cluster-id counter, and the entity-id ↦ recorded-cluster view (the four
cluster conjuncts of `Inv`, with `view = cidView st`). -/
def coreInv (cls : List (String × ClusterState)) (nid : Nat)
    (view : String → Option (Option String)) : Prop :=
  ((∀ p ∈ cls, ∃ i, p.1 = mkClusterId i ∧ i < nid) ∧
    (cls.map Prod.fst).Nodup) ∧
  (∀ p ∈ cls, ∀ q ∈ cls, ∀ x, x ∈ p.2.members → x ∈ q.2.members →
    p.1 = q.1) ∧
  (∀ x c, view x = some (some c) → ∃ cl, (c, cl) ∈ cls ∧ x ∈ cl.members) ∧
  (∀ p ∈ cls, ∀ x, x ∈ p.2.members → view x = some (some p.1))

/-- The full simulation invariant of claim C5. -/
def Inv (st : SimState) : Prop :=
  InvClusters st ∧ InvUnique st ∧ InvCid st ∧ InvMem st ∧ InvQueue st

end ClusterSim

namespace DescribeRetry

/-- The model of JavaScript `String.prototype.slice(0, n)`: the first `n`
characters (JS counts UTF-16 units; the prompts and responses involved are
treated character-wise). -/
def strTake (s : String) (n : Nat) : String :=
  ⟨s.data.take n⟩

/-- `GeminiResponse` — only its `content` is read by the retry logic. -/
structure GeminiResponse where
  content : String
deriving DecidableEq, Repr

/-- `DescribeResult` as assembled from the parsed JSON. -/
structure DescribeResult where
  description : String
  title : Option String
  label : Option String
deriving DecidableEq, Repr

/-- What the retry logic observes of a successfully `JSON.parse`d object:
the `description` field (whose being a string is validated), and the `title`
and `label` fields (passed through untouched, hence modelled only as the
optional strings the result would carry). -/
inductive JsonPrim where
  | str (s : String)
  | other
deriving DecidableEq, Repr

structure ParsedDescribe where
  description : Option JsonPrim
  title : Option String
  label : Option String
deriving DecidableEq, Repr

/-- `JSON_PARSE_MAX_RETRIES = 3`. -/
def JSON_PARSE_MAX_RETRIES : Nat := 3

/-- The `try { const parsed = JSON.parse(...); if (typeof parsed.description
!== 'string') throw ... }` body: `jsonParse` models the external `JSON.parse`
(returning the parse-error message on failure), and the field validation is
the script's own. -/
def parseAttempt (jsonParse : String → Except String ParsedDescribe)
    (content : String) : Except String DescribeResult :=
  match jsonParse content with
  | .error e => .error e
  | .ok p =>
    match p.description with
    | some (.str d) => .ok { description := d, title := p.title, label := p.label }
    | _ => .error "Missing or invalid \"description\" field"

/-- The previous malformed response as embedded into the retry prompt:
truncated to 2000 characters, with a `...[truncated]` marker when anything
was cut. -/
def truncatedCopy (content : String) : String :=
  strTake content 2000 ++ (if content.length > 2000 then "...[truncated]" else "")

/-- The `## RETRY - JSON PARSE ERROR` section appended to the user prompt on
a retry, verbatim from `callGeminiWithJsonRetry`. -/
def retrySection (updateLabel : Bool) (err : String) (priorContent : String) : String :=
  "\n\n## RETRY - JSON PARSE ERROR\n\nYour previous response could not be parsed as valid JSON.\n\n**Error:** "
    ++ err
    ++ "\n\n**Your response was:**\n```\n"
    ++ truncatedCopy priorContent
    ++ "\n```\n\nPlease provide a valid JSON response with the required fields: title, description"
    ++ (if updateLabel then ", label" else "")
    ++ "."

/-- The `throw new Error(...)` message after all attempts are exhausted.
`lastResponse?.content.slice(0, 200)` interpolates to the string "undefined"
when no response was recorded (unreachable with a positive retry count). -/
def failMessage (last : Option (GeminiResponse × String)) : String :=
  "Failed to get valid JSON after 3 attempts. Last error: "
    ++ (match last with | some (_, e) => e | none => "null")
    ++ ". Last response preview: "
    ++ (match last with | some (r, _) => strTake r.content 200 | none => "undefined")
    ++ "..."

/-- The `for (let attempt = 0; ...)` loop of `callGeminiWithJsonRetry`,
counting attempts left; `last` carries `lastResponse`/`lastError` (always
both set together).  `llm` models `callGemini` (system prompt, effective
user prompt → response). -/
def retryLoop (llm : String → String → GeminiResponse)
    (jsonParse : String → Except String ParsedDescribe)
    (updateLabel : Bool) (systemPrompt userPrompt : String) :
    Nat → Option (GeminiResponse × String) →
    Except String (GeminiResponse × DescribeResult)
  | 0, last => .error (failMessage last)
  | n + 1, last =>
    let effectiveUserPrompt :=
      match last with
      | some (r, e) => userPrompt ++ retrySection updateLabel e r.content
      | none => userPrompt
    let response := llm systemPrompt effectiveUserPrompt
    match parseAttempt jsonParse response.content with
    | .ok result => .ok (response, result)
    | .error e => retryLoop llm jsonParse updateLabel systemPrompt userPrompt n (some (response, e))

/-- `callGeminiWithJsonRetry` of tasks/todo.md: three attempts, feeding the
parse error and the truncated prior response back into the user prompt, and
throwing once every attempt has failed. -/
def callGeminiWithJsonRetry (llm : String → String → GeminiResponse)
    (jsonParse : String → Except String ParsedDescribe)
    (updateLabel : Bool) (systemPrompt userPrompt : String) :
    Except String (GeminiResponse × DescribeResult) :=
  retryLoop llm jsonParse updateLabel systemPrompt userPrompt JSON_PARSE_MAX_RETRIES none

end DescribeRetry

namespace Register

/-- A JSON value of the workflow-definition file.  Numbers are modelled as
integers (the substitution logic never computes with them — they pass
through unchanged). -/
inductive JValue where
  | str (s : String)
  | num (n : Int)
  | bool (b : Bool)
  | null
  | arr (xs : List JValue)
  | obj (fields : List (String × JValue))

/-- Whether a JS string `startsWith('$')` — its first character is `$`. -/
def headIsDollar (s : String) : Bool :=
  match s.data with
  | c :: _ => c == '$'
  | [] => false

/-- `s.slice(1)` — drop the first character. -/
def strTail (s : String) : String :=
  ⟨s.data.drop 1⟩

/-- The error thrown for an unset (or empty — JS `!value`) variable. -/
def missingVarError (envVar : String) : String :=
  "Environment variable " ++ envVar ++ " is not set"

mutual

/-- `substituteEnvVars` of the registration script.  `env` is
`process.env`.  A string value starting with `$` is replaced by the value of
the named variable; `if (!value) throw` fires both when the variable is
unset and when it is set to the empty string (both are falsy).  Object keys
starting with `$` are substituted with `process.env[key.slice(1)] ?? key` —
kept verbatim (including an empty value) when looked up, the original key
when unset. -/
def substituteEnvVars (env : String → Option String) : JValue → Except String JValue
  | .str s =>
    if headIsDollar s then
      let envVar := strTail s
      match env envVar with
      | none => .error (missingVarError envVar)
      | some v => if v = "" then .error (missingVarError envVar) else .ok (.str v)
    else .ok (.str s)
  | .num n => .ok (.num n)
  | .bool b => .ok (.bool b)
  | .null => .ok .null
  | .arr xs => (substArr env xs).map .arr
  | .obj fs => (substObj env fs).map .obj

/-- `obj.map(substituteEnvVars)` for arrays — the first thrown error
propagates. -/
def substArr (env : String → Option String) : List JValue → Except String (List JValue)
  | [] => .ok []
  | x :: xs => do
    let v ← substituteEnvVars env x
    let vs ← substArr env xs
    return v :: vs

/-- The `for (const [key, value] of Object.entries(obj))` loop. -/
def substObj (env : String → Option String) :
    List (String × JValue) → Except String (List (String × JValue))
  | [] => .ok []
  | (k, v) :: rest => do
    let newKey := if headIsDollar k then (env (strTail k)).getD k else k
    let v' ← substituteEnvVars env v
    let rest' ← substObj env rest
    return (newKey, v') :: rest'

end

/-- Whether no string value (and no key) anywhere in a JSON value starts
with `$` (specification-side helper for C9's "string values not beginning
with `$` are returned unchanged", applied to the whole document). -/
def noDollar : JValue → Bool
  | .str s => !headIsDollar s
  | .num _ => true
  | .bool _ => true
  | .null => true
  | .arr xs => xs.attach.all (fun ⟨x, h⟩ => noDollar x)
  | .obj fs => fs.attach.all (fun ⟨⟨k, v⟩, h⟩ => !headIsDollar k && noDollar v)
termination_by v => sizeOf v
decreasing_by
  · have := List.sizeOf_lt_of_mem h
    simp only [JValue.arr.sizeOf_spec]
    omega
  · have := List.sizeOf_lt_of_mem h
    simp only [Prod.mk.sizeOf_spec] at this
    simp only [JValue.obj.sizeOf_spec]
    omega

/-- The environment of the C9 counterexample: `X` is set to the empty
string, everything else is unset. -/
def c9Env : String → Option String :=
  fun v => if v = "X" then some "" else none

/-- A one-variable environment used by the C9 witness. -/
def wEnv : String → Option String :=
  fun v => if v = "Y" then some "val" else none

end Register

/-! ## Theorems -/

section ObserverLemmas

open Observer

/-- `findNumCopies` is the first `numCopies` value among the messages. -/
theorem findNumCopies_eq_head (l : List (Option Int)) :
    findNumCopies l = (l.filterMap id).head? := by
  induction l with
  | nil => rfl
  | cons x rest ih =>
    cases x with
    | some n => rfl
    | none => simpa [findNumCopies] using ih

/-- The handoff loop computes `-1` exactly when an UNKNOWN scatter occurs,
and otherwise adds the per-handoff weights to the accumulator. -/
theorem countHandoffs_eq (hs : List Handoff) :
    ∀ total : Int, countHandoffs total hs =
      if hs.any refUnknown then -1 else total + (hs.map refWeight).sum := by
  induction hs with
  | nil => intro total; simp [countHandoffs]
  | cons h rest ih =>
    intro total
    have step : ∀ w : Int, refWeight h = w → refUnknown h = false →
        countHandoffs total (h :: rest) = countHandoffs (total + w) rest →
        countHandoffs total (h :: rest) =
          if (h :: rest).any refUnknown then -1 else total + ((h :: rest).map refWeight).sum := by
      intro w hw hu hstep
      rw [hstep, ih]
      simp only [List.any_cons, hu, Bool.false_or, List.map_cons, List.sum_cons, hw]
      split <;> omega
    by_cases h1 : (h.type == "invoke" || h.type == "pass") = true
    · have hne : (h.type == "scatter") = false := by
        rcases Bool.or_eq_true_iff.mp h1 with h2 | h2 <;> simp_all [beq_iff_eq]
      refine step 1 ?_ ?_ ?_
      · rcases Bool.or_eq_true_iff.mp h1 with h2 | h2 <;> simp [refWeight, beq_iff_eq.mp h2]
      · simp [refUnknown, hne]
      · simp [countHandoffs, h1]
    · have hni : (h.type == "invoke") = false := by
        cases hx : (h.type == "invoke") <;> simp_all
      have hnp : (h.type == "pass") = false := by
        cases hx : (h.type == "pass") <;> simp_all
      by_cases h2 : (h.type == "scatter") = true
      · have hng : (h.type == "gather") = false := by simp [beq_iff_eq.mp h2]
        have stepLen : ∀ w : Int, refWeight h = w →
            refUnknown h = false →
            countHandoffs total (h :: rest) = countHandoffs (total + w) rest →
            countHandoffs total (h :: rest) =
              if (h :: rest).any refUnknown = true then -1
              else total + (List.map refWeight (h :: rest)).sum := step
        have deleg : h.delegated.getD false = true →
            countHandoffs total (h :: rest) = -1 →
            refUnknown h = true →
            countHandoffs total (h :: rest) =
              if (h :: rest).any refUnknown = true then -1
              else total + (List.map refWeight (h :: rest)).sum := by
          intro _ hl hu
          rw [hl]
          simp [List.any_cons, hu]
        rcases ho : h.outputs with _ | ⟨_ | ⟨o, os⟩⟩ <;>
          rcases hi : h.invocations with _ | ⟨_ | ⟨i2, is2⟩⟩
        -- outputs none, invocations none
        · rcases hd : h.delegated.getD false with _ | _
          · refine stepLen 1 ?_ ?_ ?_
            · simp [refWeight, hni, hnp, hng, h2, ho, hi]
            · simp [refUnknown, ho, hi, hd]
            · simp [countHandoffs, h1, h2, ho, hi, hd]
          · refine deleg hd ?_ ?_
            · simp [countHandoffs, h1, h2, ho, hi, hd]
            · simp [refUnknown, h2, ho, hi, hd]
        -- outputs none, invocations some []
        · rcases hd : h.delegated.getD false with _ | _
          · refine stepLen 1 ?_ ?_ ?_
            · simp [refWeight, hni, hnp, hng, h2, ho, hi]
            · simp [refUnknown, ho, hi, hd]
            · simp [countHandoffs, h1, h2, ho, hi, hd]
          · refine deleg hd ?_ ?_
            · simp [countHandoffs, h1, h2, ho, hi, hd]
            · simp [refUnknown, h2, ho, hi, hd]
        -- outputs none, invocations some (i2 :: is2)
        · refine stepLen ((i2 :: is2).length : Int) ?_ ?_ ?_
          · simp [refWeight, hni, hnp, hng, h2, ho, hi]
          · simp [refUnknown, ho, hi]
          · simp [countHandoffs, h1, h2, ho, hi]
        -- outputs some [], invocations none
        · rcases hd : h.delegated.getD false with _ | _
          · refine stepLen 1 ?_ ?_ ?_
            · simp [refWeight, hni, hnp, hng, h2, ho, hi]
            · simp [refUnknown, ho, hi, hd]
            · simp [countHandoffs, h1, h2, ho, hi, hd]
          · refine deleg hd ?_ ?_
            · simp [countHandoffs, h1, h2, ho, hi, hd]
            · simp [refUnknown, h2, ho, hi, hd]
        -- outputs some [], invocations some []
        · rcases hd : h.delegated.getD false with _ | _
          · refine stepLen 1 ?_ ?_ ?_
            · simp [refWeight, hni, hnp, hng, h2, ho, hi]
            · simp [refUnknown, ho, hi, hd]
            · simp [countHandoffs, h1, h2, ho, hi, hd]
          · refine deleg hd ?_ ?_
            · simp [countHandoffs, h1, h2, ho, hi, hd]
            · simp [refUnknown, h2, ho, hi, hd]
        -- outputs some [], invocations some (i2 :: is2)
        · refine stepLen ((i2 :: is2).length : Int) ?_ ?_ ?_
          · simp [refWeight, hni, hnp, hng, h2, ho, hi]
          · simp [refUnknown, ho, hi]
          · simp [countHandoffs, h1, h2, ho, hi]
        -- outputs some (o :: os), invocations arbitrary
        · refine stepLen ((o :: os).length : Int) ?_ ?_ ?_
          · simp [refWeight, hni, hnp, hng, h2, ho, hi]
          · simp [refUnknown, ho, hi]
          · simp [countHandoffs, h1, h2, ho, hi]
        · refine stepLen ((o :: os).length : Int) ?_ ?_ ?_
          · simp [refWeight, hni, hnp, hng, h2, ho, hi]
          · simp [refUnknown, ho, hi]
          · simp [countHandoffs, h1, h2, ho, hi]
        · refine stepLen ((o :: os).length : Int) ?_ ?_ ?_
          · simp [refWeight, hni, hnp, hng, h2, ho, hi]
          · simp [refUnknown, ho, hi]
          · simp [countHandoffs, h1, h2, ho, hi]
      · by_cases h3 : (h.type == "gather") = true
        · refine step 1 ?_ ?_ ?_
          · simp [refWeight, hni, hnp, h2, beq_iff_eq.mp h3]
          · simp [refUnknown, h2]
          · simp [countHandoffs, h1, h2, h3]
        · refine step 0 ?_ ?_ ?_
          · simp [refWeight, hni, hnp, h2, h3]
          · simp [refUnknown, h2]
          · simp [countHandoffs, h1, h2, h3]

end ObserverLemmas

/-- C1 (counterexample): on a log whose only handoff is a scatter with
`outputs` present but empty, the code computes 1 (the empty array is truthy
but fails the non-emptiness test, so the `else → +1` arm fires), while the
claim's reference definition computes `len(outputs) = 0`. -/
theorem c1_counterexample :
    Observer.getExpectedChildrenCount Observer.c1Log = 1 ∧
    Observer.expectedChildrenClaim Observer.c1Log = 0 := by
  constructor <;> rfl

/-- C1 (amended): `getExpectedChildrenCount` equals the reference definition
once a scatter's `outputs`/`invocations` are required to be present *and
non-empty* to contribute their length (an empty-but-present `outputs` falls
through to the `invocations`/`delegated`/`+1` chain). -/
theorem c1_expected_children_amended (log : Observer.LogEntry) :
    Observer.getExpectedChildrenCount log = Observer.expectedChildrenRef log := by
  unfold Observer.getExpectedChildrenCount Observer.expectedChildrenRef
  rw [← findNumCopies_eq_head]
  cases Observer.findNumCopies log.messages with
  | some n => rfl
  | none =>
    simp only []
    rw [countHandoffs_eq]
    cases hh : log.handoffs with
    | nil => simp
    | cons h rest => simp [List.isEmpty]

section RegisterLemmas

open Register

/-- Arrays whose elements substitute to themselves substitute to
themselves. -/
theorem substArr_ok (env : String → Option String) (xs : List JValue)
    (h : ∀ x ∈ xs, substituteEnvVars env x = .ok x) :
    substArr env xs = .ok xs := by
  induction xs with
  | nil => simp [substArr]
  | cons x rest ih =>
    have hx := h x (by simp)
    have hr := ih (fun y hy => h y (by simp [hy]))
    simp [substArr, hx, hr, Bind.bind, Except.bind, Pure.pure, Except.pure]

/-- Object field lists whose keys do not start with `$` and whose values
substitute to themselves substitute to themselves. -/
theorem substObj_ok (env : String → Option String) (fs : List (String × JValue))
    (h : ∀ p ∈ fs, headIsDollar p.1 = false ∧ substituteEnvVars env p.2 = .ok p.2) :
    substObj env fs = .ok fs := by
  induction fs with
  | nil => simp [substObj]
  | cons p rest ih =>
    have hp := h p (by simp)
    have hr := ih (fun q hq => h q (by simp [hq]))
    cases p with
    | mk k v => simp only at hp; simp [substObj, hp.1, hp.2, hr, Bind.bind, Except.bind, Pure.pure, Except.pure]

/-- A value containing no `$`-prefixed string (and no `$`-prefixed key) is
returned unchanged. -/
theorem subst_noDollar (env : String → Option String) :
    ∀ w : JValue, noDollar w = true → substituteEnvVars env w = .ok w := by
  have main : ∀ n : Nat, ∀ w : JValue, sizeOf w ≤ n → noDollar w = true →
      substituteEnvVars env w = .ok w := by
    intro n
    induction n with
    | zero =>
      intro w hw
      exfalso
      cases w <;> simp at hw <;> omega
    | succ n ih =>
      intro w hw hnd
      cases w with
      | str s =>
        have : headIsDollar s = false := by simpa [noDollar] using hnd
        simp [substituteEnvVars, this]
      | num m => simp [substituteEnvVars]
      | bool b => simp [substituteEnvVars]
      | null => simp [substituteEnvVars]
      | arr xs =>
        have hsz : sizeOf xs ≤ n := by
          have := hw; simp only [JValue.arr.sizeOf_spec] at this; omega
        have helts : ∀ x ∈ xs, substituteEnvVars env x = .ok x := by
          intro x hx
          have h1 : sizeOf x < sizeOf xs := List.sizeOf_lt_of_mem hx
          have h2 : noDollar x = true := by
            have := hnd
            simp only [noDollar, List.all_eq_true, List.mem_attach, true_implies,
              Subtype.forall] at this
            exact this x hx
          exact ih x (by omega) h2
        simp [substituteEnvVars, substArr_ok env xs helts, Except.map]
      | obj fs =>
        have hsz : sizeOf fs ≤ n := by
          have := hw; simp only [JValue.obj.sizeOf_spec] at this; omega
        have helts : ∀ p ∈ fs, headIsDollar p.1 = false ∧
            substituteEnvVars env p.2 = .ok p.2 := by
          intro p hp
          have h1 : sizeOf p < sizeOf fs := List.sizeOf_lt_of_mem hp
          have h2 := hnd
          simp only [noDollar, List.all_eq_true, List.mem_attach, true_implies,
            Subtype.forall] at h2
          have h3 := h2 p hp
          cases p with
          | mk k v =>
            have h1' : sizeOf v < sizeOf fs := by
              simp only [Prod.mk.sizeOf_spec] at h1; omega
            simp only [Bool.and_eq_true, Bool.not_eq_true'] at h3
            exact ⟨h3.1, ih v (by omega) h3.2⟩
        simp [substituteEnvVars, substObj_ok env fs helts, Except.map]
  intro w
  exact main (sizeOf w) w le_rfl

end RegisterLemmas

/-- C9 (counterexample): with the environment variable `X` *set* to the
empty string, the value `"$X"` is not replaced by the variable's value `""`
— `if (!value)` treats the empty string as missing and the substitution
throws. -/
theorem c9_counterexample :
    Register.c9Env "X" = some "" ∧
    Register.substituteEnvVars Register.c9Env (Register.JValue.str "$X") =
      .error (Register.missingVarError "X") ∧
    Register.substituteEnvVars Register.c9Env (Register.JValue.str "$X") ≠
      .ok (Register.JValue.str "") := by
  have h1 : Register.headIsDollar "$X" = true := by decide
  have h2 : Register.strTail "$X" = "X" := by decide
  have h3 : Register.substituteEnvVars Register.c9Env (Register.JValue.str "$X") =
      .error (Register.missingVarError "X") := by
    simp [Register.substituteEnvVars, h1, h2, Register.c9Env]
  refine ⟨rfl, h3, ?_⟩
  rw [h3]
  intro h
  exact Except.noConfusion h

/-- C9 (amended): env-var substitution replaces a `$`-prefixed string value
by the variable's value when that value is non-empty; it throws an error
naming the variable when the variable is unset *or set to the empty string*
(JS `!value`); non-`$` strings are returned unchanged; arrays and objects are
traversed elementwise (so the above applies to every nested string value),
and a document with no `$`-prefixed strings or keys is returned unchanged. -/
theorem c9_substitute_env_vars_amended (env : String → Option String) (s : String) :
    (Register.headIsDollar s = true → ∀ v, env (Register.strTail s) = some v → v ≠ "" →
      Register.substituteEnvVars env (.str s) = .ok (.str v)) ∧
    (Register.headIsDollar s = true →
      (env (Register.strTail s) = none ∨ env (Register.strTail s) = some "") →
      Register.substituteEnvVars env (.str s) =
        .error (Register.missingVarError (Register.strTail s))) ∧
    (Register.headIsDollar s = false →
      Register.substituteEnvVars env (.str s) = .ok (.str s)) ∧
    (∀ xs, Register.substituteEnvVars env (.arr xs) =
      (Register.substArr env xs).map .arr) ∧
    (∀ fs, Register.substituteEnvVars env (.obj fs) =
      (Register.substObj env fs).map .obj) ∧
    (∀ w, Register.noDollar w = true → Register.substituteEnvVars env w = .ok w) := by
  refine ⟨?_, ?_, ?_, ?_, ?_, subst_noDollar env⟩
  · intro hd v hv hne
    simp [Register.substituteEnvVars, hd, hv, hne]
  · intro hd hcase
    rcases hcase with hv | hv <;> simp [Register.substituteEnvVars, hd, hv]
  · intro hd
    simp [Register.substituteEnvVars, hd]
  · intro xs
    simp [Register.substituteEnvVars]
  · intro fs
    simp [Register.substituteEnvVars]

/-- Witness for `c9_substitute_env_vars_amended` at concrete inputs: the
variable `Y` set to `"val"` substitutes, and a plain string passes through. -/
theorem c9_substitute_env_vars_amended_witness :
    Register.substituteEnvVars Register.wEnv (.str "$Y") = .ok (.str "val") ∧
    Register.substituteEnvVars Register.wEnv (.str "plain") = .ok (.str "plain") := by
  have h1 := (c9_substitute_env_vars_amended Register.wEnv "$Y").1
  have h2 := (c9_substitute_env_vars_amended Register.wEnv "plain").2.2.1
  exact ⟨h1 (by decide) "val" (by decide) (by decide), h2 (by decide)⟩

/-- C8: `callGeminiWithJsonRetry` makes at most three LLM calls; the first
uses the caller's user prompt verbatim; each retry appends the retry section
built from the previous attempt's parse-error message and its response
truncated to 2000 characters; if all three attempts fail to parse, the
function throws.  The second conjunct pins down the retry section: it embeds
the error message and the truncated copy, whose untruncated-part length never
exceeds 2000. -/
theorem c8_json_retry_with_feedback
    (llm : String → String → DescribeRetry.GeminiResponse)
    (jsonParse : String → Except String DescribeRetry.ParsedDescribe)
    (ul : Bool) (sys user : String) :
    (DescribeRetry.callGeminiWithJsonRetry llm jsonParse ul sys user =
      (let r1 := llm sys user
       match DescribeRetry.parseAttempt jsonParse r1.content with
       | .ok d => .ok (r1, d)
       | .error e1 =>
         let r2 := llm sys (user ++ DescribeRetry.retrySection ul e1 r1.content)
         match DescribeRetry.parseAttempt jsonParse r2.content with
         | .ok d => .ok (r2, d)
         | .error e2 =>
           let r3 := llm sys (user ++ DescribeRetry.retrySection ul e2 r2.content)
           match DescribeRetry.parseAttempt jsonParse r3.content with
           | .ok d => .ok (r3, d)
           | .error e3 => .error (DescribeRetry.failMessage (some (r3, e3))))) ∧
    (∀ e c, DescribeRetry.retrySection ul e c =
        "\n\n## RETRY - JSON PARSE ERROR\n\nYour previous response could not be parsed as valid JSON.\n\n**Error:** "
          ++ e ++ "\n\n**Your response was:**\n```\n" ++ DescribeRetry.truncatedCopy c
          ++ "\n```\n\nPlease provide a valid JSON response with the required fields: title, description"
          ++ (if ul then ", label" else "") ++ "." ∧
      (DescribeRetry.strTake c 2000).length ≤ 2000) := by
  constructor
  · rfl
  · intro e c
    refine ⟨rfl, ?_⟩
    show (c.data.take 2000).length ≤ 2000
    calc (c.data.take 2000).length = min 2000 c.data.length := List.length_take _ _
    _ ≤ 2000 := min_le_left _ _

section ObserverTreeLemmas

open Observer

theorem attachFlatMap {α β : Type} (l : List α) (f : α → List β) :
    (l.attach.flatMap fun x => f x.1) = l.flatMap f := by
  conv_rhs => rw [← List.attach_map_subtype_val l]
  rw [List.flatMap_map]

theorem attachAll {α : Type} (l : List α) (f : α → Bool) :
    (l.attach.all fun x => f x.1) = l.all f := by
  rw [Bool.eq_iff_iff]
  simp [List.all_eq_true]

theorem collectLeaves_mk (i st kl : String) (e : Int) (a : Nat)
    (cs : List TreeNode) (t l : Bool) :
    collectLeaves (.mk i st kl e a cs t l) =
      if cs.isEmpty then [.mk i st kl e a cs t l] else cs.flatMap collectLeaves := by
  rw [collectLeaves, attachFlatMap]

theorem checkACD_mk (i st kl : String) (e : Int) (a : Nat)
    (cs : List TreeNode) (t l : Bool) :
    checkAllChildrenDiscovered (.mk i st kl e a cs t l) =
      (if !t then true
       else if e < 0 then false
       else if (cs.length : Int) < e then false
       else cs.all checkAllChildrenDiscovered) := by
  rw [checkAllChildrenDiscovered, attachAll]

theorem allNodes_mk (i st kl : String) (e : Int) (a : Nat)
    (cs : List TreeNode) (t l : Bool) :
    allNodes (.mk i st kl e a cs t l) =
      .mk i st kl e a cs t l :: cs.flatMap allNodes := by
  rw [allNodes, attachFlatMap]

theorem checkedNodes_mk (i st kl : String) (e : Int) (a : Nat)
    (cs : List TreeNode) (t l : Bool) :
    checkedNodes (.mk i st kl e a cs t l) =
      (if t then .mk i st kl e a cs t l :: cs.flatMap checkedNodes else []) := by
  rw [checkedNodes]
  by_cases ht : t <;> simp [ht, attachFlatMap]

/-- Induction over the built tree: to prove `P` everywhere it suffices to
prove it at each node assuming it for all children. -/
theorem treeNodeInduction (P : TreeNode → Prop)
    (h : ∀ i st kl e a cs t l, (∀ c ∈ cs, P c) → P (.mk i st kl e a cs t l)) :
    ∀ n : TreeNode, P n := by
  intro n
  refine TreeNode.rec (motive_1 := P) (motive_2 := fun cs => ∀ c ∈ cs, P c) ?_ ?_ ?_ n
  · exact fun i st kl e a cs t l ih => h i st kl e a cs t l ih
  · intro c hc
    exact absurd hc (List.not_mem_nil c)
  · intro x xs hx hxs c hc
    rcases List.mem_cons.mp hc with rfl | hmem
    · exact hx
    · exact hxs c hmem

/-- The recursive children check passes iff every node it actually inspects
— terminal nodes reachable through terminal ancestors — has a non-negative
expected count not exceeding its child count. -/
theorem checkACD_iff : ∀ nd : TreeNode,
    checkAllChildrenDiscovered nd = true ↔
      ∀ n ∈ checkedNodes nd,
        0 ≤ n.expectedChildren ∧ n.expectedChildren ≤ (n.children.length : Int) := by
  refine treeNodeInduction _ ?_
  intro i st kl e a cs t l ih
  rw [checkACD_mk, checkedNodes_mk]
  cases t with
  | false => simp
  | true =>
    simp only [Bool.not_true, Bool.false_eq_true, if_false, if_true]
    by_cases he : e < 0
    · simp only [he, if_true]
      constructor
      · intro hfalse; exact absurd hfalse (by simp)
      · intro hr
        have := hr (.mk i st kl e a cs true l) (List.mem_cons_self _ _)
        simp [TreeNode.expectedChildren] at this
        omega
    · simp only [he, if_false]
      by_cases hlen : (cs.length : Int) < e
      · simp only [hlen, if_true]
        constructor
        · intro hfalse; exact absurd hfalse (by simp)
        · intro hr
          have := hr (.mk i st kl e a cs true l) (List.mem_cons_self _ _)
          simp [TreeNode.expectedChildren, TreeNode.children] at this
          omega
      · simp only [hlen, if_false]
        rw [List.all_eq_true]
        constructor
        · intro hall n hn
          rcases List.mem_cons.mp hn with rfl | hmem
          · simp [TreeNode.expectedChildren, TreeNode.children]
            omega
          · rcases List.mem_flatMap.mp hmem with ⟨c, hc, hnc⟩
            exact ((ih c hc).mp (hall c hc)) n hnc
        · intro hr c hc
          refine (ih c hc).mpr ?_
          intro n hn
          exact hr n (List.mem_cons_of_mem _ (List.mem_flatMap.mpr ⟨c, hc, hn⟩))

end ObserverTreeLemmas

/-- C2 (counterexample): on `c2Graph` — a running root with a single
terminal child that expects five children and has none — the observer
reports `isComplete = true` (the child check skips the non-terminal root's
subtree entirely), while the claim's condition (b), quantified over *every*
terminal log of the tree, is false at the child. -/
theorem c2_counterexample :
    (Observer.buildTree Observer.c2Graph 3 "a" []).1 = some Observer.c2Root ∧
    Observer.isComplete Observer.c2Root = true ∧
    Observer.claimCompleteB Observer.c2Root = false := by
  refine ⟨rfl, ?_, ?_⟩
  · simp [Observer.isComplete, Observer.c2Root, collectLeaves_mk, checkACD_mk,
      Observer.TreeNode.isTerminal]
  · simp [Observer.claimCompleteB, Observer.c2Root, collectLeaves_mk, allNodes_mk,
      Observer.TreeNode.isTerminal, Observer.TreeNode.expectedChildren,
      Observer.TreeNode.children]

/-- C2 (amended): the observer reports `isComplete = true` iff (a) every
leaf of the built tree is terminal and (b) every node that
`checkAllChildrenDiscovered` inspects — i.e. every terminal log reachable
from the root through terminal ancestors only — has a known (non-negative)
expected-children count not exceeding its number of children.  Terminal logs
below a still-running log are *not* checked. -/
theorem c2_is_complete_amended (g : List (String × Observer.LogEntry))
    (fl : String) (fuel : Nat) (root : Observer.TreeNode) (vis : List String)
    (hbuild : Observer.buildTree g fuel fl [] = (some root, vis)) :
    Observer.isComplete root = true ↔
      ((∀ l ∈ Observer.collectLeaves root, l.isTerminal = true) ∧
        ∀ n ∈ Observer.checkedNodes root,
          0 ≤ n.expectedChildren ∧ n.expectedChildren ≤ (n.children.length : Int)) := by
  unfold Observer.isComplete
  rw [Bool.and_eq_true, List.all_eq_true, checkACD_iff]

/-- Witness for `c2_is_complete_amended`: on the one-log `done` graph the
equivalence applies and yields `isComplete = true`. -/
theorem c2_is_complete_amended_witness :
    Observer.isComplete Observer.c2DoneRoot = true := by
  have h := c2_is_complete_amended Observer.c2DoneGraph "a" 2 Observer.c2DoneRoot ["a"] rfl
  refine h.mpr ⟨?_, ?_⟩
  · simp [Observer.c2DoneRoot, collectLeaves_mk, Observer.TreeNode.isTerminal]
  · simp [Observer.c2DoneRoot, checkedNodes_mk, Observer.TreeNode.expectedChildren,
      Observer.TreeNode.children]

section ExtensionLemmas

open Observer

theorem all_flatMap (l : List TreeNode) (f : TreeNode → List TreeNode)
    (p : TreeNode → Bool) :
    ((l.flatMap f).all p) = l.all (fun x => (f x).all p) := by
  rw [Bool.eq_iff_iff]
  simp only [List.all_eq_true, List.mem_flatMap]
  constructor
  · intro h x hx n hn
    exact h n ⟨x, hx, hn⟩
  · rintro h n ⟨x, hx, hn⟩
    exact h x hx n hn

/-- Transfer of an `all` along an extension of a child list: the retained
prefix is covered pairwise through `r`, the appended suffix directly by
`q`. -/
theorem all_extended (r : TreeNode → TreeNode → Bool) (p q : TreeNode → Bool) :
    ∀ (cs ds : List TreeNode),
    cs.length ≤ ds.length →
    ((cs.zip (ds.take cs.length)).all fun x => r x.1 x.2) = true →
    ((ds.drop cs.length).all q) = true →
    (cs.all p) = true →
    (∀ c ∈ cs, ∀ d, r c d = true → p c = true → q d = true) →
    ds.all q = true := by
  intro cs
  induction cs with
  | nil =>
    intro ds _ _ hdrop _ _
    simpa using hdrop
  | cons c cs' ih =>
    intro ds hlen hzip hdrop hall himp
    cases ds with
    | nil => simp at hlen
    | cons d ds' =>
      simp only [List.length_cons, List.take_succ_cons, List.zip_cons_cons,
        List.all_cons, Bool.and_eq_true, List.drop_succ_cons] at hzip hdrop hall ⊢
      refine ⟨himp c (by simp) d hzip.1 hall.1, ?_⟩
      exact ih ds' (by simpa using hlen) hzip.2 hdrop hall.2
        (fun x hx => himp x (by simp [hx]))

theorem attachAllPair (l : List (Observer.TreeNode × Observer.TreeNode))
    (f : Observer.TreeNode → Observer.TreeNode → Bool) :
    ∀ g : {x // x ∈ l} → Bool, (∀ p h, g ⟨p, h⟩ = f p.1 p.2) →
    l.attach.all g = l.all fun x => f x.1 x.2 := by
  intro g hg
  rw [Bool.eq_iff_iff]
  simp only [List.all_eq_true, List.mem_attach, true_implies, Subtype.forall]
  constructor
  · intro h p hp
    have := h p hp
    rwa [hg] at this
  · intro h p hp
    rw [hg]
    exact h p hp

theorem extendsTree_mk (i st kl : String) (e : Int) (a : Nat)
    (cs : List TreeNode) (t l : Bool) (t' : TreeNode) :
    extendsTree (.mk i st kl e a cs t l) t' =
      (i == t'.id && st == t'.status && e == t'.expectedChildren &&
       t == t'.isTerminal && decide (cs.length ≤ t'.children.length) &&
       ((cs.zip (t'.children.take cs.length)).all fun x => extendsTree x.1 x.2)) := by
  rw [extendsTree]
  congr 1
  exact attachAllPair _ extendsTree _ (fun p h => by cases p; rfl)

theorem extendsComplete_mk (i st kl : String) (e : Int) (a : Nat)
    (cs : List TreeNode) (t l : Bool) (t' : TreeNode) :
    extendsComplete (.mk i st kl e a cs t l) t' =
      (i == t'.id && st == t'.status && e == t'.expectedChildren &&
       t == t'.isTerminal && decide (cs.length ≤ t'.children.length) &&
       ((cs.zip (t'.children.take cs.length)).all fun x => extendsComplete x.1 x.2) &&
       (t'.children.drop cs.length).all isComplete) := by
  rw [extendsComplete]
  congr 2
  exact attachAllPair _ extendsComplete _ (fun p h => by cases p; rfl)

/-- Extension by complete subtrees preserves "all leaves terminal". -/
theorem leaves_terminal_extended : ∀ nd : TreeNode, ∀ t',
    extendsComplete nd t' = true →
    (collectLeaves nd).all TreeNode.isTerminal = true →
    (collectLeaves t').all TreeNode.isTerminal = true := by
  refine treeNodeInduction _ ?_
  intro i st kl e a cs t l ih t' hext hlv
  cases t' with
  | mk i' st' kl' e' a' cs' tb' lb' =>
    rw [extendsComplete_mk] at hext
    simp only [Bool.and_eq_true, beq_iff_eq, decide_eq_true_eq,
      TreeNode.id, TreeNode.status, TreeNode.expectedChildren,
      TreeNode.isTerminal, TreeNode.children] at hext
    obtain ⟨⟨⟨⟨⟨⟨hid, hst⟩, he⟩, hterm⟩, hlen⟩, hzip⟩, hdrop⟩ := hext
    rw [collectLeaves_mk] at hlv
    rw [collectLeaves_mk]
    have hlv' : cs.all (fun c => (collectLeaves c).all TreeNode.isTerminal) = true := by
      by_cases hemp : cs.isEmpty = true
      · rw [List.isEmpty_iff.mp hemp]; rfl
      · rw [if_neg hemp] at hlv
        rwa [all_flatMap] at hlv
    rcases hcs' : cs' with _ | ⟨d, ds⟩
    · -- the extended node has no children: neither had the original
      have hcs : cs = [] := by
        rw [hcs'] at hlen
        simpa using List.length_eq_zero.mp (Nat.le_zero.mp hlen)
      rw [hcs] at hlv
      simp only [List.isEmpty_nil, if_pos rfl, List.all_cons, List.all_nil,
        TreeNode.isTerminal, Bool.and_true] at hlv ⊢
      rw [← hterm]
      exact hlv
    · rw [hcs'] at hlen hzip hdrop
      rw [if_neg (by simp)]
      rw [all_flatMap]
      exact all_extended extendsComplete
        (fun c => (collectLeaves c).all TreeNode.isTerminal)
        (fun c => (collectLeaves c).all TreeNode.isTerminal)
        cs (d :: ds) hlen hzip
        (by
          rw [List.all_eq_true] at hdrop ⊢
          intro d' hd'
          have hcomp := hdrop d' hd'
          rw [isComplete, Bool.and_eq_true] at hcomp
          exact hcomp.1)
        hlv'
        (fun c hc d0 hrd hpc => ih c hc d0 hrd hpc)

/-- Extension by complete subtrees preserves the children check. -/
theorem checkACD_extended : ∀ nd : TreeNode, ∀ t',
    extendsComplete nd t' = true →
    checkAllChildrenDiscovered nd = true →
    checkAllChildrenDiscovered t' = true := by
  refine treeNodeInduction _ ?_
  intro i st kl e a cs t l ih t' hext hchk
  cases t' with
  | mk i' st' kl' e' a' cs' tb' lb' =>
    rw [extendsComplete_mk] at hext
    simp only [Bool.and_eq_true, beq_iff_eq, decide_eq_true_eq,
      TreeNode.id, TreeNode.status, TreeNode.expectedChildren,
      TreeNode.isTerminal, TreeNode.children] at hext
    obtain ⟨⟨⟨⟨⟨⟨hid, hst⟩, he⟩, hterm⟩, hlen⟩, hzip⟩, hdrop⟩ := hext
    rw [checkACD_mk] at hchk ⊢
    cases tb' with
    | false => simp
    | true =>
      have ht : t = true := hterm
      rw [ht] at hchk
      simp only [Bool.not_true, Bool.false_eq_true, if_false] at hchk ⊢
      have hneg : ¬ e < 0 := by
        intro hneg
        rw [if_pos hneg] at hchk
        exact absurd hchk (by simp)
      rw [if_neg hneg] at hchk
      have hlt : ¬ ((cs.length : Int) < e) := by
        intro hlt
        rw [if_pos hlt] at hchk
        exact absurd hchk (by simp)
      rw [if_neg hlt] at hchk
      rw [← he]
      rw [if_neg hneg]
      rw [if_neg (show ¬ ((cs'.length : Int) < e) by omega)]
      exact all_extended extendsComplete
        checkAllChildrenDiscovered checkAllChildrenDiscovered
        cs cs' hlen hzip
        (by
          rw [List.all_eq_true] at hdrop ⊢
          intro d' hd'
          have hcomp := hdrop d' hd'
          rw [isComplete, Bool.and_eq_true] at hcomp
          exact hcomp.2)
        hchk
        (fun c hc d hrd hpc => ih c hc d hrd hpc)

end ExtensionLemmas

/-- C6 (counterexample): extending the complete one-log tree `c6Base` by a
single still-running child log (`c6Ext` — a plain extension in the claim's
sense) flips the oracle's verdict from `true` to `false`: the new leaf is not
terminal.  Monotonicity as claimed fails. -/
theorem c6_counterexample :
    Observer.extendsTree Observer.c6Base Observer.c6Ext = true ∧
    Observer.isComplete Observer.c6Base = true ∧
    Observer.isComplete Observer.c6Ext = false := by
  refine ⟨?_, ?_, ?_⟩
  · simp [Observer.c6Base, Observer.c6Ext, extendsTree_mk, Observer.TreeNode.id,
      Observer.TreeNode.status, Observer.TreeNode.expectedChildren,
      Observer.TreeNode.isTerminal, Observer.TreeNode.children]
  · simp [Observer.c6Base, Observer.isComplete, collectLeaves_mk, checkACD_mk,
      Observer.TreeNode.isTerminal]
  · simp [Observer.c6Ext, Observer.isComplete, collectLeaves_mk, checkACD_mk,
      Observer.TreeNode.isTerminal]

/-- C6 (amended): re-running the oracle on the same tree trivially yields the
same verdict (it is a pure function of the tree), and extension monotonicity
holds under the side condition the counterexample forces: a complete tree
stays complete when every *added* subtree is itself complete (all of its
leaves terminal and its children check passing).  Adding a non-terminal (or
otherwise incomplete) log can flip `true` to `false`. -/
theorem c6_oracle_idempotent_monotone_amended (t t' : Observer.TreeNode) :
    (Observer.isComplete t = Observer.isComplete t) ∧
    (Observer.extendsComplete t t' = true →
      Observer.isComplete t = true → Observer.isComplete t' = true) := by
  refine ⟨rfl, fun hext hc => ?_⟩
  rw [Observer.isComplete, Bool.and_eq_true] at hc ⊢
  exact ⟨leaves_terminal_extended t t' hext hc.1,
    checkACD_extended t t' hext hc.2⟩

/-- Witness for `c6_oracle_idempotent_monotone_amended`: extending `c6Base`
by a terminal zero-expectation child keeps the tree complete. -/
theorem c6_oracle_idempotent_monotone_amended_witness :
    Observer.isComplete Observer.c6Ext2 = true := by
  refine (c6_oracle_idempotent_monotone_amended Observer.c6Base Observer.c6Ext2).2 ?_ ?_
  · simp [Observer.c6Base, Observer.c6Ext2, extendsComplete_mk, Observer.TreeNode.id,
      Observer.TreeNode.status, Observer.TreeNode.expectedChildren,
      Observer.TreeNode.isTerminal, Observer.TreeNode.children, Observer.isComplete,
      collectLeaves_mk, checkACD_mk]
  · simp [Observer.c6Base, Observer.isComplete, collectLeaves_mk, checkACD_mk,
      Observer.TreeNode.isTerminal]

section BuildTreeLemmas

open Observer

theorem length_filter_mono {α : Type} (l : List α) (p q : α → Bool)
    (himp : ∀ a, q a = true → p a = true) :
    (l.filter q).length ≤ (l.filter p).length := by
  induction l with
  | nil => simp
  | cons a l' ih =>
    simp only [List.filter_cons]
    cases hq : q a <;> cases hp : p a
    · simpa using ih
    · simp only [hq, hp, Bool.false_eq_true, if_false, if_true, List.length_cons]
      omega
    · have hcontra := himp a hq
      rw [hp] at hcontra
      cases hcontra
    · simp only [hq, hp, if_true, List.length_cons]
      omega

theorem length_filter_strict {α : Type} (l : List α) (p q : α → Bool)
    (himp : ∀ a, q a = true → p a = true)
    (x : α) (hx : x ∈ l) (hpx : p x = true) (hqx : q x = false) :
    (l.filter q).length < (l.filter p).length := by
  induction l with
  | nil => cases hx
  | cons a l' ih =>
    rcases List.mem_cons.mp hx with rfl | hmem
    · simp only [List.filter_cons, hpx, hqx, Bool.false_eq_true, if_false, if_true,
        List.length_cons]
      exact Nat.lt_succ_of_le (length_filter_mono l' p q himp)
    · simp only [List.filter_cons]
      cases hq : q a <;> cases hp : p a
      · simpa using ih hmem
      · simp only [hq, hp, Bool.false_eq_true, if_false, if_true, List.length_cons]
        exact Nat.lt_succ_of_le (Nat.le_of_lt (ih hmem))
      · have hcontra := himp a hq
        rw [hp] at hcontra
        cases hcontra
      · simp only [hq, hp, if_true, List.length_cons]
        have := ih hmem
        omega

theorem unvisited_append_le (g : List (String × LogEntry)) (ex vis : List String) :
    unvisitedKeys g (ex ++ vis) ≤ unvisitedKeys g vis := by
  apply length_filter_mono
  intro a ha
  simp only [Bool.not_eq_true', ← Bool.not_eq_true] at ha ⊢
  intro hmem
  exact ha (List.elem_iff.mpr (List.mem_append_right ex (List.elem_iff.mp hmem)))

theorem unvisited_cons_lt (g : List (String × LogEntry)) (i : String)
    (vis : List String) (hkey : i ∈ g.map Prod.fst) (hniv : vis.contains i = false) :
    unvisitedKeys g (i :: vis) < unvisitedKeys g vis := by
  refine length_filter_strict _ _ _ ?_ i hkey ?_ ?_
  · intro a ha
    simp only [Bool.not_eq_true', ← Bool.not_eq_true] at ha ⊢
    intro hmem
    exact ha (List.elem_iff.mpr (List.mem_cons_of_mem i (List.elem_iff.mp hmem)))
  · simp only [Bool.not_eq_true']
    exact hniv
  · simp [List.contains_cons]

/-- The visited list only grows (by a prefix of newly visited ids). -/
theorem buildTree_visited_suffix (g : List (String × LogEntry)) :
    ∀ (fuel : Nat) (i : String) (vis : List String),
      ∃ ex, (buildTree g fuel i vis).2 = ex ++ vis := by
  intro fuel
  induction fuel with
  | zero => intro i vis; exact ⟨[], rfl⟩
  | succ n ih =>
    have ihc : ∀ (cs : List String) (vis : List String),
        ∃ ex, (buildChildren (buildTree g n) cs vis).2 = ex ++ vis := by
      intro cs
      induction cs with
      | nil => intro vis; exact ⟨[], rfl⟩
      | cons c cs' ihcs =>
        intro vis
        obtain ⟨e1, he1⟩ := ih c vis
        obtain ⟨e2, he2⟩ := ihcs (buildTree g n c vis).2
        refine ⟨e2 ++ e1, ?_⟩
        simp only [buildChildren]
        rw [he2, he1, List.append_assoc]
    intro i vis
    simp only [buildTree]
    cases hc : vis.contains i
    · simp only [Bool.false_eq_true, if_false]
      cases hf : g.find? (fun p => p.1 == i) with
      | none => exact ⟨[i], rfl⟩
      | some p =>
        obtain ⟨ex, hex⟩ := ihc p.2.sentTo (i :: vis)
        exact ⟨ex ++ [i], by simp [hex]⟩
    · simp only [if_pos rfl]
      exact ⟨[], rfl⟩

/-- A successful lookup means the id is a key of the graph. -/
theorem find_mem_keys (g : List (String × LogEntry)) (i : String)
    (p : String × LogEntry) (h : g.find? (fun q => q.1 == i) = some p) :
    i ∈ g.map Prod.fst := by
  have hmem := List.mem_of_find?_eq_some h
  have hpred := List.find?_some h
  simp only [beq_iff_eq] at hpred
  subst hpred
  exact List.mem_map_of_mem Prod.fst hmem

/-- Fuel irrelevance: any fuel strictly above the number of unvisited keys
computes the same result — the recursion the script runs is exactly the one
the visited set forces to terminate. -/
theorem buildTree_stable (g : List (String × LogEntry)) :
    ∀ (fuel fuel' : Nat) (i : String) (vis : List String),
      unvisitedKeys g vis < fuel → fuel ≤ fuel' →
      buildTree g fuel i vis = buildTree g fuel' i vis := by
  intro fuel
  induction fuel with
  | zero => intro fuel' i vis hm; omega
  | succ n ih =>
    intro fuel' i vis hm hle
    obtain ⟨m, rfl⟩ : ∃ m, fuel' = m + 1 := ⟨fuel' - 1, by omega⟩
    have ihc : ∀ (cs : List String) (vis0 : List String),
        unvisitedKeys g vis0 < n → n ≤ m →
        buildChildren (buildTree g n) cs vis0 = buildChildren (buildTree g m) cs vis0 := by
      intro cs
      induction cs with
      | nil => intro vis0 _ _; rfl
      | cons c cs' ihcs =>
        intro vis0 hv0 hnm
        simp only [buildChildren]
        rw [← ih m c vis0 hv0 hnm]
        obtain ⟨ex, hex⟩ := buildTree_visited_suffix g n c vis0
        have hle2 : unvisitedKeys g (buildTree g n c vis0).2 < n := by
          rw [hex]
          exact Nat.lt_of_le_of_lt (unvisited_append_le g ex vis0) hv0
        rw [ihcs (buildTree g n c vis0).2 hle2 hnm]
    simp only [buildTree]
    cases hc : vis.contains i
    · simp only [Bool.false_eq_true, if_false]
      cases hf : g.find? (fun q => q.1 == i) with
      | none => rfl
      | some p =>
        have hkey := find_mem_keys g i p hf
        have hlt : unvisitedKeys g (i :: vis) < n := by
          have h1 := unvisited_cons_lt g i vis hkey hc
          omega
        have hnm : n ≤ m := by omega
        obtain ⟨k, log⟩ := p
        simp only []
        rw [ihc log.sentTo (i :: vis) hlt hnm]
    · simp only [if_pos rfl]
      rfl

end BuildTreeLemmas

section BuildTreeIdLemmas

open Observer

theorem treeIds_some (t : TreeNode) :
    treeIds (some t) = (allNodes t).map TreeNode.id := rfl

theorem treeIds_mk (i st kl : String) (e : Int) (a : Nat)
    (cs : List TreeNode) (t l : Bool) :
    treeIds (some (.mk i st kl e a cs t l)) = i :: childIds cs := by
  rw [treeIds_some, allNodes_mk]
  simp only [List.map_cons, TreeNode.id, childIds, List.map_flatMap]

/-- The child loop, like the node recursion, only prepends to the visited
set. -/
theorem buildChildren_visited_suffix
    (f : String → List String → Option TreeNode × List String)
    (hf : ∀ c vis, ∃ ex, (f c vis).2 = ex ++ vis) :
    ∀ (cs : List String) (vis : List String),
      ∃ ex, (buildChildren f cs vis).2 = ex ++ vis := by
  intro cs
  induction cs with
  | nil => intro vis; exact ⟨[], rfl⟩
  | cons c cs' ihcs =>
    intro vis
    obtain ⟨e1, he1⟩ := hf c vis
    obtain ⟨e2, he2⟩ := ihcs (f c vis).2
    refine ⟨e2 ++ e1, ?_⟩
    simp only [buildChildren]
    rw [he2, he1, List.append_assoc]

/-- Every id in a built tree is fresh (not previously visited), recorded in
the output visited set, and occurs exactly once in the tree. -/
theorem buildTree_ids (g : List (String × LogEntry)) :
    ∀ (fuel : Nat) (i : String) (vis : List String),
      (treeIds (buildTree g fuel i vis).1).Nodup ∧
      (∀ x ∈ treeIds (buildTree g fuel i vis).1,
        x ∈ (buildTree g fuel i vis).2 ∧ x ∉ vis) := by
  intro fuel
  induction fuel with
  | zero =>
    intro i vis
    exact ⟨List.nodup_nil, by intro x hx; cases hx⟩
  | succ n ih =>
    have hsfx : ∀ c vis, ∃ ex, (buildTree g n c vis).2 = ex ++ vis :=
      buildTree_visited_suffix g n
    have ihc : ∀ (cs : List String) (vis0 : List String),
        (childIds (buildChildren (buildTree g n) cs vis0).1).Nodup ∧
        (∀ x ∈ childIds (buildChildren (buildTree g n) cs vis0).1,
          x ∈ (buildChildren (buildTree g n) cs vis0).2 ∧ x ∉ vis0) := by
      intro cs
      induction cs with
      | nil =>
        intro vis0
        exact ⟨List.nodup_nil, by intro x hx; cases hx⟩
      | cons c cs' ihcs =>
        intro vis0
        obtain ⟨h1n, h1m⟩ := ih c vis0
        obtain ⟨h2n, h2m⟩ := ihcs (buildTree g n c vis0).2
        obtain ⟨ex1, hex1⟩ := hsfx c vis0
        obtain ⟨ex2, hex2⟩ :=
          buildChildren_visited_suffix (buildTree g n) hsfx cs' (buildTree g n c vis0).2
        simp only [buildChildren]
        have hids : childIds
            ((match (buildTree g n c vis0).1 with
              | some t => t :: (buildChildren (buildTree g n) cs' (buildTree g n c vis0).2).1
              | none => (buildChildren (buildTree g n) cs' (buildTree g n c vis0).2).1)) =
            treeIds (buildTree g n c vis0).1 ++
              childIds (buildChildren (buildTree g n) cs' (buildTree g n c vis0).2).1 := by
          cases (buildTree g n c vis0).1 with
          | none => simp [treeIds]
          | some t => simp [treeIds_some, childIds]
        rw [hids]
        constructor
        · refine List.Nodup.append h1n h2n ?_
          intro x hx1 hx2
          have hin1 : x ∈ (buildTree g n c vis0).2 := (h1m x hx1).1
          exact (h2m x hx2).2 hin1
        · intro x hx
          rcases List.mem_append.mp hx with hx1 | hx2
          · have h1 := h1m x hx1
            constructor
            · rw [hex2]
              exact List.mem_append_right ex2 h1.1
            · exact h1.2
          · have h2 := h2m x hx2
            constructor
            · exact h2.1
            · intro hxv
              exact h2.2 (by rw [hex1]; exact List.mem_append_right ex1 hxv)
    intro i vis
    simp only [buildTree]
    cases hc : vis.contains i
    · simp only [Bool.false_eq_true, if_false]
      cases hf : g.find? (fun q => q.1 == i) with
      | none =>
        exact ⟨List.nodup_nil, by intro x hx; cases hx⟩
      | some p =>
        obtain ⟨k, log⟩ := p
        simp only []
        obtain ⟨hcn, hcm⟩ := ihc log.sentTo (i :: vis)
        obtain ⟨ex, hex⟩ :=
          buildChildren_visited_suffix (buildTree g n) hsfx log.sentTo (i :: vis)
        rw [treeIds_mk]
        have hinotin : i ∉ childIds
            (buildChildren (buildTree g n) log.sentTo (i :: vis)).1 := by
          intro hi
          exact (hcm i hi).2 (List.mem_cons_self i vis)
        constructor
        · exact List.Nodup.cons hinotin hcn
        · intro x hx
          rcases List.mem_cons.mp hx with rfl | hx2
          · constructor
            · rw [hex]
              exact List.mem_append_right ex (List.mem_cons_self x vis)
            · intro hxv
              rw [← List.elem_iff] at hxv
              have hc' : List.elem x vis = false := hc
              rw [hxv] at hc'
              cases hc'
          · have h2 := hcm x hx2
            exact ⟨h2.1, fun hxv => h2.2 (List.mem_cons_of_mem i hxv)⟩
    · simp only [if_pos rfl]
      exact ⟨List.nodup_nil, by intro x hx; cases hx⟩

end BuildTreeIdLemmas

/-- C10: `buildTreeNode` terminates on every finite log graph — any fuel
beyond the number of graph entries computes the same result, because the
visited set shrinks the set of unvisited keys on every successful recursive
step; each log id occurs at most once in the constructed tree; and on the
diamond graph the shared (fan-in) child `c` is attached only under `b`, the
first parent that reaches it, while `d` gets no child node. -/
theorem c10_build_tree_terminating_and_unique :
    (∀ (g : List (String × Observer.LogEntry)) (i : String) (fuel : Nat),
        g.length + 1 ≤ fuel →
        Observer.buildTree g fuel i [] = Observer.buildTree g (g.length + 1) i []) ∧
    (∀ (g : List (String × Observer.LogEntry)) (fuel : Nat) (i : String)
        (root : Observer.TreeNode) (vis : List String),
        Observer.buildTree g fuel i [] = (some root, vis) →
        ((Observer.allNodes root).map Observer.TreeNode.id).Nodup) ∧
    (Observer.buildTree Observer.c10Graph 5 "a" []).1 = some Observer.c10Root := by
  refine ⟨?_, ?_, rfl⟩
  · intro g i fuel hf
    have hempty : Observer.unvisitedKeys g [] = g.length := by
      simp [Observer.unvisitedKeys]
    exact (buildTree_stable g (g.length + 1) fuel i [] (by omega) (by omega)).symm
  · intro g fuel i root vis h
    have hids := (buildTree_ids g fuel i []).1
    rw [h] at hids
    simpa [treeIds_some] using hids

/-- Witness for `c10_build_tree_terminating_and_unique`: extra fuel does not
change the diamond tree, and its node ids are distinct. -/
theorem c10_build_tree_terminating_and_unique_witness :
    Observer.buildTree Observer.c10Graph 6 "a" [] =
      Observer.buildTree Observer.c10Graph 5 "a" [] ∧
    ((Observer.allNodes Observer.c10Root).map Observer.TreeNode.id).Nodup := by
  constructor
  · have h := (c10_build_tree_terminating_and_unique.1) Observer.c10Graph "a" 6
      (by decide)
    have h5 : Observer.c10Graph.length + 1 = 5 := by decide
    rw [h5] at h
    exact h
  · exact (c10_build_tree_terminating_and_unique.2.1) Observer.c10Graph 5 "a"
      Observer.c10Root ["d", "c", "b", "a"] rfl

/-- C3 (code evaluation at the failing input): a sole entity at its layer
ends its follower wait, runs the two-step fallback — and *keeps* its solo
cluster: the lexicographic scan reaches the entity itself first and returns
("staying leader"), so the dissolve block after the loop is never reached.
The final state has one cluster `cluster_1 = {e1}` and the entity still
records it, contradicting the claimed dissolution. -/
theorem c3_sole_entity_keeps_solo_cluster :
    (ClusterSim.runSim ClusterSim.c3Data ClusterSim.c3Config 10).clusters.map
        (fun p => (p.1, p.2.members)) = [("cluster_1", ["e1"])] ∧
    (ClusterSim.alGet
        (ClusterSim.runSim ClusterSim.c3Data ClusterSim.c3Config 10).entityStates
        "e1").map (fun es => (es.clusterId, es.isClusterLeader)) =
      some (some "cluster_1", true) := by
  constructor <;> rfl

/-- C7: the simulation is a pure function of its data and its config (the
seed included): equal inputs produce equal final states and equal results.
The only source of nondeterminism in the script is the `Date.now()` default
seed, which is fixed once the config carries a seed. -/
theorem c7_simulation_deterministic (d1 d2 : ClusterSim.SimulationData)
    (c1 c2 : ClusterSim.SimConfig) (fuel : Nat)
    (hd : d1 = d2) (hc : c1 = c2) :
    ClusterSim.runSim d1 c1 fuel = ClusterSim.runSim d2 c2 fuel ∧
    ClusterSim.getResults (ClusterSim.runSim d1 c1 fuel) =
      ClusterSim.getResults (ClusterSim.runSim d2 c2 fuel) := by
  subst hd
  subst hc
  exact ⟨rfl, rfl⟩

/-- Witness for `c7_simulation_deterministic` at the sole-entity input. -/
theorem c7_simulation_deterministic_witness :
    ClusterSim.runSim ClusterSim.c3Data ClusterSim.c3Config 10 =
      ClusterSim.runSim ClusterSim.c3Data ClusterSim.c3Config 10 ∧
    ClusterSim.getResults (ClusterSim.runSim ClusterSim.c3Data ClusterSim.c3Config 10) =
      ClusterSim.getResults (ClusterSim.runSim ClusterSim.c3Data ClusterSim.c3Config 10) :=
  c7_simulation_deterministic ClusterSim.c3Data ClusterSim.c3Data
    ClusterSim.c3Config ClusterSim.c3Config 10 rfl rfl

/-- C4 (counterexample): two mutually-similar entities of type
`cluster_leader` (a cluster layer being re-clustered), under a config whose
index delay exceeds both follower waits, each create a solo cluster; both
fallbacks run to completion, yet *two* solo clusters remain: the semantic
step sees no indexed peer, and the lexicographic step skips entities of type
`cluster_leader`, so each entity reaches itself and stays leader. -/
theorem c4_counterexample :
    (ClusterSim.runSim ClusterSim.c4Data ClusterSim.c4Config 12).clusters.map
        (fun p => (p.1, p.2.members)) =
      [("cluster_1", ["x1"]), ("cluster_2", ["x2"])] ∧
    (ClusterSim.runSim ClusterSim.c4Data ClusterSim.c4Config 12).entityStates.map
        (fun p => (p.1, p.2.clusterId, p.2.isClusterLeader)) =
      [("x1", some "cluster_1", true), ("x2", some "cluster_2", true)] ∧
    (ClusterSim.runSim ClusterSim.c4Data ClusterSim.c4Config 12).eventQueue = [] := by
  refine ⟨rfl, rfl, rfl⟩

section SimLookupLemmas

open ClusterSim

theorem alGet_cons {β : Type} (q : String × β) (t : List (String × β)) (x : String) :
    alGet (q :: t) x = if (q.1 == x) = true then some q.2 else alGet t x := by
  simp only [alGet, List.find?_cons]
  cases h : (q.1 == x) <;> simp [h]

theorem alGet_cons_self {β : Type} (k : String) (v : β) (l : List (String × β)) :
    alGet ((k, v) :: l) k = some v := by
  rw [alGet_cons]
  simp

theorem alGet_cons_ne {β : Type} (k k' : String) (v : β) (l : List (String × β))
    (h : k ≠ k') :
    alGet ((k, v) :: l) k' = alGet l k' := by
  rw [alGet_cons]
  simp [beq_eq_false_iff_ne.mpr h]

theorem alGet_alUpd {β : Type} (l : List (String × β)) (k x : String) (f : β → β) :
    alGet (alUpd l k f) x = if x = k then (alGet l x).map f else alGet l x := by
  induction l with
  | nil => by_cases h : x = k <;> simp [alGet, alUpd, h]
  | cons q t ih =>
    obtain ⟨qk, qv⟩ := q
    simp only [alUpd, List.map_cons]
    by_cases hqk : qk = k
    · subst hqk
      simp only [beq_self_eq_true, if_true]
      rw [alGet_cons, alGet_cons]
      by_cases hx : (qk == x) = true
      · have hxk : x = qk := (beq_iff_eq.mp hx).symm
        rw [if_pos hx, if_pos hx, if_pos hxk]
        rfl
      · have hx' : (qk == x) = false := by
          cases hh : (qk == x)
          · rfl
          · exact absurd hh hx
        rw [if_neg hx, if_neg hx]
        have hxk : ¬ x = qk := fun hh => by
          rw [hh] at hx'
          rw [beq_self_eq_true] at hx'
          cases hx'
        rw [if_neg hxk]
        rw [show alUpd t qk f = List.map (fun p => if (p.1 == qk) = true then (p.1, f p.2) else p) t from rfl] at ih
        rw [ih, if_neg hxk]
    · have hbk : (qk == k) = false := beq_eq_false_iff_ne.mpr hqk
      simp only [hbk, Bool.false_eq_true, if_false]
      rw [alGet_cons, alGet_cons]
      by_cases hx : (qk == x) = true
      · have hxk : ¬ x = k := fun hh => hqk (by
          rw [beq_iff_eq.mp hx, hh])
        rw [if_pos hx, if_neg hxk, if_pos hx]
      · have hx' : (qk == x) = false := by
          cases hh : (qk == x)
          · rfl
          · exact absurd hh hx
        rw [if_neg hx, if_neg hx]
        rw [show alUpd t k f = List.map (fun p => if (p.1 == k) = true then (p.1, f p.2) else p) t from rfl] at ih
        exact ih

theorem alGet_alUpd_same {β : Type} (l : List (String × β)) (k : String) (f : β → β) :
    alGet (alUpd l k f) k = (alGet l k).map f := by
  rw [alGet_alUpd, if_pos rfl]

theorem alGet_alUpd_ne {β : Type} (l : List (String × β)) (k x : String) (f : β → β)
    (h : x ≠ k) :
    alGet (alUpd l k f) x = alGet l x := by
  rw [alGet_alUpd, if_neg h]

theorem alGet_alUpd_val {β : Type} (l : List (String × β)) (k x : String)
    (f : β → β) (v : β)
    (h : alGet (alUpd l k f) x = some v) :
    ∃ v0, alGet l x = some v0 ∧ (v = v0 ∨ v = f v0) := by
  by_cases hx : x = k
  · subst hx
    rw [alGet_alUpd_same] at h
    rcases Option.map_eq_some'.mp h with ⟨v0, hv0, hfv⟩
    exact ⟨v0, hv0, Or.inr hfv.symm⟩
  · rw [alGet_alUpd_ne l k x f hx] at h
    exact ⟨v, h, Or.inl rfl⟩

theorem twoVals {β : Type} (k1 k2 : String) (v1 v2 : β) (l : List (String × β))
    (hl : l = [(k1, v1), (k2, v2)] ∨ l = [(k2, v2), (k1, v1)]) :
    ∀ x v, alGet l x = some v → v = v1 ∨ v = v2 := by
  intro x v hv
  rcases hl with rfl | rfl
  · rw [alGet_cons] at hv
    split at hv
    · exact Or.inl (Option.some.inj hv).symm
    · rw [alGet_cons] at hv
      split at hv
      · exact Or.inr (Option.some.inj hv).symm
      · exact absurd hv (by simp [alGet])
  · rw [alGet_cons] at hv
    split at hv
    · exact Or.inr (Option.some.inj hv).symm
    · rw [alGet_cons] at hv
      split at hv
      · exact Or.inl (Option.some.inj hv).symm
      · exact absurd hv (by simp [alGet])

theorem semScan_some (states : List (String × ClusterSim.EntityState)) (mine : String) :
    ∀ (l : List ClusterSim.SimilarityEntry) (c : String),
      semScan states mine l = some c →
      ∃ p ∈ l, ∃ ps, alGet states p.peerId = some ps ∧
        ps.clusterId = some c ∧ c ≠ mine := by
  intro l
  induction l with
  | nil => intro c h; cases h
  | cons p rest ih =>
    intro c h
    simp only [semScan] at h
    rcases hg : alGet states p.peerId with _ | ps
    · simp only [hg] at h
      obtain ⟨q, hq, hrest⟩ := ih c h
      exact ⟨q, List.mem_cons_of_mem p hq, hrest⟩
    · simp only [hg] at h
      rcases hcl : ps.clusterId with _ | c0
      · simp only [hcl] at h
        obtain ⟨q, hq, hrest⟩ := ih c h
        exact ⟨q, List.mem_cons_of_mem p hq, hrest⟩
      · simp only [hcl] at h
        by_cases hne : c0 ≠ mine
        · rw [if_pos hne] at h
          obtain rfl : c0 = c := Option.some.inj h
          exact ⟨p, List.mem_cons_self p rest, ps, hg, hcl, hne⟩
        · rw [if_neg hne] at h
          obtain ⟨q, hq, hrest⟩ := ih c h
          exact ⟨q, List.mem_cons_of_mem p hq, hrest⟩

theorem esIndexUpgrade_fields (es es' : ClusterSim.EntityState)
    (h : ClusterSim.esIndexUpgrade es es') :
    es'.clusterId = es.clusterId ∧ es'.isClusterLeader = es.isClusterLeader := by
  rcases h with rfl | rfl <;> simp

theorem indexUpgrade_get (st st' : ClusterSim.SimState)
    (h : ClusterSim.indexUpgrade st st') (x : String) :
    (alGet st.entityStates x = none ∧ alGet st'.entityStates x = none) ∨
      ∃ es es', alGet st.entityStates x = some es ∧
        alGet st'.entityStates x = some es' ∧
        es'.clusterId = es.clusterId ∧ es'.isClusterLeader = es.isClusterLeader := by
  obtain ⟨-, hf⟩ := h
  suffices H : ∀ (l1 l2 : List (String × ClusterSim.EntityState)),
      List.Forall₂ (fun p q => p.1 = q.1 ∧ ClusterSim.esIndexUpgrade p.2 q.2) l1 l2 →
      (alGet l1 x = none ∧ alGet l2 x = none) ∨
        ∃ es es', alGet l1 x = some es ∧ alGet l2 x = some es' ∧
          es'.clusterId = es.clusterId ∧ es'.isClusterLeader = es.isClusterLeader by
    exact H _ _ hf
  intro l1 l2 hf2
  induction hf2 with
  | nil => exact Or.inl ⟨rfl, rfl⟩
  | cons hpq hrest ih =>
    rename_i p q l1 l2
    obtain ⟨hk, hup⟩ := hpq
    by_cases hpx : (p.1 == x) = true
    · have hqx : (q.1 == x) = true := by rw [← hk]; exact hpx
      refine Or.inr ⟨p.2, q.2, ?_, ?_, (esIndexUpgrade_fields _ _ hup).1,
        (esIndexUpgrade_fields _ _ hup).2⟩
      · rw [show (p : String × ClusterSim.EntityState) = (p.1, p.2) from rfl,
          alGet_cons]
        simp [hpx]
      · rw [show (q : String × ClusterSim.EntityState) = (q.1, q.2) from rfl,
          alGet_cons]
        simp [hqx]
    · have hpx' : (p.1 == x) = false := by
        cases hh : (p.1 == x)
        · rfl
        · exact absurd hh hpx
      have hqx' : (q.1 == x) = false := by rw [← hk]; exact hpx'
      have e1 : alGet (p :: l1) x = alGet l1 x := by
        rw [show (p : String × ClusterSim.EntityState) = (p.1, p.2) from rfl,
          alGet_cons]
        simp [hpx']
      have e2 : alGet (q :: l2) x = alGet l2 x := by
        rw [show (q : String × ClusterSim.EntityState) = (q.1, q.2) from rfl,
          alGet_cons]
        simp [hqx']
      rw [e1, e2]
      exact ih

end SimLookupLemmas

section FollowerWaitLemmas

open ClusterSim

/-- Reduction of `processEvent` on a `follower_wait_ends` event whose entity
is present: flags are cleared, then the event's cluster is inspected and the
fallback runs exactly when the cluster is still solo. -/
theorem processEvent_fw (data : SimulationData) (cfg : SimConfig) (st : SimState)
    (x : String) (ent : Entity) (es : EntityState) (c : String) (t : Int)
    (hget : alGet st.entityStates x = some es)
    (hfind : data.entities.find? (fun e => e.id == x) = some ent) :
    processEvent data cfg st
        { time := t, type := .follower_wait_ends, entityId := x, clusterId := some c } =
      (let es1 := alUpd st.entityStates x
          (fun es0 => { es0 with waitingForFollowers := false, processing := false })
       let st1 : SimState := { st with entityStates := es1 }
       match alGet st1.clusters c with
       | none => st1
       | some cluster =>
         if cluster.members.length > 1 then st1
         else runFallback data st1 x c ent.layer) := by
  simp only [processEvent, hget, hfind]

end FollowerWaitLemmas

section TwoEntityLemmas

open ClusterSim

theorem remove_two (st : SimState) (cA cB : String) (clA clB : ClusterState)
    (x : String)
    (hcl : st.clusters = [(cA, clA), (cB, clB)] ∨
           st.clusters = [(cB, clB), (cA, clA)])
    (hAB : cA ≠ cB) (hmA : clA.members = [x]) :
    removeFromCluster st x cA = { st with clusters := [(cB, clB)] } := by
  have hgA : alGet st.clusters cA = some clA := by
    rcases hcl with h | h <;> rw [h]
    · exact alGet_cons_self _ _ _
    · rw [alGet_cons_ne _ _ _ _ (Ne.symm hAB)]
      exact alGet_cons_self _ _ _
  unfold removeFromCluster
  simp only [hgA, hmA]
  have hdel : setDel [x] x = [] := by simp [setDel]
  rw [hdel]
  simp only [List.length_nil, if_pos rfl]
  congr 1
  rcases hcl with h | h <;> rw [h] <;>
    simp [List.filter_cons, hAB, Ne.symm hAB]

theorem join_two (st : SimState) (cB : String) (clB : ClusterState) (x y : String)
    (hclB : st.clusters = [(cB, clB)]) (hmB : clB.members = [y]) (hxy : x ≠ y) :
    joinCluster st x cB = { st with
      clusters := [(cB, { clB with members := [y, x] })],
      entityStates := alUpd st.entityStates x
        (fun es => { es with clusterId := some cB }) } := by
  unfold joinCluster
  rw [hclB]
  have hg : alGet [(cB, clB)] cB = some clB := alGet_cons_self _ _ _
  have hadd : setAdd clB.members x = [y, x] := by
    rw [hmB]
    simp [setAdd, List.contains_cons, hxy]
  simp [hg, alUpd, hadd]

theorem leaveAndJoin_two (st : SimState) (cA cB : String) (clA clB : ClusterState)
    (x y : String)
    (hcl : st.clusters = [(cA, clA), (cB, clB)] ∨
           st.clusters = [(cB, clB), (cA, clA)])
    (hAB : cA ≠ cB) (hmA : clA.members = [x]) (hmB : clB.members = [y]) (hxy : x ≠ y) :
    leaveAndJoin st x cA cB = { st with
      clusters := [(cB, { clB with members := [y, x] })],
      entityStates := alUpd (alUpd st.entityStates x
          (fun es => { es with clusterId := some cB })) x
        (fun es => { es with isClusterLeader := false }) } := by
  unfold leaveAndJoin
  rw [remove_two st cA cB clA clB x hcl hAB hmA]
  have hj := join_two { st with clusters := [(cB, clB)] } cB clB x y rfl hmB hxy
  simp [hj]

end TwoEntityLemmas

section C4Lemmas

open ClusterSim

theorem twoGet {β : Type} (k1 k2 : String) (v1 v2 : β) (l : List (String × β))
    (hl : l = [(k1, v1), (k2, v2)] ∨ l = [(k2, v2), (k1, v1)]) (hne : k1 ≠ k2) :
    alGet l k1 = some v1 ∧ alGet l k2 = some v2 := by
  rcases hl with rfl | rfl
  · exact ⟨alGet_cons_self _ _ _, by
      rw [alGet_cons_ne _ _ _ _ hne]
      exact alGet_cons_self _ _ _⟩
  · exact ⟨by
      rw [alGet_cons_ne _ _ _ _ (Ne.symm hne)]
      exact alGet_cons_self _ _ _, alGet_cons_self _ _ _⟩

theorem sortEntities_pair (a b : Entity) :
    sortEntities [a, b] = if idLeB a b then [a, b] else [b, a] := by
  cases h : idLeB a b <;> simp [sortEntities, orderedInsertEnt, h]

theorem lexScan_self (states : List (String × EntityState)) (x mine : String)
    (ent : Entity) (rest : List Entity) (h : ent.id = x) :
    lexScan states x mine (ent :: rest) = some none := by
  simp [lexScan, h]

theorem lexScan_other (states : List (String × EntityState)) (x mine : String)
    (ent : Entity) (rest : List Entity) (f : EntityState) (co : String)
    (hid : ent.id ≠ x) (hty : ent.type ≠ "cluster_leader")
    (hget : alGet states ent.id = some f) (hcl : f.clusterId = some co)
    (hco : co ≠ mine) :
    lexScan states x mine (ent :: rest) = some (some co) := by
  simp [lexScan, hid, beq_eq_false_iff_ne.mpr hty, hget, hcl, hco]

theorem filter_layer_pair (data : SimulationData) (e1 e2 : Entity) (L : Int)
    (hents : data.entities = [e1, e2]) (h1 : e1.layer = L) (h2 : e2.layer = L) :
    data.entities.filter (fun e => e.layer == L) = [e1, e2] := by
  rw [hents]
  simp [List.filter, h1, h2]

/-- Reduction of `processEvent` on a `follower_wait_ends` event whose cluster
is still solo: flags cleared, then the two-step fallback runs. -/
theorem processEvent_fw_solo (data : SimulationData) (cfg : SimConfig)
    (st : SimState) (x : String) (ent : Entity) (es : EntityState) (c : String)
    (t : Int) (cluster : ClusterState)
    (hget : alGet st.entityStates x = some es)
    (hfind : data.entities.find? (fun e => e.id == x) = some ent)
    (hclg : alGet st.clusters c = some cluster)
    (hlen : ¬ cluster.members.length > 1) :
    processEvent data cfg st
        { time := t, type := .follower_wait_ends, entityId := x,
          clusterId := some c } =
      runFallback data
        { st with entityStates := alUpd st.entityStates x (fun es0 => { es0 with waitingForFollowers := false, processing := false }) }
        x c ent.layer := by
  simp only [processEvent, hget, hfind, hclg, if_neg hlen]

/-- Reduction of `processEvent` on a `follower_wait_ends` event whose cluster
has gathered followers: only the flags are cleared. -/
theorem processEvent_fw_big (data : SimulationData) (cfg : SimConfig)
    (st : SimState) (x : String) (ent : Entity) (es : EntityState) (c : String)
    (t : Int) (cluster : ClusterState)
    (hget : alGet st.entityStates x = some es)
    (hfind : data.entities.find? (fun e => e.id == x) = some ent)
    (hclg : alGet st.clusters c = some cluster)
    (hlen : cluster.members.length > 1) :
    processEvent data cfg st
        { time := t, type := .follower_wait_ends, entityId := x,
          clusterId := some c } =
      { st with entityStates := alUpd st.entityStates x (fun es0 => { es0 with waitingForFollowers := false, processing := false }) } := by
  simp only [processEvent, hget, hfind, hclg, if_pos hlen]

theorem indexUpgrade_refl (st : SimState) : indexUpgrade st st := by
  refine ⟨rfl, ?_⟩
  induction st.entityStates with
  | nil => exact List.Forall₂.nil
  | cons p t ih => exact List.Forall₂.cons ⟨rfl, Or.inl rfl⟩ ih

/-- The fallback of the first of two mutually-visible solo leaders: either it
joins the other's cluster (semantic hit, or lexicographically second), or it
is lexicographically first and stays. -/
theorem runFallback_pair_first (data : SimulationData) (st1 : SimState)
    (e1 e2 : Entity) (c1 c2 : String) (f2 : EntityState)
    (hents : data.entities = [e1, e2]) (hne : e1.id ≠ e2.id)
    (hlayer : e2.layer = e1.layer)
    (ht2 : e2.type ≠ "cluster_leader")
    (hc12 : c1 ≠ c2)
    (hg2 : alGet st1.entityStates e2.id = some f2)
    (hf2 : f2.clusterId = some c2)
    (hvals : ∀ y v, alGet st1.entityStates y = some v →
      v.clusterId = some c1 ∨ v.clusterId = some c2) :
    runFallback data st1 e1.id c1 e1.layer = leaveAndJoin st1 e1.id c1 c2 ∨
      (runFallback data st1 e1.id c1 e1.layer = st1 ∧ idLeB e1 e2 = true) := by
  have hfl := filter_layer_pair data e1 e2 e1.layer hents rfl hlayer
  have hsp := sortEntities_pair e1 e2
  simp only [runFallback]
  split
  · rename_i target hsem
    obtain ⟨p, hp, ps, hps, hpcl, hnem⟩ :=
      semScan_some st1.entityStates c1 _ target hsem
    rcases hvals _ _ hps with h | h
    · rw [h] at hpcl
      exact absurd (Option.some.inj hpcl).symm hnem
    · rw [h] at hpcl
      rw [← Option.some.inj hpcl]
      exact Or.inl rfl
  · rename_i hsem
    rw [hfl, hsp]
    cases hle : idLeB e1 e2
    · rw [if_neg Bool.false_ne_true]
      rw [lexScan_other st1.entityStates e1.id c1 e2 [e1] f2 c2
        (Ne.symm hne) ht2 hg2 hf2 (Ne.symm hc12)]
      exact Or.inl rfl
    · rw [if_pos rfl]
      rw [lexScan_self st1.entityStates e1.id c1 e1 [e2] rfl]
      exact Or.inr ⟨rfl, rfl⟩

/-- The fallback of the second of two mutually-visible solo leaders: it joins
the other's cluster unless it is lexicographically first. -/
theorem runFallback_pair_second (data : SimulationData) (st1 : SimState)
    (e1 e2 : Entity) (c1 c2 : String) (f1 : EntityState)
    (hents : data.entities = [e1, e2]) (hne : e1.id ≠ e2.id)
    (hlayer : e2.layer = e1.layer)
    (ht1 : e1.type ≠ "cluster_leader")
    (hc12 : c1 ≠ c2)
    (hg1 : alGet st1.entityStates e1.id = some f1)
    (hf1 : f1.clusterId = some c1)
    (hvals : ∀ y v, alGet st1.entityStates y = some v →
      v.clusterId = some c1 ∨ v.clusterId = some c2) :
    runFallback data st1 e2.id c2 e2.layer = leaveAndJoin st1 e2.id c2 c1 ∨
      (runFallback data st1 e2.id c2 e2.layer = st1 ∧ idLeB e1 e2 = false) := by
  have hfl := filter_layer_pair data e1 e2 e2.layer hents hlayer.symm rfl
  have hsp := sortEntities_pair e1 e2
  simp only [runFallback]
  split
  · rename_i target hsem
    obtain ⟨p, hp, ps, hps, hpcl, hnem⟩ :=
      semScan_some st1.entityStates c2 _ target hsem
    rcases hvals _ _ hps with h | h
    · rw [h] at hpcl
      rw [← Option.some.inj hpcl]
      exact Or.inl rfl
    · rw [h] at hpcl
      exact absurd (Option.some.inj hpcl).symm hnem
  · rename_i hsem
    rw [hfl, hsp]
    cases hle : idLeB e1 e2
    · rw [if_neg Bool.false_ne_true]
      rw [lexScan_self st1.entityStates e2.id c2 e2 [e1] rfl]
      exact Or.inr ⟨rfl, rfl⟩
    · rw [if_pos rfl]
      rw [lexScan_other st1.entityStates e2.id c2 e1 [e2] f1 c1
        hne ht1 hg1 hf1 hc12]
      exact Or.inl rfl

end C4Lemmas

section C4Main

open ClusterSim

/-- C4: amended claim. For a simulation of exactly two entities at the same
layer whose types are not `cluster_leader` (the lexicographic fallback skips
`cluster_leader`-typed entities, see the counterexample), each appearing in
the other's similarity list, if both entities lead their own solo clusters,
then after both follower waits are processed (with any interleaved
`entity_indexed` upgrades) exactly one cluster remains, it is one of the two
original clusters, it contains both entities, and both entities' recorded
cluster ids name it. -/
theorem c4_two_entities_converge_amended
    (data : SimulationData) (cfg : SimConfig) (st st' : SimState)
    (e1 e2 : Entity) (es1 es2 : EntityState) (c1 c2 : String)
    (cl1 cl2 : ClusterState) (t1 t2 : Int)
    (hents : data.entities = [e1, e2])
    (hne : e1.id ≠ e2.id)
    (hlayer : e2.layer = e1.layer)
    (ht1 : e1.type ≠ "cluster_leader") (ht2 : e2.type ≠ "cluster_leader")
    (hsim1 : ∃ s ∈ (alGet data.similarities e1.id).getD [], s.peerId = e2.id)
    (hsim2 : ∃ s ∈ (alGet data.similarities e2.id).getD [], s.peerId = e1.id)
    (hes : st.entityStates = [(e1.id, es1), (e2.id, es2)] ∨
           st.entityStates = [(e2.id, es2), (e1.id, es1)])
    (hcl : st.clusters = [(c1, cl1), (c2, cl2)] ∨
           st.clusters = [(c2, cl2), (c1, cl1)])
    (hc12 : c1 ≠ c2)
    (hm1 : cl1.members = [e1.id]) (hm2 : cl2.members = [e2.id])
    (hcid1 : es1.clusterId = some c1) (hcid2 : es2.clusterId = some c2)
    (hld1 : es1.isClusterLeader = true) (hld2 : es2.isClusterLeader = true)
    (hmid : indexUpgrade (processEvent data cfg st { time := t1, type := .follower_wait_ends, entityId := e1.id, clusterId := some c1 }) st') :
    ∃ c cl,
      (processEvent data cfg st' { time := t2, type := .follower_wait_ends, entityId := e2.id, clusterId := some c2 }).clusters = [(c, cl)] ∧
      (c = c1 ∨ c = c2) ∧
      cl.members.length = 2 ∧ e1.id ∈ cl.members ∧ e2.id ∈ cl.members ∧
      ∃ g1 g2,
        alGet (processEvent data cfg st' { time := t2, type := .follower_wait_ends, entityId := e2.id, clusterId := some c2 }).entityStates e1.id = some g1 ∧
        alGet (processEvent data cfg st' { time := t2, type := .follower_wait_ends, entityId := e2.id, clusterId := some c2 }).entityStates e2.id = some g2 ∧
        g1.clusterId = some c ∧ g2.clusterId = some c := by
  obtain ⟨hget1, hget2⟩ := twoGet e1.id e2.id es1 es2 st.entityStates hes hne
  obtain ⟨hcg1, hcg2⟩ := twoGet c1 c2 cl1 cl2 st.clusters hcl hc12
  have hfind1 : data.entities.find? (fun e => e.id == e1.id) = some e1 := by
    rw [hents]
    simp [List.find?]
  have hfind2 : data.entities.find? (fun e => e.id == e2.id) = some e2 := by
    rw [hents]
    simp [List.find?, beq_eq_false_iff_ne.mpr hne]
  have hS1 := processEvent_fw_solo data cfg st e1.id e1 es1 c1 t1 cl1 hget1
    hfind1 hcg1 (by rw [hm1]; simp)
  set st1 : SimState := { st with entityStates := alUpd st.entityStates e1.id (fun es0 => { es0 with waitingForFollowers := false, processing := false }) } with hst1
  have hcls1 : st1.clusters = st.clusters := by rw [hst1]
  have hg1A : alGet st1.entityStates e1.id = some { es1 with waitingForFollowers := false, processing := false } := by
    rw [hst1]
    show alGet (alUpd st.entityStates e1.id (fun es0 => { es0 with waitingForFollowers := false, processing := false })) e1.id = _
    rw [alGet_alUpd_same, hget1]
    rfl
  have hg2A : alGet st1.entityStates e2.id = some es2 := by
    rw [hst1]
    show alGet (alUpd st.entityStates e1.id (fun es0 => { es0 with waitingForFollowers := false, processing := false })) e2.id = _
    rw [alGet_alUpd_ne _ _ _ _ (Ne.symm hne)]
    exact hget2
  have hvals1 : ∀ y v, alGet st1.entityStates y = some v → v.clusterId = some c1 ∨ v.clusterId = some c2 := by
    intro y v hv
    rw [hst1] at hv
    have hv' : alGet (alUpd st.entityStates e1.id (fun es0 => { es0 with waitingForFollowers := false, processing := false })) y = some v := hv
    obtain ⟨v0, hv0, hcase⟩ := alGet_alUpd_val st.entityStates e1.id y _ v hv'
    have hsame : v.clusterId = v0.clusterId := by
      rcases hcase with rfl | rfl <;> rfl
    rcases twoVals e1.id e2.id es1 es2 st.entityStates hes y v0 hv0 with rfl | rfl
    · exact Or.inl (hsame.trans hcid1)
    · exact Or.inr (hsame.trans hcid2)
  rcases runFallback_pair_first data st1 e1 e2 c1 c2 es2 hents hne hlayer ht2 hc12 hg2A hcid2 hvals1 with hjoin | ⟨hstay, hle⟩
  · have hclA : st1.clusters = [(c1, cl1), (c2, cl2)] ∨ st1.clusters = [(c2, cl2), (c1, cl1)] := by
      rw [hcls1]
      exact hcl
    have hLJ := leaveAndJoin_two st1 c1 c2 cl1 cl2 e1.id e2.id hclA hc12 hm1 hm2 hne
    rw [hS1, hjoin, hLJ] at hmid
    have hclus' : st'.clusters = [(c2, { cl2 with members := [e2.id, e1.id] })] := hmid.1
    have hSAg1 : alGet (alUpd (alUpd st1.entityStates e1.id (fun es => { es with clusterId := some c2 })) e1.id (fun es => { es with isClusterLeader := false })) e1.id = some { es1 with waitingForFollowers := false, processing := false, clusterId := some c2, isClusterLeader := false } := by
      rw [alGet_alUpd_same, alGet_alUpd_same, hg1A]
      rfl
    have hSAg2 : alGet (alUpd (alUpd st1.entityStates e1.id (fun es => { es with clusterId := some c2 })) e1.id (fun es => { es with isClusterLeader := false })) e2.id = some es2 := by
      rw [alGet_alUpd_ne _ _ _ _ (Ne.symm hne), alGet_alUpd_ne _ _ _ _ (Ne.symm hne)]
      exact hg2A
    rcases indexUpgrade_get _ _ hmid e1.id with ⟨hn, -⟩ | ⟨a, a1', ha, ha1', hacid, -⟩
    · exact absurd (hSAg1.symm.trans hn) (by simp)
    rcases indexUpgrade_get _ _ hmid e2.id with ⟨hn2, -⟩ | ⟨b, b2', hb, hb2', hbcid, -⟩
    · exact absurd (hSAg2.symm.trans hn2) (by simp)
    have ha' : a = { es1 with waitingForFollowers := false, processing := false, clusterId := some c2, isClusterLeader := false } := Option.some.inj (ha.symm.trans hSAg1)
    have hacid2 : a1'.clusterId = some c2 := by
      rw [hacid, ha']
    have hb' : b = es2 := Option.some.inj (hb.symm.trans hSAg2)
    have hbcid2 : b2'.clusterId = some c2 := by
      rw [hbcid, hb']
      exact hcid2
    have hP2 := processEvent_fw_big data cfg st' e2.id e2 b2' c2 t2 { cl2 with members := [e2.id, e1.id] } hb2' hfind2 (by rw [hclus']; exact alGet_cons_self _ _ _) (by simp only [List.length_cons, List.length_nil]; omega)
    refine ⟨c2, { cl2 with members := [e2.id, e1.id] }, ?_, Or.inr rfl, rfl, ?_, ?_, ?_⟩
    · rw [hP2]
      exact hclus'
    · simp
    · simp
    · refine ⟨a1', { b2' with waitingForFollowers := false, processing := false }, ?_, ?_, hacid2, hbcid2⟩
      · rw [hP2]
        show alGet (alUpd st'.entityStates e2.id (fun es0 => { es0 with waitingForFollowers := false, processing := false })) e1.id = _
        rw [alGet_alUpd_ne _ _ _ _ hne]
        exact ha1'
      · rw [hP2]
        show alGet (alUpd st'.entityStates e2.id (fun es0 => { es0 with waitingForFollowers := false, processing := false })) e2.id = _
        rw [alGet_alUpd_same, hb2']
        rfl
  · rw [hS1, hstay] at hmid
    have hclusB : st'.clusters = st.clusters := by
      have h := hmid.1
      rw [hcls1] at h
      exact h
    have hvalsU : ∀ y v, alGet st'.entityStates y = some v → v.clusterId = some c1 ∨ v.clusterId = some c2 := by
      intro y v hv
      rcases indexUpgrade_get _ _ hmid y with ⟨-, hn⟩ | ⟨a, a1', ha, ha1', hacid, -⟩
      · rw [hv] at hn
        exact absurd hn (by simp)
      · have hva : v = a1' := Option.some.inj (hv.symm.trans ha1')
        rw [hva, hacid]
        exact hvals1 y a ha
    rcases indexUpgrade_get _ _ hmid e1.id with ⟨hn, -⟩ | ⟨a, a1', ha, ha1', hacid, -⟩
    · exact absurd (hg1A.symm.trans hn) (by simp)
    have hacid1 : a1'.clusterId = some c1 := by
      have haa : a = { es1 with waitingForFollowers := false, processing := false } := Option.some.inj (ha.symm.trans hg1A)
      rw [hacid, haa]
      exact hcid1
    rcases indexUpgrade_get _ _ hmid e2.id with ⟨hn2, -⟩ | ⟨b, b2', hb, hb2', hbcid, -⟩
    · exact absurd (hg2A.symm.trans hn2) (by simp)
    have hbcid2 : b2'.clusterId = some c2 := by
      have hbb : b = es2 := Option.some.inj (hb.symm.trans hg2A)
      rw [hbcid, hbb]
      exact hcid2
    have hP2 := processEvent_fw_solo data cfg st' e2.id e2 b2' c2 t2 cl2 hb2' hfind2 (by rw [hclusB]; exact hcg2) (by rw [hm2]; simp)
    set st2 : SimState := { st' with entityStates := alUpd st'.entityStates e2.id (fun es0 => { es0 with waitingForFollowers := false, processing := false }) } with hst2
    have hcls2 : st2.clusters = st.clusters := by
      rw [hst2]
      show st'.clusters = st.clusters
      exact hclusB
    have hg1B : alGet st2.entityStates e1.id = some a1' := by
      rw [hst2]
      show alGet (alUpd st'.entityStates e2.id (fun es0 => { es0 with waitingForFollowers := false, processing := false })) e1.id = _
      rw [alGet_alUpd_ne _ _ _ _ hne]
      exact ha1'
    have hb2B : alGet st2.entityStates e2.id = some { b2' with waitingForFollowers := false, processing := false } := by
      rw [hst2]
      show alGet (alUpd st'.entityStates e2.id (fun es0 => { es0 with waitingForFollowers := false, processing := false })) e2.id = _
      rw [alGet_alUpd_same, hb2']
      rfl
    have hvals2 : ∀ y v, alGet st2.entityStates y = some v → v.clusterId = some c1 ∨ v.clusterId = some c2 := by
      intro y v hv
      rw [hst2] at hv
      have hv' : alGet (alUpd st'.entityStates e2.id (fun es0 => { es0 with waitingForFollowers := false, processing := false })) y = some v := hv
      obtain ⟨v0, hv0, hcase⟩ := alGet_alUpd_val st'.entityStates e2.id y _ v hv'
      have hsame : v.clusterId = v0.clusterId := by
        rcases hcase with rfl | rfl <;> rfl
      rw [hsame]
      exact hvalsU y v0 hv0
    rcases runFallback_pair_second data st2 e1 e2 c1 c2 a1' hents hne hlayer ht1 hc12 hg1B hacid1 hvals2 with hjoin2 | ⟨-, hlef⟩
    · have hclB2 : st2.clusters = [(c2, cl2), (c1, cl1)] ∨ st2.clusters = [(c1, cl1), (c2, cl2)] := by
        rw [hcls2]
        exact hcl.symm
      have hLJ2 := leaveAndJoin_two st2 c2 c1 cl2 cl1 e2.id e1.id hclB2 (Ne.symm hc12) hm2 hm1 (Ne.symm hne)
      have hFin : processEvent data cfg st' { time := t2, type := .follower_wait_ends, entityId := e2.id, clusterId := some c2 } = { st2 with clusters := [(c1, { cl1 with members := [e1.id, e2.id] })], entityStates := alUpd (alUpd st2.entityStates e2.id (fun es => { es with clusterId := some c1 })) e2.id (fun es => { es with isClusterLeader := false }) } := by
        rw [hP2, hjoin2, hLJ2]
      have hF1 : alGet (alUpd (alUpd st2.entityStates e2.id (fun es => { es with clusterId := some c1 })) e2.id (fun es => { es with isClusterLeader := false })) e1.id = some a1' := by
        rw [alGet_alUpd_ne _ _ _ _ hne, alGet_alUpd_ne _ _ _ _ hne]
        exact hg1B
      have hF2 : alGet (alUpd (alUpd st2.entityStates e2.id (fun es => { es with clusterId := some c1 })) e2.id (fun es => { es with isClusterLeader := false })) e2.id = some { b2' with waitingForFollowers := false, processing := false, clusterId := some c1, isClusterLeader := false } := by
        rw [alGet_alUpd_same, alGet_alUpd_same, hb2B]
        rfl
      refine ⟨c1, { cl1 with members := [e1.id, e2.id] }, ?_, Or.inl rfl, rfl, ?_, ?_, ?_⟩
      · rw [hFin]
      · simp
      · simp
      · refine ⟨a1', { b2' with waitingForFollowers := false, processing := false, clusterId := some c1, isClusterLeader := false }, ?_, ?_, hacid1, rfl⟩
        · rw [hFin]
          exact hF1
        · rw [hFin]
          exact hF2
    · exact absurd (hle.symm.trans hlef) (by simp)

end C4Main

/-- Witness for the amended C4 theorem: the concrete two-person instance, with
no `entity_indexed` event between the two follower waits. -/
theorem c4_two_entities_converge_amended_witness :
    ∃ c cl,
      (ClusterSim.processEvent ClusterSim.c4wData ClusterSim.c3Config ClusterSim.c4wMid { time := 50000, type := ClusterSim.EventType.follower_wait_ends, entityId := "b", clusterId := some "cluster_2" }).clusters = [(c, cl)] ∧
      (c = "cluster_1" ∨ c = "cluster_2") ∧
      cl.members.length = 2 ∧ "a" ∈ cl.members ∧ "b" ∈ cl.members ∧
      ∃ g1 g2,
        ClusterSim.alGet (ClusterSim.processEvent ClusterSim.c4wData ClusterSim.c3Config ClusterSim.c4wMid { time := 50000, type := ClusterSim.EventType.follower_wait_ends, entityId := "b", clusterId := some "cluster_2" }).entityStates "a" = some g1 ∧
        ClusterSim.alGet (ClusterSim.processEvent ClusterSim.c4wData ClusterSim.c3Config ClusterSim.c4wMid { time := 50000, type := ClusterSim.EventType.follower_wait_ends, entityId := "b", clusterId := some "cluster_2" }).entityStates "b" = some g2 ∧
        g1.clusterId = some c ∧ g2.clusterId = some c :=
  c4_two_entities_converge_amended ClusterSim.c4wData ClusterSim.c3Config
    ClusterSim.c4wState ClusterSim.c4wMid ClusterSim.c4wE1 ClusterSim.c4wE2
    ClusterSim.c4wEs1 ClusterSim.c4wEs2 "cluster_1" "cluster_2"
    ClusterSim.c4wCl1 ClusterSim.c4wCl2 40000 50000
    rfl (by decide) rfl (by decide) (by decide) (by decide) (by decide)
    (Or.inl rfl) (Or.inl rfl) (by decide) rfl rfl rfl rfl rfl rfl
    (indexUpgrade_refl _)

section C5Digits

open ClusterSim

theorem digitVal_digitChar (d : Nat) (hd : d < 10) : digitVal (digitChar d) = d := by
  interval_cases d <;> decide

theorem digitsVal_append (l : List Char) (c : Char) :
    digitsVal (l ++ [c]) = 10 * digitsVal l + digitVal c := by
  simp [digitsVal, List.foldl_append]

theorem digitsVal_natDigits :
    ∀ fuel n, n < fuel → digitsVal (natDigits fuel n) = n := by
  intro fuel
  induction fuel with
  | zero => intro n h; omega
  | succ f ih =>
    intro n h
    simp only [natDigits]
    by_cases h10 : n < 10
    · rw [if_pos h10]
      simp [digitsVal, digitVal_digitChar n h10]
    · rw [if_neg h10]
      rw [digitsVal_append]
      rw [ih (n / 10) (by omega)]
      rw [digitVal_digitChar (n % 10) (by omega)]
      omega

theorem natStr_inj (m n : Nat) (h : natStr m = natStr n) : m = n := by
  have hd : natDigits (m + 1) m = natDigits (n + 1) n := congrArg String.data h
  have hv := congrArg digitsVal hd
  rw [digitsVal_natDigits (m + 1) m (by omega),
    digitsVal_natDigits (n + 1) n (by omega)] at hv
  exact hv

theorem string_data_inj (s t : String) (h : s.data = t.data) : s = t := by
  cases s
  cases t
  exact congrArg String.mk h

theorem mkClusterId_inj (m n : Nat) (h : mkClusterId m = mkClusterId n) :
    m = n := by
  apply natStr_inj
  have hd : "cluster_".data ++ (natStr m).data =
      "cluster_".data ++ (natStr n).data := congrArg String.data h
  exact string_data_inj _ _ (List.append_cancel_left hd)

theorem swapHead {α : Type} :
    ∀ (xs : List α) (k : Nat) (x b : α), xs[k]? = some b →
      List.Perm (b :: xs.set k x) (x :: xs) := by
  intro xs
  induction xs with
  | nil => intro k x b h; simp at h
  | cons y t ih =>
    intro k x b h
    cases k with
    | zero =>
      simp only [List.getElem?_cons_zero] at h
      obtain rfl : y = b := Option.some.inj h
      exact List.Perm.swap x y t
    | succ k =>
      simp only [List.getElem?_cons_succ] at h
      show List.Perm (b :: y :: t.set k x) (x :: y :: t)
      exact List.Perm.trans (List.Perm.swap y b (t.set k x))
        (List.Perm.trans (List.Perm.cons y (ih k x b h))
          (List.Perm.swap x y t))

theorem set_set_perm {α : Type} :
    ∀ (l : List α) (i j : Nat) (a b : α), l[i]? = some a → l[j]? = some b →
      List.Perm ((l.set i b).set j a) l := by
  intro l
  induction l with
  | nil => intro i j a b hi hj; simp at hi
  | cons y t ih =>
    intro i j a b hi hj
    cases i with
    | zero =>
      simp only [List.getElem?_cons_zero] at hi
      obtain rfl : y = a := Option.some.inj hi
      cases j with
      | zero =>
        simp only [List.getElem?_cons_zero] at hj
        obtain rfl : y = b := Option.some.inj hj
        show List.Perm (y :: t) (y :: t)
        exact List.Perm.refl _
      | succ j =>
        simp only [List.getElem?_cons_succ] at hj
        show List.Perm (b :: t.set j y) (y :: t)
        exact swapHead t j y b hj
    | succ i =>
      simp only [List.getElem?_cons_succ] at hi
      cases j with
      | zero =>
        simp only [List.getElem?_cons_zero] at hj
        obtain rfl : y = b := Option.some.inj hj
        show List.Perm (a :: t.set i y) (y :: t)
        exact swapHead t i y a hi
      | succ j =>
        simp only [List.getElem?_cons_succ] at hj
        show List.Perm (y :: (t.set i b).set j a) (y :: t)
        exact List.Perm.cons y (ih i j a b hi hj)

theorem listSwap_perm {α : Type} (l : List α) (i j : Nat) :
    List.Perm (listSwap l i j) l := by
  unfold listSwap
  split
  · rename_i a b hi hj
    exact set_set_perm l i j a b hi hj
  · exact List.Perm.refl l

theorem shuffleGo_perm {α : Type} :
    ∀ (c : Nat) (arr : List α) (seed : Int),
      List.Perm (shuffleGo arr seed c).1 arr := by
  intro c
  induction c with
  | zero => intro arr seed; exact List.Perm.refl arr
  | succ c ih =>
    intro arr seed
    rw [shuffleGo]
    exact List.Perm.trans (ih _ _) (listSwap_perm arr (c + 1) _)

theorem shuffle_perm {α : Type} (l : List α) (seed : Int) :
    List.Perm (shuffle l seed).1 l :=
  shuffleGo_perm _ l seed

end C5Digits

section C5Lists

open ClusterSim

theorem setAdd_mem (l : List String) (x y : String) :
    y ∈ setAdd l x ↔ y ∈ l ∨ y = x := by
  unfold setAdd
  by_cases h : l.contains x
  · rw [if_pos h]
    constructor
    · exact Or.inl
    · rintro (hy | rfl)
      · exact hy
      · exact List.elem_iff.mp h
  · rw [if_neg h]
    simp

theorem setDel_subset (l : List String) (x y : String) (hy : y ∈ setDel l x) :
    y ∈ l :=
  List.mem_of_mem_filter hy

theorem alUpd_keys {β : Type} (l : List (String × β)) (k : String) (f : β → β) :
    (alUpd l k f).map Prod.fst = l.map Prod.fst := by
  simp only [alUpd, List.map_map]
  apply List.map_congr_left
  intro p hp
  show (if p.1 == k then (p.1, f p.2) else p).1 = p.1
  split <;> rfl

theorem alUpd_mem_self {β : Type} (l : List (String × β)) (k : String)
    (f : β → β) (p : String × β) (hp : p ∈ l) (hk : p.1 = k) :
    (p.1, f p.2) ∈ alUpd l k f := by
  have h := List.mem_map_of_mem
    (fun q : String × β => if q.1 == k then (q.1, f q.2) else q) hp
  simpa [alUpd, hk] using h

theorem alUpd_mem_other {β : Type} (l : List (String × β)) (k : String)
    (f : β → β) (p : String × β) (hp : p ∈ l) (hk : p.1 ≠ k) :
    p ∈ alUpd l k f := by
  have h := List.mem_map_of_mem
    (fun q : String × β => if q.1 == k then (q.1, f q.2) else q) hp
  simpa [alUpd, beq_eq_false_iff_ne.mpr hk] using h

theorem alUpd_mem_inv {β : Type} (l : List (String × β)) (k : String)
    (f : β → β) (q : String × β) (hq : q ∈ alUpd l k f) :
    ∃ p, p ∈ l ∧ ((p.1 ≠ k ∧ q = p) ∨ (p.1 = k ∧ q = (p.1, f p.2))) := by
  simp only [alUpd, List.mem_map] at hq
  obtain ⟨p, hp, hqe⟩ := hq
  by_cases hk : p.1 = k
  · refine ⟨p, hp, Or.inr ⟨hk, ?_⟩⟩
    rw [← hqe]
    simp [hk]
  · refine ⟨p, hp, Or.inl ⟨hk, ?_⟩⟩
    rw [← hqe]
    simp [beq_eq_false_iff_ne.mpr hk]

theorem alGet_of_mem_nodup {β : Type} :
    ∀ (l : List (String × β)) (k : String) (v : β),
      (k, v) ∈ l → (l.map Prod.fst).Nodup → alGet l k = some v := by
  intro l
  induction l with
  | nil => intro k v hmem _; cases hmem
  | cons p t ih =>
    intro k v hmem hnd
    rcases List.mem_cons.mp hmem with heq | hmem'
    · rw [← heq]
      exact alGet_cons_self _ _ _
    · have hk : p.1 ≠ k := by
        intro h
        have hin : k ∈ t.map Prod.fst :=
          List.mem_map_of_mem Prod.fst hmem'
        rw [List.map_cons] at hnd
        exact (List.nodup_cons.mp hnd).1 (h ▸ hin)
      rw [show p = (p.1, p.2) from rfl, alGet_cons_ne _ _ _ _ hk]
      rw [List.map_cons] at hnd
      exact ih k v hmem' (List.nodup_cons.mp hnd).2

theorem mem_of_alGet {β : Type} :
    ∀ (l : List (String × β)) (k : String) (v : β),
      alGet l k = some v → (k, v) ∈ l := by
  intro l
  induction l with
  | nil => intro k v h; cases h
  | cons p t ih =>
    intro k v h
    rw [show p = (p.1, p.2) from rfl, alGet_cons] at h
    split at h
    · rename_i hk
      obtain rfl : p.1 = k := beq_iff_eq.mp hk
      obtain rfl : p.2 = v := Option.some.inj h
      exact List.mem_cons_self _ _
    · exact List.mem_cons_of_mem _ (ih k v h)

theorem mem_scheduleEvent (q : List Event) (e a : Event) :
    a ∈ scheduleEvent q e ↔ a ∈ q ∨ a = e := by
  induction q with
  | nil => simp [scheduleEvent]
  | cons x xs ih =>
    rw [scheduleEvent]
    by_cases h : x.time ≤ e.time
    · rw [if_pos h]
      simp only [List.mem_cons, ih]
      tauto
    · rw [if_neg h]
      simp only [List.mem_cons]
      tauto

theorem pairwise_scheduleEvent (R : Event → Event → Prop) (q : List Event)
    (e : Event) (hq : List.Pairwise R q) (he : ∀ b ∈ q, R e b ∧ R b e) :
    List.Pairwise R (scheduleEvent q e) := by
  induction q with
  | nil => simp [scheduleEvent]
  | cons x xs ih =>
    rw [scheduleEvent]
    by_cases h : x.time ≤ e.time
    · rw [if_pos h]
      rcases List.pairwise_cons.mp hq with ⟨hx, hxs⟩
      refine List.pairwise_cons.mpr ⟨?_, ih hxs
        (fun b hb => he b (List.mem_cons_of_mem _ hb))⟩
      intro b hb
      rcases (mem_scheduleEvent xs e b).mp hb with hb' | rfl
      · exact hx b hb'
      · exact (he x (List.mem_cons_self _ _)).2
    · rw [if_neg h]
      refine List.pairwise_cons.mpr ⟨?_, hq⟩
      intro b hb
      rcases List.mem_cons.mp hb with rfl | hb'
      · exact (he b (List.mem_cons_self _ _)).1
      · exact (he b (List.mem_cons_of_mem _ hb')).1

end C5Lists

section C5View

open ClusterSim

theorem cidView_eq_of_upd (l : List (String × EntityState)) (k : String)
    (f : EntityState → EntityState)
    (hf : ∀ es, (f es).clusterId = es.clusterId) (x : String) :
    (alGet (alUpd l k f) x).map (fun es => es.clusterId) =
      (alGet l x).map (fun es => es.clusterId) := by
  rw [alGet_alUpd]
  by_cases hx : x = k
  · rw [if_pos hx]
    cases h : alGet l x with
    | none => rfl
    | some es =>
      show some (f es).clusterId = some es.clusterId
      rw [hf]
  · rw [if_neg hx]

theorem InvClusters_eq (st st' : SimState) (h1 : st'.clusters = st.clusters)
    (h2 : st'.nextClusterId = st.nextClusterId) (h : InvClusters st) :
    InvClusters st' := by
  unfold InvClusters at h ⊢
  rw [h1, h2]
  exact h

theorem InvUnique_eq (st st' : SimState) (h1 : st'.clusters = st.clusters)
    (h : InvUnique st) : InvUnique st' := by
  unfold InvUnique at h ⊢
  rw [h1]
  exact h

theorem InvCid_eq (st st' : SimState) (h1 : st'.clusters = st.clusters)
    (h2 : ∀ x, cidView st' x = cidView st x) (h : InvCid st) : InvCid st' := by
  intro x c hx
  rw [h2] at hx
  rw [h1]
  exact h x c hx

theorem InvMem_eq (st st' : SimState) (h1 : st'.clusters = st.clusters)
    (h2 : ∀ x, cidView st' x = cidView st x) (h : InvMem st) : InvMem st' := by
  intro p hp x hx
  rw [h2]
  exact h p (by rw [← h1]; exact hp) x hx

theorem qProp_eq (st st' : SimState) (ev : Event)
    (h2 : ∀ x, cidView st' x = cidView st x) (h : qProp st ev) : qProp st' ev := by
  obtain ⟨hA, hF⟩ := h
  refine ⟨?_, ?_⟩
  · intro ht o ho
    exact hA ht o (by rw [← h2]; exact ho)
  · intro c ht hc o ho
    exact hF c ht hc o (by rw [← h2]; exact ho)

theorem entry_unique {β : Type} :
    ∀ (l : List (String × β)), (l.map Prod.fst).Nodup →
      ∀ p q, p ∈ l → q ∈ l → p.1 = q.1 → p = q := by
  intro l
  induction l with
  | nil => intro _ p q hp _ _; cases hp
  | cons r t ih =>
    intro hnd p q hp hq hk
    rw [List.map_cons, List.nodup_cons] at hnd
    rcases List.mem_cons.mp hp with rfl | hp' <;>
      rcases List.mem_cons.mp hq with h | hq'
    · rw [h]
    · have hmem : q.1 ∈ List.map Prod.fst t :=
        List.mem_map_of_mem Prod.fst hq'
      rw [← hk] at hmem
      exact absurd hmem hnd.1
    · have hmem : p.1 ∈ List.map Prod.fst t :=
        List.mem_map_of_mem Prod.fst hp'
      rw [hk, h] at hmem
      exact absurd hmem hnd.1
    · exact ih hnd.2 p q hp' hq' hk

theorem findClusteredPeer_some (states : List (String × EntityState)) :
    ∀ (peers : List SimilarityEntry) (pid c : String),
      findClusteredPeer states peers = some (pid, c) →
      ∃ ps, alGet states pid = some ps ∧ ps.clusterId = some c := by
  intro peers
  induction peers with
  | nil => intro pid c h; cases h
  | cons p rest ih =>
    intro pid c h
    rw [findClusteredPeer] at h
    rcases hg : alGet states p.peerId with _ | ps
    · simp only [hg] at h
      exact ih pid c h
    · simp only [hg] at h
      rcases hcl : ps.clusterId with _ | c0
      · simp only [hcl] at h
        exact ih pid c h
      · simp only [hcl] at h
        have hpair := Option.some.inj h
        injection hpair with h1 h2
        exact ⟨ps, h1 ▸ hg, h2 ▸ hcl⟩

theorem lexScan_some_some (states : List (String × EntityState))
    (entityId myClusterId : String) :
    ∀ (ents : List Entity) (c : String),
      lexScan states entityId myClusterId ents = some (some c) →
      ∃ x ps, alGet states x = some ps ∧ ps.clusterId = some c ∧
        c ≠ myClusterId := by
  intro ents
  induction ents with
  | nil => intro c h; cases h
  | cons ent rest ih =>
    intro c h
    rw [lexScan] at h
    by_cases h1 : ent.id = entityId
    · rw [if_pos h1] at h
      cases Option.some.inj h
    · rw [if_neg h1] at h
      by_cases h2 : (ent.type == "cluster_leader") = true
      · rw [if_pos h2] at h
        exact ih c h
      · rw [if_neg h2] at h
        rcases hg : alGet states ent.id with _ | ps
        · simp only [hg] at h
          exact ih c h
        · simp only [hg] at h
          rcases hcl : ps.clusterId with _ | c0
          · simp only [hcl] at h
            exact ih c h
          · simp only [hcl] at h
            by_cases hne : c0 ≠ myClusterId
            · rw [if_pos hne] at h
              obtain rfl : c0 = c :=
                Option.some.inj (Option.some.inj h)
              exact ⟨ent.id, ps, hg, hcl, hne⟩
            · rw [if_neg hne] at h
              exact ih c h

end C5View

section C5Core

open ClusterSim

theorem core_iff (st : SimState) :
    (InvClusters st ∧ InvUnique st ∧ InvCid st ∧ InvMem st) ↔
      coreInv st.clusters st.nextClusterId (cidView st) :=
  Iff.rfl

theorem core_notMem (cls : List (String × ClusterState)) (nid : Nat)
    (view : String → Option (Option String)) (h : coreInv cls nid view)
    (x : String) (hx : view x = some none) :
    ∀ p ∈ cls, x ∉ p.2.members := by
  intro p hp hmem
  have hv := h.2.2.2 p hp x hmem
  rw [hx] at hv
  exact Option.noConfusion (Option.some.inj hv)

theorem coreInv_create (cls : List (String × ClusterState)) (nid : Nat)
    (view view' : String → Option (Option String)) (x : String)
    (cl : ClusterState)
    (hinv : coreInv cls nid view)
    (hx : view x = some none)
    (hclm : cl.members = [x])
    (hv1 : view' x = some (some (mkClusterId nid)))
    (hv2 : ∀ y, y ≠ x → view' y = view y) :
    coreInv (cls ++ [(mkClusterId nid, cl)]) (nid + 1) view' := by
  obtain ⟨⟨hkeys, hnd⟩, huniq, hcid, hmem⟩ := hinv
  have hA := core_notMem cls nid view ⟨⟨hkeys, hnd⟩, huniq, hcid, hmem⟩ x hx
  have hfresh : mkClusterId nid ∉ cls.map Prod.fst := by
    intro hin
    obtain ⟨p, hp, hpk⟩ := List.mem_map.mp hin
    obtain ⟨i, hpi, hlt⟩ := hkeys p hp
    rw [hpi] at hpk
    have := mkClusterId_inj i nid hpk
    omega
  refine ⟨⟨?_, ?_⟩, ?_, ?_, ?_⟩
  · intro p hp
    rcases List.mem_append.mp hp with hp' | hp'
    · obtain ⟨i, hi, hlt⟩ := hkeys p hp'
      exact ⟨i, hi, by omega⟩
    · obtain rfl : p = (mkClusterId nid, cl) := List.mem_singleton.mp hp'
      exact ⟨nid, rfl, by omega⟩
  · rw [List.map_append]
    refine List.Nodup.append hnd (List.nodup_singleton _) ?_
    intro a ha hb
    obtain rfl : a = mkClusterId nid := List.mem_singleton.mp hb
    exact hfresh ha
  · intro p hp q hq y hyp hyq
    rcases List.mem_append.mp hp with hp' | hp' <;>
      rcases List.mem_append.mp hq with hq' | hq'
    · exact huniq p hp' q hq' y hyp hyq
    · obtain rfl : q = (mkClusterId nid, cl) := List.mem_singleton.mp hq'
      have hyq' : y ∈ cl.members := hyq
      rw [hclm] at hyq'
      obtain rfl : y = x := List.mem_singleton.mp hyq'
      exact absurd hyp (hA p hp')
    · obtain rfl : p = (mkClusterId nid, cl) := List.mem_singleton.mp hp'
      have hyp' : y ∈ cl.members := hyp
      rw [hclm] at hyp'
      obtain rfl : y = x := List.mem_singleton.mp hyp'
      exact absurd hyq (hA q hq')
    · obtain rfl : p = (mkClusterId nid, cl) := List.mem_singleton.mp hp'
      obtain rfl : q = (mkClusterId nid, cl) := List.mem_singleton.mp hq'
      rfl
  · intro y c' hy
    by_cases hyx : y = x
    · subst hyx
      rw [hv1] at hy
      obtain rfl : mkClusterId nid = c' :=
        Option.some.inj (Option.some.inj hy)
      refine ⟨cl, List.mem_append_right _ (List.mem_singleton_self _), ?_⟩
      rw [hclm]
      exact List.mem_singleton_self y
    · rw [hv2 y hyx] at hy
      obtain ⟨cl0, hcl0, hycl0⟩ := hcid y c' hy
      exact ⟨cl0, List.mem_append_left _ hcl0, hycl0⟩
  · intro p hp y hy
    rcases List.mem_append.mp hp with hp' | hp'
    · have hyx : y ≠ x := fun h => hA p hp' (h ▸ hy)
      rw [hv2 y hyx]
      exact hmem p hp' y hy
    · obtain rfl : p = (mkClusterId nid, cl) := List.mem_singleton.mp hp'
      have hy' : y ∈ cl.members := hy
      rw [hclm] at hy'
      obtain rfl : y = x := List.mem_singleton.mp hy'
      exact hv1

theorem coreInv_join (cls : List (String × ClusterState)) (nid : Nat)
    (view view' : String → Option (Option String)) (x c : String)
    (clt : ClusterState)
    (hinv : coreInv cls nid view)
    (hx : view x = some none)
    (hct : (c, clt) ∈ cls)
    (hv1 : view' x = some (some c))
    (hv2 : ∀ y, y ≠ x → view' y = view y) :
    coreInv (alUpd cls c
      (fun cl => { cl with members := setAdd cl.members x })) nid view' := by
  obtain ⟨⟨hkeys, hnd⟩, huniq, hcid, hmem⟩ := hinv
  have hA := core_notMem cls nid view ⟨⟨hkeys, hnd⟩, huniq, hcid, hmem⟩ x hx
  have hdec : ∀ q' ∈ alUpd cls c
      (fun cl => { cl with members := setAdd cl.members x }),
      ∃ p, p ∈ cls ∧ q'.1 = p.1 ∧
        (q'.2.members = p.2.members ∨
          (p.1 = c ∧ q'.2.members = setAdd p.2.members x)) := by
    intro q' hq'
    obtain ⟨p, hp, hcase⟩ := alUpd_mem_inv cls c _ q' hq'
    rcases hcase with ⟨hne, rfl⟩ | ⟨hkc, rfl⟩
    · exact ⟨q', hp, rfl, Or.inl rfl⟩
    · exact ⟨p, hp, rfl, Or.inr ⟨hkc, rfl⟩⟩
  refine ⟨⟨?_, ?_⟩, ?_, ?_, ?_⟩
  · intro q' hq'
    obtain ⟨p, hp, hk, -⟩ := hdec q' hq'
    obtain ⟨i, hi, hlt⟩ := hkeys p hp
    exact ⟨i, hk.trans hi, hlt⟩
  · rw [alUpd_keys]
    exact hnd
  · intro p' hp' q' hq' y hyp hyq
    obtain ⟨p, hp, hpk, hpm⟩ := hdec p' hp'
    obtain ⟨q, hq, hqk, hqm⟩ := hdec q' hq'
    by_cases hyx : y = x
    · subst hyx
      have hpc : p'.1 = c := by
        rcases hpm with hm | ⟨hkc, hm⟩
        · rw [hm] at hyp
          exact absurd hyp (hA p hp)
        · rw [hpk]
          exact hkc
      have hqc : q'.1 = c := by
        rcases hqm with hm | ⟨hkc, hm⟩
        · rw [hm] at hyq
          exact absurd hyq (hA q hq)
        · rw [hqk]
          exact hkc
      rw [hpc, hqc]
    · have hyp0 : y ∈ p.2.members := by
        rcases hpm with hm | ⟨-, hm⟩
        · rw [hm] at hyp
          exact hyp
        · rw [hm] at hyp
          rcases (setAdd_mem _ _ _).mp hyp with h | h
          · exact h
          · exact absurd h hyx
      have hyq0 : y ∈ q.2.members := by
        rcases hqm with hm | ⟨-, hm⟩
        · rw [hm] at hyq
          exact hyq
        · rw [hm] at hyq
          rcases (setAdd_mem _ _ _).mp hyq with h | h
          · exact h
          · exact absurd h hyx
      rw [hpk, hqk]
      exact huniq p hp q hq y hyp0 hyq0
  · intro y c' hy
    by_cases hyx : y = x
    · subst hyx
      rw [hv1] at hy
      obtain rfl : c = c' := Option.some.inj (Option.some.inj hy)
      refine ⟨{ clt with members := setAdd clt.members y }, ?_, ?_⟩
      · exact alUpd_mem_self cls c _ (c, clt) hct rfl
      · exact (setAdd_mem _ _ _).mpr (Or.inr rfl)
    · rw [hv2 y hyx] at hy
      obtain ⟨cl0, hcl0, hycl0⟩ := hcid y c' hy
      by_cases hcc : c' = c
      · subst hcc
        refine ⟨{ cl0 with members := setAdd cl0.members x }, ?_, ?_⟩
        · exact alUpd_mem_self cls c' _ (c', cl0) hcl0 rfl
        · exact (setAdd_mem _ _ _).mpr (Or.inl hycl0)
      · exact ⟨cl0, alUpd_mem_other cls c _ (c', cl0) hcl0 hcc, hycl0⟩
  · intro p' hp' y hy
    obtain ⟨p, hp, hpk, hpm⟩ := hdec p' hp'
    by_cases hyx : y = x
    · subst hyx
      have hpc : p'.1 = c := by
        rcases hpm with hm | ⟨hkc, hm⟩
        · rw [hm] at hy
          exact absurd hy (hA p hp)
        · rw [hpk]
          exact hkc
      rw [hpc]
      exact hv1
    · have hy0 : y ∈ p.2.members := by
        rcases hpm with hm | ⟨-, hm⟩
        · rw [hm] at hy
          exact hy
        · rw [hm] at hy
          rcases (setAdd_mem _ _ _).mp hy with h | h
          · exact h
          · exact absurd h hyx
      rw [hv2 y hyx, hpk]
      exact hmem p hp y hy0

end C5Core

section C5Core2

open ClusterSim

theorem coreInv_leaveJoin (cls : List (String × ClusterState)) (nid : Nat)
    (view view' : String → Option (Option String)) (x cm c : String)
    (clm clt : ClusterState)
    (hinv : coreInv cls nid view)
    (hx : view x = some (some cm))
    (hclm : (cm, clm) ∈ cls)
    (hclmm : clm.members = [x])
    (hcc : c ≠ cm)
    (hct : (c, clt) ∈ cls)
    (hv1 : view' x = some (some c))
    (hv2 : ∀ y, y ≠ x → view' y = view y) :
    coreInv (alUpd (cls.filter (fun p => p.1 ≠ cm)) c
      (fun cl => { cl with members := setAdd cl.members x })) nid view' := by
  obtain ⟨⟨hkeys, hnd⟩, huniq, hcid, hmem⟩ := hinv
  have hxin : x ∈ clm.members := by
    rw [hclmm]
    exact List.mem_singleton_self x
  have hxonly : ∀ p ∈ cls, x ∈ p.2.members → p.1 = cm :=
    fun p hp hxp => huniq p hp (cm, clm) hclm x hxp hxin
  have hfltmem : ∀ q ∈ cls.filter (fun p => p.1 ≠ cm), q ∈ cls ∧ q.1 ≠ cm := by
    intro q hq
    refine ⟨List.mem_of_mem_filter hq, ?_⟩
    have hb := List.of_mem_filter hq
    exact of_decide_eq_true hb
  have hctf : (c, clt) ∈ cls.filter (fun p => p.1 ≠ cm) :=
    List.mem_filter.mpr ⟨hct, decide_eq_true hcc⟩
  have hA : ∀ p ∈ cls.filter (fun p => p.1 ≠ cm), x ∉ p.2.members := by
    intro p hp hxp
    obtain ⟨hp', hpne⟩ := hfltmem p hp
    exact hpne (hxonly p hp' hxp)
  have hsurv : ∀ c' cl0, (c', cl0) ∈ cls → c' ≠ cm →
      (c', cl0) ∈ cls.filter (fun p => p.1 ≠ cm) :=
    fun c' cl0 hm hne => List.mem_filter.mpr ⟨hm, decide_eq_true hne⟩
  have hother : ∀ y c' cl0, y ≠ x → (c', cl0) ∈ cls → y ∈ cl0.members →
      c' ≠ cm := by
    intro y c' cl0 hyx hm hym hec
    subst hec
    have : (c', cl0) = (c', clm) :=
      entry_unique cls hnd (c', cl0) (c', clm) hm hclm rfl
    have hcl0 : cl0 = clm := congrArg Prod.snd this
    rw [hcl0, hclmm] at hym
    exact hyx (List.mem_singleton.mp hym)
  have hndf : ((cls.filter (fun p => p.1 ≠ cm)).map Prod.fst).Nodup :=
    List.Nodup.sublist (List.Sublist.map _ (List.filter_sublist _)) hnd
  have hdec : ∀ q' ∈ alUpd (cls.filter (fun p => p.1 ≠ cm)) c
      (fun cl => { cl with members := setAdd cl.members x }),
      ∃ p, p ∈ cls.filter (fun p => p.1 ≠ cm) ∧ q'.1 = p.1 ∧
        (q'.2.members = p.2.members ∨
          (p.1 = c ∧ q'.2.members = setAdd p.2.members x)) := by
    intro q' hq'
    obtain ⟨p, hp, hcase⟩ := alUpd_mem_inv _ c _ q' hq'
    rcases hcase with ⟨hne, rfl⟩ | ⟨hkc, rfl⟩
    · exact ⟨q', hp, rfl, Or.inl rfl⟩
    · exact ⟨p, hp, rfl, Or.inr ⟨hkc, rfl⟩⟩
  refine ⟨⟨?_, ?_⟩, ?_, ?_, ?_⟩
  · intro q' hq'
    obtain ⟨p, hp, hk, -⟩ := hdec q' hq'
    obtain ⟨i, hi, hlt⟩ := hkeys p (hfltmem p hp).1
    exact ⟨i, hk.trans hi, hlt⟩
  · rw [alUpd_keys]
    exact hndf
  · intro p' hp' q' hq' y hyp hyq
    obtain ⟨p, hp, hpk, hpm⟩ := hdec p' hp'
    obtain ⟨q, hq, hqk, hqm⟩ := hdec q' hq'
    by_cases hyx : y = x
    · subst hyx
      have hpc : p'.1 = c := by
        rcases hpm with hm | ⟨hkc, hm⟩
        · rw [hm] at hyp
          exact absurd hyp (hA p hp)
        · rw [hpk]
          exact hkc
      have hqc : q'.1 = c := by
        rcases hqm with hm | ⟨hkc, hm⟩
        · rw [hm] at hyq
          exact absurd hyq (hA q hq)
        · rw [hqk]
          exact hkc
      rw [hpc, hqc]
    · have hyp0 : y ∈ p.2.members := by
        rcases hpm with hm | ⟨-, hm⟩
        · rw [hm] at hyp
          exact hyp
        · rw [hm] at hyp
          rcases (setAdd_mem _ _ _).mp hyp with h | h
          · exact h
          · exact absurd h hyx
      have hyq0 : y ∈ q.2.members := by
        rcases hqm with hm | ⟨-, hm⟩
        · rw [hm] at hyq
          exact hyq
        · rw [hm] at hyq
          rcases (setAdd_mem _ _ _).mp hyq with h | h
          · exact h
          · exact absurd h hyx
      rw [hpk, hqk]
      exact huniq p (hfltmem p hp).1 q (hfltmem q hq).1 y hyp0 hyq0
  · intro y c' hy
    by_cases hyx : y = x
    · subst hyx
      rw [hv1] at hy
      obtain rfl : c = c' := Option.some.inj (Option.some.inj hy)
      refine ⟨{ clt with members := setAdd clt.members y }, ?_, ?_⟩
      · exact alUpd_mem_self _ c _ (c, clt) hctf rfl
      · exact (setAdd_mem _ _ _).mpr (Or.inr rfl)
    · rw [hv2 y hyx] at hy
      obtain ⟨cl0, hcl0, hycl0⟩ := hcid y c' hy
      have hne : c' ≠ cm := hother y c' cl0 hyx hcl0 hycl0
      have hcl0f := hsurv c' cl0 hcl0 hne
      by_cases hcc' : c' = c
      · subst hcc'
        refine ⟨{ cl0 with members := setAdd cl0.members x }, ?_, ?_⟩
        · exact alUpd_mem_self _ c' _ (c', cl0) hcl0f rfl
        · exact (setAdd_mem _ _ _).mpr (Or.inl hycl0)
      · exact ⟨cl0, alUpd_mem_other _ c _ (c', cl0) hcl0f hcc', hycl0⟩
  · intro p' hp' y hy
    obtain ⟨p, hp, hpk, hpm⟩ := hdec p' hp'
    by_cases hyx : y = x
    · subst hyx
      have hpc : p'.1 = c := by
        rcases hpm with hm | ⟨hkc, hm⟩
        · rw [hm] at hy
          exact absurd hy (hA p hp)
        · rw [hpk]
          exact hkc
      rw [hpc]
      exact hv1
    · have hy0 : y ∈ p.2.members := by
        rcases hpm with hm | ⟨-, hm⟩
        · rw [hm] at hy
          exact hy
        · rw [hm] at hy
          rcases (setAdd_mem _ _ _).mp hy with h | h
          · exact h
          · exact absurd h hyx
      rw [hv2 y hyx, hpk]
      exact hmem p (hfltmem p hp).1 y hy0

theorem coreInv_dissolve (cls : List (String × ClusterState)) (nid : Nat)
    (view view' : String → Option (Option String)) (x cm : String)
    (clm : ClusterState)
    (hinv : coreInv cls nid view)
    (hx : view x = some (some cm))
    (hclm : (cm, clm) ∈ cls)
    (hclmm : clm.members = [x])
    (hv1 : view' x = some none)
    (hv2 : ∀ y, y ≠ x → view' y = view y) :
    coreInv (cls.filter (fun p => p.1 ≠ cm)) nid view' := by
  obtain ⟨⟨hkeys, hnd⟩, huniq, hcid, hmem⟩ := hinv
  have hxin : x ∈ clm.members := by
    rw [hclmm]
    exact List.mem_singleton_self x
  have hxonly : ∀ p ∈ cls, x ∈ p.2.members → p.1 = cm :=
    fun p hp hxp => huniq p hp (cm, clm) hclm x hxp hxin
  have hfltmem : ∀ q ∈ cls.filter (fun p => p.1 ≠ cm), q ∈ cls ∧ q.1 ≠ cm := by
    intro q hq
    refine ⟨List.mem_of_mem_filter hq, ?_⟩
    have hb := List.of_mem_filter hq
    exact of_decide_eq_true hb
  have hother : ∀ y c' cl0, y ≠ x → (c', cl0) ∈ cls → y ∈ cl0.members →
      c' ≠ cm := by
    intro y c' cl0 hyx hm hym hec
    subst hec
    have heq : (c', cl0) = (c', clm) :=
      entry_unique cls hnd (c', cl0) (c', clm) hm hclm rfl
    have hcl0 : cl0 = clm := congrArg Prod.snd heq
    rw [hcl0, hclmm] at hym
    exact hyx (List.mem_singleton.mp hym)
  refine ⟨⟨?_, ?_⟩, ?_, ?_, ?_⟩
  · intro p hp
    exact hkeys p (hfltmem p hp).1
  · exact List.Nodup.sublist (List.Sublist.map _ (List.filter_sublist _)) hnd
  · intro p hp q hq y hyp hyq
    exact huniq p (hfltmem p hp).1 q (hfltmem q hq).1 y hyp hyq
  · intro y c' hy
    by_cases hyx : y = x
    · subst hyx
      rw [hv1] at hy
      exact Option.noConfusion (Option.some.inj hy)
    · rw [hv2 y hyx] at hy
      obtain ⟨cl0, hcl0, hycl0⟩ := hcid y c' hy
      have hne : c' ≠ cm := hother y c' cl0 hyx hcl0 hycl0
      exact ⟨cl0, List.mem_filter.mpr ⟨hcl0, decide_eq_true hne⟩, hycl0⟩
  · intro p hp y hy
    by_cases hyx : y = x
    · subst hyx
      exact absurd (hxonly p (hfltmem p hp).1 hy) (hfltmem p hp).2
    · rw [hv2 y hyx]
      exact hmem p (hfltmem p hp).1 y hy

end C5Core2

section C5Shape

open ClusterSim

theorem removeFromCluster_empty (st : SimState) (x c : String)
    (cluster : ClusterState)
    (hclg : alGet st.clusters c = some cluster)
    (hm : cluster.members = [x]) :
    removeFromCluster st x c =
      { st with clusters := st.clusters.filter (fun p => p.1 ≠ c) } := by
  unfold removeFromCluster
  have hdel : setDel cluster.members x = [] := by
    rw [hm]
    simp [setDel]
  simp [hclg, hdel]

theorem joinCluster_eq (st : SimState) (x target : String) (v : ClusterState)
    (hsome : alGet st.clusters target = some v) :
    joinCluster st x target = { st with
      clusters := alUpd st.clusters target
        (fun cl => { cl with members := setAdd cl.members x }),
      entityStates := alUpd st.entityStates x
        (fun es => { es with clusterId := some target }) } := by
  unfold joinCluster
  simp [hsome]

theorem leaveAndJoin_eq (st : SimState) (x c target : String)
    (cluster v : ClusterState)
    (hclg : alGet st.clusters c = some cluster)
    (hm : cluster.members = [x])
    (hsome : alGet (st.clusters.filter (fun p => p.1 ≠ c)) target = some v) :
    leaveAndJoin st x c target = { st with
      clusters := alUpd (st.clusters.filter (fun p => p.1 ≠ c)) target
        (fun cl => { cl with members := setAdd cl.members x }),
      entityStates := alUpd (alUpd st.entityStates x
          (fun es => { es with clusterId := some target })) x
        (fun es => { es with isClusterLeader := false }) } := by
  unfold leaveAndJoin
  rw [removeFromCluster_empty st x c cluster hclg hm]
  have hj := joinCluster_eq
    { st with clusters := st.clusters.filter (fun p => p.1 ≠ c) }
    x target v hsome
  simp only [hj]

theorem solo_members (m : List String) (x : String) (hx : x ∈ m)
    (hlen : ¬ m.length > 1) : m = [x] := by
  cases m with
  | nil => cases hx
  | cons a t =>
    cases t with
    | nil =>
      obtain rfl : x = a := List.mem_singleton.mp hx
      rfl
    | cons b t2 =>
      exact absurd (by simp) hlen

theorem ctrl_of_arrives (ev : Event) (h : ev.type = .entity_arrives) :
    ctrl ev := Or.inl h

theorem ctrl_of_searches (ev : Event) (h : ev.type = .entity_searches) :
    ctrl ev := Or.inr (Or.inl h)

theorem ctrl_of_rechecks (ev : Event) (h : ev.type = .entity_rechecks) :
    ctrl ev := Or.inr (Or.inr (Or.inl h))

theorem ctrl_of_fw (ev : Event) (h : ev.type = .follower_wait_ends) :
    ctrl ev := Or.inr (Or.inr (Or.inr h))

theorem not_ctrl_indexed (ev : Event) (h : ev.type = .entity_indexed) :
    ¬ ctrl ev := by
  intro hc
  rcases hc with h' | h' | h' | h' <;> rw [h] at h' <;> cases h'

theorem qProp_transfer (st st' : SimState) (x : String) (ev' : Event)
    (hview : ∀ y, y ≠ x → cidView st' y = cidView st y)
    (hnc : ev'.entityId = x → ¬ ctrl ev')
    (h : qProp st ev') : qProp st' ev' := by
  by_cases hx : ev'.entityId = x
  · have hnc' := hnc hx
    constructor
    · intro ht
      rcases ht with h' | h' | h'
      · exact absurd (ctrl_of_arrives ev' h') hnc'
      · exact absurd (ctrl_of_searches ev' h') hnc'
      · exact absurd (ctrl_of_rechecks ev' h') hnc'
    · intro c ht
      exact absurd (ctrl_of_fw ev' ht) hnc'
  · obtain ⟨hA, hF⟩ := h
    constructor
    · intro ht o ho
      exact hA ht o (by rw [← hview _ hx]; exact ho)
    · intro c ht hc o ho
      exact hF c ht hc o (by rw [← hview _ hx]; exact ho)

theorem Inv_upd_pres (st st' : SimState) (x : String)
    (f : EntityState → EntityState)
    (hf : ∀ es, (f es).clusterId = es.clusterId)
    (hcl : st'.clusters = st.clusters)
    (hnid : st'.nextClusterId = st.nextClusterId)
    (hes : st'.entityStates = alUpd st.entityStates x f)
    (hq : st'.eventQueue = st.eventQueue)
    (hinv : Inv st) : Inv st' := by
  obtain ⟨h1, h2, h3, h4, hqf, hqp⟩ := hinv
  have hview : ∀ y, cidView st' y = cidView st y := by
    intro y
    show (alGet st'.entityStates y).map _ = _
    rw [hes]
    exact cidView_eq_of_upd st.entityStates x f hf y
  refine ⟨InvClusters_eq st st' hcl hnid h1, InvUnique_eq st st' hcl h2,
    InvCid_eq st st' hcl hview h3, InvMem_eq st st' hcl hview h4, ?_, ?_⟩
  · intro ev hev
    rw [hq] at hev
    exact qProp_eq st st' ev hview (hqf ev hev)
  · rw [hq]
    exact hqp

end C5Shape

section C5Init

open ClusterSim

theorem alGet_map_const {β : Type} (g : Entity → String) (c : β) :
    ∀ (l : List Entity) (x : String) (v : β),
      alGet (l.map (fun e => (g e, c))) x = some v → v = c := by
  intro l
  induction l with
  | nil => intro x v h; cases h
  | cons e t ih =>
    intro x v h
    rw [List.map_cons, alGet_cons] at h
    split at h
    · exact (Option.some.inj h).symm
    · exact ih x v h

theorem mem_foldl_sched (g : Nat × Entity → Event) :
    ∀ (l : List (Nat × Entity)) (acc : List Event) (x : Event),
      x ∈ l.foldl (fun q p => scheduleEvent q (g p)) acc ↔
        x ∈ acc ∨ ∃ p ∈ l, x = g p := by
  intro l
  induction l with
  | nil => intro acc x; simp
  | cons p t ih =>
    intro acc x
    rw [List.foldl_cons, ih]
    constructor
    · rintro (hacc | ⟨q, hq, rfl⟩)
      · rcases (mem_scheduleEvent acc (g p) x).mp hacc with h | rfl
        · exact Or.inl h
        · exact Or.inr ⟨p, List.mem_cons_self _ _, rfl⟩
      · exact Or.inr ⟨q, List.mem_cons_of_mem _ hq, rfl⟩
    · rintro (hacc | ⟨q, hq, rfl⟩)
      · exact Or.inl ((mem_scheduleEvent acc (g p) x).mpr (Or.inl hacc))
      · rcases List.mem_cons.mp hq with rfl | hq'
        · exact Or.inl ((mem_scheduleEvent acc (g q) (g q)).mpr (Or.inr rfl))
        · exact Or.inr ⟨q, hq', rfl⟩

theorem pairwise_foldl_sched (R : Event → Event → Prop)
    (g : Nat × Entity → Event) :
    ∀ (l : List (Nat × Entity)) (acc : List Event),
      List.Pairwise R acc →
      (∀ p ∈ l, ∀ e ∈ acc, R (g p) e ∧ R e (g p)) →
      List.Pairwise (fun p q => R (g p) (g q) ∧ R (g q) (g p)) l →
      List.Pairwise R (l.foldl (fun q p => scheduleEvent q (g p)) acc) := by
  intro l
  induction l with
  | nil => intro acc hacc _ _; exact hacc
  | cons p t ih =>
    intro acc hacc hcross hl
    rw [List.foldl_cons]
    rcases List.pairwise_cons.mp hl with ⟨hp, ht⟩
    apply ih
    · exact pairwise_scheduleEvent R acc (g p) hacc
        (fun b hb => hcross p (List.mem_cons_self _ _) b hb)
    · intro q hq e he
      rcases (mem_scheduleEvent acc (g p) e).mp he with he' | rfl
      · exact hcross q (List.mem_cons_of_mem _ hq) e he'
      · exact ⟨(hp q hq).2, (hp q hq).1⟩
    · exact ht

theorem pairwise_snd {α : Type} (R : α → α → Prop) :
    ∀ (l : List (Nat × α)), List.Pairwise R (l.map Prod.snd) →
      List.Pairwise (fun p q => R p.2 q.2) l := by
  intro l
  induction l with
  | nil => intro h; exact List.Pairwise.nil
  | cons p t ih =>
    intro h
    rw [List.map_cons] at h
    rcases List.pairwise_cons.mp h with ⟨hp, ht⟩
    refine List.pairwise_cons.mpr ⟨?_, ih ht⟩
    intro q hq
    exact hp q.2 (List.mem_map_of_mem Prod.snd hq)

theorem Inv_init (data : SimulationData) (cfg : SimConfig)
    (hW : (data.entities.map Entity.id).Nodup) :
    Inv (initState data cfg) := by
  have hview : ∀ y o, cidView (initState data cfg) y = some o → o = none := by
    intro y o h
    obtain ⟨es, hes, hcid⟩ := Option.map_eq_some'.mp h
    have := alGet_map_const Entity.id
      ({ arrived := false, indexed := false, clusterId := none,
         isClusterLeader := false, processing := false,
         waitingForFollowers := false,
         followerWaitStartTime := none } : EntityState)
      data.entities y es hes
    rw [this] at hcid
    exact hcid.symm
  have hperm := shuffle_perm data.entities cfg.seed
  have hnds : ((shuffle data.entities cfg.seed).1.map Entity.id).Nodup :=
    ((hperm.map Entity.id).nodup_iff).mpr hW
  have hpair1 : List.Pairwise (fun a b => a.id ≠ b.id)
      (shuffle data.entities cfg.seed).1 := List.pairwise_map.mp hnds
  have hpair2 : List.Pairwise (fun p q => p.2.id ≠ q.2.id)
      (shuffle data.entities cfg.seed).1.enum := by
    refine pairwise_snd (fun u v : Entity => u.id ≠ v.id)
      (shuffle data.entities cfg.seed).1.enum ?_
    rw [List.enum_map_snd]
    exact hpair1
  refine ⟨⟨?_, ?_⟩, ?_, ?_, ?_, ?_, ?_⟩
  · intro p hp
    exact absurd hp (List.not_mem_nil p)
  · exact List.nodup_nil
  · intro p hp
    exact absurd hp (List.not_mem_nil p)
  · intro y c h
    exact Option.noConfusion (hview y (some c) h)
  · intro p hp
    exact absurd hp (List.not_mem_nil p)
  · intro ev hev
    have hev' : ev ∈ (shuffle data.entities cfg.seed).1.enum.foldl
        (fun q p => scheduleEvent q
          { time := ((p.1 : Int) * cfg.arrivalSpreadMs) /
              (data.entities.length : Int),
            type := .entity_arrives, entityId := p.2.id,
            clusterId := none }) [] := hev
    rcases (mem_foldl_sched _ _ _ _).mp hev' with h | ⟨p, hp, rfl⟩
    · exact absurd h (List.not_mem_nil ev)
    · constructor
      · intro ht o ho
        exact hview _ o ho
      · intro c ht
        cases ht
  · show List.Pairwise _ ((shuffle data.entities cfg.seed).1.enum.foldl
      (fun q p => scheduleEvent q
        { time := ((p.1 : Int) * cfg.arrivalSpreadMs) /
            (data.entities.length : Int),
          type := .entity_arrives, entityId := p.2.id,
          clusterId := none }) [])
    apply pairwise_foldl_sched
    · exact List.Pairwise.nil
    · intro p hp e he
      exact absurd he (List.not_mem_nil e)
    · refine hpair2.imp ?_
      intro p q hne
      exact ⟨fun _ _ => hne, fun _ _ => Ne.symm hne⟩

end C5Init

section C5Branch1

open ClusterSim

theorem Inv_pe_indexed (data : SimulationData) (cfg : SimConfig)
    (st : SimState) (x : String) (t : Int) (o : Option String)
    (es : EntityState) (ent : Entity)
    (hget : alGet st.entityStates x = some es)
    (hfind : data.entities.find? (fun e => e.id == x) = some ent)
    (hinv : Inv st) :
    Inv (processEvent data cfg st
      { time := t, type := .entity_indexed, entityId := x, clusterId := o }) := by
  have hred : processEvent data cfg st
      { time := t, type := .entity_indexed, entityId := x, clusterId := o } =
      { st with entityStates := alUpd st.entityStates x (fun es0 => { es0 with indexed := true }) } := by
    simp only [processEvent, hget, hfind]
  rw [hred]
  exact Inv_upd_pres st _ x (fun es0 => { es0 with indexed := true })
    (fun es0 => rfl) rfl rfl rfl rfl hinv

theorem Inv_pe_arrives (data : SimulationData) (cfg : SimConfig)
    (st : SimState) (x : String) (t : Int) (o : Option String)
    (es : EntityState) (ent : Entity)
    (hget : alGet st.entityStates x = some es)
    (hfind : data.entities.find? (fun e => e.id == x) = some ent)
    (hinv : Inv st)
    (hxnone : ∀ o', cidView st x = some o' → o' = none)
    (hexcl : ∀ b ∈ st.eventQueue, ctrl b → x ≠ b.entityId) :
    Inv (processEvent data cfg st
      { time := t, type := .entity_arrives, entityId := x, clusterId := o }) := by
  have hred : processEvent data cfg st
      { time := t, type := .entity_arrives, entityId := x, clusterId := o } =
      { st with
        entityStates := alUpd st.entityStates x (fun es0 => { es0 with arrived := true }),
        eventQueue := scheduleEvent (scheduleEvent st.eventQueue { time := st.currentTime + cfg.indexDelayMs, type := .entity_indexed, entityId := x, clusterId := none }) { time := st.currentTime, type := .entity_searches, entityId := x, clusterId := none } } := by
    simp only [processEvent, hget, hfind]
  rw [hred]
  obtain ⟨h1, h2, h3, h4, hqf, hqp⟩ := hinv
  have hview : ∀ y, (alGet (alUpd st.entityStates x (fun es0 => { es0 with arrived := true })) y).map (fun es => es.clusterId) = cidView st y :=
    fun y => cidView_eq_of_upd st.entityStates x (fun es0 => { es0 with arrived := true }) (fun es0 => rfl) y
  refine ⟨InvClusters_eq st _ rfl rfl h1, InvUnique_eq st _ rfl h2,
    InvCid_eq st _ rfl hview h3, InvMem_eq st _ rfl hview h4, ?_, ?_⟩
  · intro ev' hev'
    rcases (mem_scheduleEvent _ _ _).mp hev' with h' | rfl
    · rcases (mem_scheduleEvent _ _ _).mp h' with h'' | rfl
      · exact qProp_eq st _ ev' hview (hqf ev' h'')
      · constructor
        · intro ht
          rcases ht with h | h | h <;> cases h
        · intro c ht
          cases ht
    · constructor
      · intro ht o' ho
        have ho' : cidView st x = some o' := by
          rw [← hview x]
          exact ho
        exact hxnone o' ho'
      · intro c ht
        cases ht
  · apply pairwise_scheduleEvent
    · apply pairwise_scheduleEvent _ _ _ hqp
      intro b hb
      exact ⟨fun hc => absurd hc (not_ctrl_indexed _ rfl),
        fun _ hc => absurd hc (not_ctrl_indexed _ rfl)⟩
    · intro b hb
      rcases (mem_scheduleEvent _ _ _).mp hb with hb' | rfl
      · exact ⟨fun _ hcb => hexcl b hb' hcb,
          fun hcb _ => Ne.symm (hexcl b hb' hcb)⟩
      · exact ⟨fun _ hc => absurd hc (not_ctrl_indexed _ rfl),
          fun hc _ => absurd hc (not_ctrl_indexed _ rfl)⟩

end C5Branch1

section C5Branch2

open ClusterSim

theorem Inv_core_assemble (st' : SimState)
    (hcore : coreInv st'.clusters st'.nextClusterId (cidView st'))
    (hq1 : ∀ ev ∈ st'.eventQueue, qProp st' ev)
    (hq2 : List.Pairwise (fun a b => ctrl a → ctrl b → a.entityId ≠ b.entityId)
      st'.eventQueue) :
    Inv st' :=
  ⟨hcore.1, hcore.2.1, hcore.2.2.1, hcore.2.2.2, hq1, hq2⟩

theorem Inv_pe_searches (data : SimulationData) (cfg : SimConfig)
    (st : SimState) (x : String) (t : Int) (o : Option String)
    (es : EntityState) (ent : Entity)
    (hget : alGet st.entityStates x = some es)
    (hfind : data.entities.find? (fun e => e.id == x) = some ent)
    (hinv : Inv st)
    (hxnone : ∀ o', cidView st x = some o' → o' = none)
    (hexcl : ∀ b ∈ st.eventQueue, ctrl b → x ≠ b.entityId) :
    Inv (processEvent data cfg st
      { time := t, type := .entity_searches, entityId := x, clusterId := o }) := by
  obtain ⟨h1, h2, h3, h4, hqf, hqp⟩ := hinv
  have hfour : coreInv st.clusters st.nextClusterId (cidView st) :=
    ⟨h1, h2, h3, h4⟩
  have hvx : cidView st x = some es.clusterId := by
    show (alGet st.entityStates x).map (fun es0 => es0.clusterId) = _
    rw [hget]
    rfl
  have hx0 : cidView st x = some none := by
    rw [hvx, hxnone es.clusterId hvx]
  have hview1 : ∀ y, (alGet (alUpd st.entityStates x (fun es0 => { es0 with processing := true })) y).map (fun es0 => es0.clusterId) = cidView st y :=
    fun y => cidView_eq_of_upd st.entityStates x (fun es0 => { es0 with processing := true }) (fun es0 => rfl) y
  simp only [processEvent, hget, hfind, createCluster, getJitteryWait]
  split
  · -- empty peers: solo cluster creation and follower-wait scheduling
    have hv1 : (alGet (alUpd (alUpd st.entityStates x (fun es0 => { es0 with processing := true })) x (fun es0 => { es0 with clusterId := some (mkClusterId st.nextClusterId), isClusterLeader := true, waitingForFollowers := true, followerWaitStartTime := some st.currentTime })) x).map (fun es0 => es0.clusterId) = some (some (mkClusterId st.nextClusterId)) := by
      rw [alGet_alUpd_same, alGet_alUpd_same, hget]
      rfl
    have hv2 : ∀ y, y ≠ x → (alGet (alUpd (alUpd st.entityStates x (fun es0 => { es0 with processing := true })) x (fun es0 => { es0 with clusterId := some (mkClusterId st.nextClusterId), isClusterLeader := true, waitingForFollowers := true, followerWaitStartTime := some st.currentTime })) y).map (fun es0 => es0.clusterId) = cidView st y := by
      intro y hy
      rw [alGet_alUpd_ne _ _ _ _ hy, alGet_alUpd_ne _ _ _ _ hy]
      rfl
    refine Inv_core_assemble _ ?_ ?_ ?_
    · exact coreInv_create st.clusters st.nextClusterId (cidView st) _ x _
        hfour hx0 rfl hv1 hv2
    · intro ev' hev'
      rcases (mem_scheduleEvent _ _ _).mp hev' with h' | rfl
      · refine qProp_transfer st _ x ev' ?_ ?_ (hqf ev' h')
        · intro y hy
          exact hv2 y hy
        · intro hxid hc
          exact (hexcl ev' h' hc) hxid.symm
      · constructor
        · intro ht
          rcases ht with h | h | h <;> cases h
        · intro c hty hc o2 ho2
          have hc' : some (mkClusterId st.nextClusterId) = some c := hc
          obtain rfl := Option.some.inj hc'
          have ho2' : (alGet (alUpd (alUpd st.entityStates x (fun es0 => { es0 with processing := true })) x (fun es0 => { es0 with clusterId := some (mkClusterId st.nextClusterId), isClusterLeader := true, waitingForFollowers := true, followerWaitStartTime := some st.currentTime })) x).map (fun es0 => es0.clusterId) = some o2 := ho2
          rw [hv1] at ho2'
          exact (Option.some.inj ho2').symm
    · apply pairwise_scheduleEvent _ _ _ hqp
      intro b hb
      constructor
      · intro hcf hcb
        exact hexcl b hb hcb
      · intro hcb hcf
        exact Ne.symm (hexcl b hb hcb)
  · -- nonempty peers
    split
    · -- a clustered peer was found: join its cluster
      rename_i pc hpc
      obtain ⟨ps, hpg, hpcid⟩ :=
        findClusteredPeer_some _ _ pc.1 pc.2 hpc
      have hv : cidView st pc.1 = some (some pc.2) := by
        rw [← hview1 pc.1, hpg]
        show some ps.clusterId = some (some pc.2)
        rw [hpcid]
      obtain ⟨clt, hclt, -⟩ := h3 pc.1 pc.2 hv
      have hcg : alGet st.clusters pc.2 = some clt :=
        alGet_of_mem_nodup st.clusters pc.2 clt hclt h1.2
      have hje := joinCluster_eq
        { st with entityStates := alUpd st.entityStates x (fun es0 => { es0 with processing := true }) }
        x pc.2 clt hcg
      rw [hje]
      have hv1 : (alGet (alUpd (alUpd (alUpd st.entityStates x (fun es0 => { es0 with processing := true })) x (fun es0 => { es0 with clusterId := some pc.2 })) x (fun es0 => { es0 with processing := false })) x).map (fun es0 => es0.clusterId) = some (some pc.2) := by
        rw [alGet_alUpd_same, alGet_alUpd_same, alGet_alUpd_same, hget]
        rfl
      have hv2 : ∀ y, y ≠ x → (alGet (alUpd (alUpd (alUpd st.entityStates x (fun es0 => { es0 with processing := true })) x (fun es0 => { es0 with clusterId := some pc.2 })) x (fun es0 => { es0 with processing := false })) y).map (fun es0 => es0.clusterId) = cidView st y := by
        intro y hy
        rw [alGet_alUpd_ne _ _ _ _ hy, alGet_alUpd_ne _ _ _ _ hy,
          alGet_alUpd_ne _ _ _ _ hy]
        rfl
      refine Inv_core_assemble _ ?_ ?_ ?_
      · exact coreInv_join st.clusters st.nextClusterId (cidView st) _ x pc.2
          clt hfour hx0 hclt hv1 hv2
      · intro ev' hev'
        have h' : ev' ∈ st.eventQueue := hev'
        refine qProp_transfer st _ x ev' ?_ ?_ (hqf ev' h')
        · intro y hy
          exact hv2 y hy
        · intro hxid hc
          exact (hexcl ev' h' hc) hxid.symm
      · exact hqp
    · -- no clustered peer: schedule a recheck
      refine ⟨InvClusters_eq st _ rfl rfl h1, InvUnique_eq st _ rfl h2,
        InvCid_eq st _ rfl hview1 h3, InvMem_eq st _ rfl hview1 h4, ?_, ?_⟩
      · intro ev' hev'
        rcases (mem_scheduleEvent _ _ _).mp hev' with h' | rfl
        · exact qProp_eq st _ ev' hview1 (hqf ev' h')
        · constructor
          · intro ht o2 ho2
            have ho2' : cidView st x = some o2 := by
              rw [← hview1 x]
              exact ho2
            exact hxnone o2 ho2'
          · intro c ht
            cases ht
      · apply pairwise_scheduleEvent _ _ _ hqp
        intro b hb
        constructor
        · intro hcr hcb
          exact hexcl b hb hcb
        · intro hcb hcr
          exact Ne.symm (hexcl b hb hcb)

end C5Branch2

section C5Branch3

open ClusterSim

theorem Inv_pe_rechecks (data : SimulationData) (cfg : SimConfig)
    (st : SimState) (x : String) (t : Int) (o : Option String)
    (es : EntityState) (ent : Entity)
    (hget : alGet st.entityStates x = some es)
    (hfind : data.entities.find? (fun e => e.id == x) = some ent)
    (hinv : Inv st)
    (hxnone : ∀ o', cidView st x = some o' → o' = none)
    (hexcl : ∀ b ∈ st.eventQueue, ctrl b → x ≠ b.entityId) :
    Inv (processEvent data cfg st
      { time := t, type := .entity_rechecks, entityId := x, clusterId := o }) := by
  obtain ⟨h1, h2, h3, h4, hqf, hqp⟩ := hinv
  have hfour : coreInv st.clusters st.nextClusterId (cidView st) :=
    ⟨h1, h2, h3, h4⟩
  have hvx : cidView st x = some es.clusterId := by
    show (alGet st.entityStates x).map (fun es0 => es0.clusterId) = _
    rw [hget]
    rfl
  have hx0 : cidView st x = some none := by
    rw [hvx, hxnone es.clusterId hvx]
  simp only [processEvent, hget, hfind, createCluster, getJitteryWait]
  split
  · -- a clustered peer was found: join its cluster
    rename_i pc hpc
    obtain ⟨ps, hpg, hpcid⟩ := findClusteredPeer_some _ _ pc.1 pc.2 hpc
    have hv : cidView st pc.1 = some (some pc.2) := by
      show (alGet st.entityStates pc.1).map (fun es0 => es0.clusterId) = _
      rw [hpg]
      show some ps.clusterId = some (some pc.2)
      rw [hpcid]
    obtain ⟨clt, hclt, -⟩ := h3 pc.1 pc.2 hv
    have hcg : alGet st.clusters pc.2 = some clt :=
      alGet_of_mem_nodup st.clusters pc.2 clt hclt h1.2
    have hje := joinCluster_eq st x pc.2 clt hcg
    rw [hje]
    have hv1 : (alGet (alUpd (alUpd st.entityStates x (fun es0 => { es0 with clusterId := some pc.2 })) x (fun es0 => { es0 with processing := false })) x).map (fun es0 => es0.clusterId) = some (some pc.2) := by
      rw [alGet_alUpd_same, alGet_alUpd_same, hget]
      rfl
    have hv2 : ∀ y, y ≠ x → (alGet (alUpd (alUpd st.entityStates x (fun es0 => { es0 with clusterId := some pc.2 })) x (fun es0 => { es0 with processing := false })) y).map (fun es0 => es0.clusterId) = cidView st y := by
      intro y hy
      rw [alGet_alUpd_ne _ _ _ _ hy, alGet_alUpd_ne _ _ _ _ hy]
      rfl
    refine Inv_core_assemble _ ?_ ?_ ?_
    · exact coreInv_join st.clusters st.nextClusterId (cidView st) _ x pc.2
        clt hfour hx0 hclt hv1 hv2
    · intro ev' hev'
      have h' : ev' ∈ st.eventQueue := hev'
      refine qProp_transfer st _ x ev' ?_ ?_ (hqf ev' h')
      · intro y hy
        exact hv2 y hy
      · intro hxid hc
        exact (hexcl ev' h' hc) hxid.symm
    · exact hqp
  · -- no clustered peer: create a solo cluster and wait for followers
    have hv1 : (alGet (alUpd st.entityStates x (fun es0 => { es0 with clusterId := some (mkClusterId st.nextClusterId), isClusterLeader := true, waitingForFollowers := true, followerWaitStartTime := some st.currentTime })) x).map (fun es0 => es0.clusterId) = some (some (mkClusterId st.nextClusterId)) := by
      rw [alGet_alUpd_same, hget]
      rfl
    have hv2 : ∀ y, y ≠ x → (alGet (alUpd st.entityStates x (fun es0 => { es0 with clusterId := some (mkClusterId st.nextClusterId), isClusterLeader := true, waitingForFollowers := true, followerWaitStartTime := some st.currentTime })) y).map (fun es0 => es0.clusterId) = cidView st y := by
      intro y hy
      rw [alGet_alUpd_ne _ _ _ _ hy]
      rfl
    refine Inv_core_assemble _ ?_ ?_ ?_
    · exact coreInv_create st.clusters st.nextClusterId (cidView st) _ x _
        hfour hx0 rfl hv1 hv2
    · intro ev' hev'
      rcases (mem_scheduleEvent _ _ _).mp hev' with h' | rfl
      · refine qProp_transfer st _ x ev' ?_ ?_ (hqf ev' h')
        · intro y hy
          exact hv2 y hy
        · intro hxid hc
          exact (hexcl ev' h' hc) hxid.symm
      · constructor
        · intro ht
          rcases ht with h | h | h <;> cases h
        · intro c hty hc o2 ho2
          have hc' : some (mkClusterId st.nextClusterId) = some c := hc
          obtain rfl := Option.some.inj hc'
          have ho2' : (alGet (alUpd st.entityStates x (fun es0 => { es0 with clusterId := some (mkClusterId st.nextClusterId), isClusterLeader := true, waitingForFollowers := true, followerWaitStartTime := some st.currentTime })) x).map (fun es0 => es0.clusterId) = some o2 := ho2
          rw [hv1] at ho2'
          exact (Option.some.inj ho2').symm
    · apply pairwise_scheduleEvent _ _ _ hqp
      intro b hb
      constructor
      · intro hcf hcb
        exact hexcl b hb hcb
      · intro hcb hcf
        exact Ne.symm (hexcl b hb hcb)

end C5Branch3

section C5Branch4

open ClusterSim

theorem Inv_pe_fw (data : SimulationData) (cfg : SimConfig)
    (st : SimState) (x : String) (t : Int) (o : Option String)
    (es : EntityState) (ent : Entity)
    (hget : alGet st.entityStates x = some es)
    (hfind : data.entities.find? (fun e => e.id == x) = some ent)
    (hinv : Inv st)
    (hxcid : ∀ c, o = some c → ∀ o', cidView st x = some o' → o' = some c)
    (hexcl : ∀ b ∈ st.eventQueue, ctrl b → x ≠ b.entityId) :
    Inv (processEvent data cfg st
      { time := t, type := .follower_wait_ends, entityId := x,
        clusterId := o }) := by
  obtain ⟨h1, h2, h3, h4, hqf, hqp⟩ := hinv
  have hfour : coreInv st.clusters st.nextClusterId (cidView st) :=
    ⟨h1, h2, h3, h4⟩
  have hvx : cidView st x = some es.clusterId := by
    show (alGet st.entityStates x).map (fun es0 => es0.clusterId) = _
    rw [hget]
    rfl
  have hst1 : Inv { st with entityStates := alUpd st.entityStates x (fun es0 => { es0 with waitingForFollowers := false, processing := false }) } :=
    Inv_upd_pres st _ x
      (fun es0 => { es0 with waitingForFollowers := false, processing := false })
      (fun es0 => rfl) rfl rfl rfl rfl ⟨h1, h2, h3, h4, hqf, hqp⟩
  have hview1 : ∀ y, (alGet (alUpd st.entityStates x (fun es0 => { es0 with waitingForFollowers := false, processing := false })) y).map (fun es0 => es0.clusterId) = cidView st y :=
    fun y => cidView_eq_of_upd st.entityStates x
      (fun es0 => { es0 with waitingForFollowers := false, processing := false })
      (fun es0 => rfl) y
  rcases o with _ | c
  · simp only [processEvent, hget, hfind]
    exact hst1
  · have hcx : ∀ o', cidView st x = some o' → o' = some c :=
      hxcid c rfl
    have hvxc : cidView st x = some (some c) := by
      rw [hvx, hcx es.clusterId hvx]
    simp only [processEvent, hget, hfind]
    split
    · exact hst1
    · rename_i cluster heq
      have hclg : alGet st.clusters c = some cluster := heq
      have hclmem : (c, cluster) ∈ st.clusters := mem_of_alGet _ _ _ hclg
      obtain ⟨cl0, hcl0, hxin0⟩ := h3 x c hvxc
      have hc0 : (c, cl0) = (c, cluster) :=
        entry_unique st.clusters h1.2 (c, cl0) (c, cluster) hcl0 hclmem rfl
      have hxin : x ∈ cluster.members := by
        have hcc : cl0 = cluster := congrArg Prod.snd hc0
        rw [← hcc]
        exact hxin0
      split
      · exact hst1
      · rename_i hlen
        have hmem1 : cluster.members = [x] := solo_members _ x hxin hlen
        simp only [runFallback]
        split
        · -- semantic fallback hit: leave and join the peer's cluster
          rename_i target hsem
          obtain ⟨p, hp, ps, hps, hpcl, hne⟩ :=
            semScan_some _ _ _ target hsem
          have hvp : cidView st p.peerId = some (some target) := by
            rw [← hview1 p.peerId]
            have hps' : (alGet (alUpd st.entityStates x (fun es0 => { es0 with waitingForFollowers := false, processing := false })) p.peerId) = some ps := hps
            rw [hps']
            show some ps.clusterId = some (some target)
            rw [hpcl]
          obtain ⟨clt, hclt, -⟩ := h3 p.peerId target hvp
          have hcltf : (target, clt) ∈
              st.clusters.filter (fun q => q.1 ≠ c) :=
            List.mem_filter.mpr ⟨hclt, decide_eq_true hne⟩
          have hndf : ((st.clusters.filter (fun q => q.1 ≠ c)).map
              Prod.fst).Nodup :=
            List.Nodup.sublist (List.Sublist.map _ (List.filter_sublist _))
              h1.2
          have hsome : alGet (st.clusters.filter (fun q => q.1 ≠ c)) target =
              some clt :=
            alGet_of_mem_nodup _ target clt hcltf hndf
          have hlj := leaveAndJoin_eq
            { st with entityStates := alUpd st.entityStates x (fun es0 => { es0 with waitingForFollowers := false, processing := false }) }
            x c target cluster clt hclg hmem1 hsome
          rw [hlj]
          have hv1 : (alGet (alUpd (alUpd (alUpd st.entityStates x (fun es0 => { es0 with waitingForFollowers := false, processing := false })) x (fun es0 => { es0 with clusterId := some target })) x (fun es0 => { es0 with isClusterLeader := false })) x).map (fun es0 => es0.clusterId) = some (some target) := by
            rw [alGet_alUpd_same, alGet_alUpd_same, alGet_alUpd_same, hget]
            rfl
          have hv2 : ∀ y, y ≠ x → (alGet (alUpd (alUpd (alUpd st.entityStates x (fun es0 => { es0 with waitingForFollowers := false, processing := false })) x (fun es0 => { es0 with clusterId := some target })) x (fun es0 => { es0 with isClusterLeader := false })) y).map (fun es0 => es0.clusterId) = cidView st y := by
            intro y hy
            rw [alGet_alUpd_ne _ _ _ _ hy, alGet_alUpd_ne _ _ _ _ hy,
              alGet_alUpd_ne _ _ _ _ hy]
            rfl
          refine Inv_core_assemble _ ?_ ?_ ?_
          · exact coreInv_leaveJoin st.clusters st.nextClusterId
              (cidView st) _ x c target cluster clt hfour hvxc hclmem hmem1
              hne hclt hv1 hv2
          · intro ev' hev'
            have h' : ev' ∈ st.eventQueue := hev'
            refine qProp_transfer st _ x ev' ?_ ?_ (hqf ev' h')
            · intro y hy
              exact hv2 y hy
            · intro hxid hc2
              exact (hexcl ev' h' hc2) hxid.symm
          · exact hqp
        · -- lexicographic fallback
          split
          · exact hst1
          · -- joins a lexicographic peer's cluster
            rename_i target hlex
            obtain ⟨pid, ps, hps, hpcl, hne⟩ :=
              lexScan_some_some _ _ _ _ target hlex
            have hvp : cidView st pid = some (some target) := by
              rw [← hview1 pid]
              have hps' : (alGet (alUpd st.entityStates x (fun es0 => { es0 with waitingForFollowers := false, processing := false })) pid) = some ps := hps
              rw [hps']
              show some ps.clusterId = some (some target)
              rw [hpcl]
            obtain ⟨clt, hclt, -⟩ := h3 pid target hvp
            have hcltf : (target, clt) ∈
                st.clusters.filter (fun q => q.1 ≠ c) :=
              List.mem_filter.mpr ⟨hclt, decide_eq_true hne⟩
            have hndf : ((st.clusters.filter (fun q => q.1 ≠ c)).map
                Prod.fst).Nodup :=
              List.Nodup.sublist (List.Sublist.map _ (List.filter_sublist _))
                h1.2
            have hsome : alGet (st.clusters.filter (fun q => q.1 ≠ c))
                target = some clt :=
              alGet_of_mem_nodup _ target clt hcltf hndf
            have hlj := leaveAndJoin_eq
              { st with entityStates := alUpd st.entityStates x (fun es0 => { es0 with waitingForFollowers := false, processing := false }) }
              x c target cluster clt hclg hmem1 hsome
            rw [hlj]
            have hv1 : (alGet (alUpd (alUpd (alUpd st.entityStates x (fun es0 => { es0 with waitingForFollowers := false, processing := false })) x (fun es0 => { es0 with clusterId := some target })) x (fun es0 => { es0 with isClusterLeader := false })) x).map (fun es0 => es0.clusterId) = some (some target) := by
              rw [alGet_alUpd_same, alGet_alUpd_same, alGet_alUpd_same, hget]
              rfl
            have hv2 : ∀ y, y ≠ x → (alGet (alUpd (alUpd (alUpd st.entityStates x (fun es0 => { es0 with waitingForFollowers := false, processing := false })) x (fun es0 => { es0 with clusterId := some target })) x (fun es0 => { es0 with isClusterLeader := false })) y).map (fun es0 => es0.clusterId) = cidView st y := by
              intro y hy
              rw [alGet_alUpd_ne _ _ _ _ hy, alGet_alUpd_ne _ _ _ _ hy,
                alGet_alUpd_ne _ _ _ _ hy]
              rfl
            refine Inv_core_assemble _ ?_ ?_ ?_
            · exact coreInv_leaveJoin st.clusters st.nextClusterId
                (cidView st) _ x c target cluster clt hfour hvxc hclmem
                hmem1 hne hclt hv1 hv2
            · intro ev' hev'
              have h' : ev' ∈ st.eventQueue := hev'
              refine qProp_transfer st _ x ev' ?_ ?_ (hqf ev' h')
              · intro y hy
                exact hv2 y hy
              · intro hxid hc2
                exact (hexcl ev' h' hc2) hxid.symm
            · exact hqp
          · -- ran off the list: dissolve when alone at the layer
            split
            · have hv1 : (alGet (alUpd (alUpd st.entityStates x (fun es0 => { es0 with waitingForFollowers := false, processing := false })) x (fun es0 => { es0 with clusterId := none, isClusterLeader := false })) x).map (fun es0 => es0.clusterId) = some none := by
                rw [alGet_alUpd_same, alGet_alUpd_same, hget]
                rfl
              have hv2 : ∀ y, y ≠ x → (alGet (alUpd (alUpd st.entityStates x (fun es0 => { es0 with waitingForFollowers := false, processing := false })) x (fun es0 => { es0 with clusterId := none, isClusterLeader := false })) y).map (fun es0 => es0.clusterId) = cidView st y := by
                intro y hy
                rw [alGet_alUpd_ne _ _ _ _ hy, alGet_alUpd_ne _ _ _ _ hy]
                rfl
              refine Inv_core_assemble _ ?_ ?_ ?_
              · exact coreInv_dissolve st.clusters st.nextClusterId
                  (cidView st) _ x c cluster hfour hvxc hclmem hmem1 hv1 hv2
              · intro ev' hev'
                have h' : ev' ∈ st.eventQueue := hev'
                refine qProp_transfer st _ x ev' ?_ ?_ (hqf ev' h')
                · intro y hy
                  exact hv2 y hy
                · intro hxid hc2
                  exact (hexcl ev' h' hc2) hxid.symm
              · exact hqp
            · exact hst1

end C5Branch4

section C5Main

open ClusterSim

theorem Inv_processEvent (data : SimulationData) (cfg : SimConfig)
    (st : SimState) (ev : Event)
    (hinv : Inv st) (hev : qProp st ev)
    (hexcl : ∀ b ∈ st.eventQueue, ctrl ev → ctrl b →
      ev.entityId ≠ b.entityId) :
    Inv (processEvent data cfg st ev) := by
  obtain ⟨t, ty, x, o⟩ := ev
  rcases hget : alGet st.entityStates x with _ | es
  · have hred : processEvent data cfg st ⟨t, ty, x, o⟩ = st := by
      simp only [processEvent, hget]
    rw [hred]
    exact hinv
  · rcases hfind : data.entities.find? (fun e => e.id == x) with _ | ent
    · have hred : processEvent data cfg st ⟨t, ty, x, o⟩ = st := by
        simp only [processEvent, hget, hfind]
      rw [hred]
      exact hinv
    · have hexcl' : ctrl ⟨t, ty, x, o⟩ →
          ∀ b ∈ st.eventQueue, ctrl b → x ≠ b.entityId :=
        fun hc b hb hcb => hexcl b hb hc hcb
      cases ty with
      | entity_arrives =>
        have hxnone : ∀ o', cidView st x = some o' → o' = none :=
          fun o' ho' => hev.1 (Or.inl rfl) o' ho'
        exact Inv_pe_arrives data cfg st x t o es ent hget hfind hinv hxnone
          (hexcl' (ctrl_of_arrives _ rfl))
      | entity_indexed =>
        exact Inv_pe_indexed data cfg st x t o es ent hget hfind hinv
      | entity_searches =>
        have hxnone : ∀ o', cidView st x = some o' → o' = none :=
          fun o' ho' => hev.1 (Or.inr (Or.inl rfl)) o' ho'
        exact Inv_pe_searches data cfg st x t o es ent hget hfind hinv hxnone
          (hexcl' (ctrl_of_searches _ rfl))
      | entity_rechecks =>
        have hxnone : ∀ o', cidView st x = some o' → o' = none :=
          fun o' ho' => hev.1 (Or.inr (Or.inr rfl)) o' ho'
        exact Inv_pe_rechecks data cfg st x t o es ent hget hfind hinv hxnone
          (hexcl' (ctrl_of_rechecks _ rfl))
      | follower_wait_ends =>
        have hxcid : ∀ c, o = some c →
            ∀ o', cidView st x = some o' → o' = some c :=
          fun c hc o' ho' => hev.2 c rfl hc o' ho'
        exact Inv_pe_fw data cfg st x t o es ent hget hfind hinv hxcid
          (hexcl' (ctrl_of_fw _ rfl))
      | entity_creates_cluster =>
        have hred : processEvent data cfg st
            ⟨t, .entity_creates_cluster, x, o⟩ = st := by
          simp only [processEvent, hget, hfind]
        rw [hred]
        exact hinv
      | entity_joins_cluster =>
        have hred : processEvent data cfg st
            ⟨t, .entity_joins_cluster, x, o⟩ = st := by
          simp only [processEvent, hget, hfind]
        rw [hred]
        exact hinv

theorem Inv_simStep (data : SimulationData) (cfg : SimConfig)
    (st : SimState) (hinv : Inv st) : Inv (simStep data cfg st) := by
  obtain ⟨h1, h2, h3, h4, hqf, hqp⟩ := hinv
  rcases hq : st.eventQueue with _ | ⟨ev, rest⟩
  · simp only [simStep, hq]
    exact ⟨h1, h2, h3, h4, hqf, hqp⟩
  · simp only [simStep, hq]
    rw [hq] at hqp
    have hqp' := List.pairwise_cons.mp hqp
    apply Inv_processEvent
    · refine ⟨h1, h2, h3, h4, ?_, hqp'.2⟩
      intro ev' hev'
      have h' : ev' ∈ st.eventQueue := by
        rw [hq]
        exact List.mem_cons_of_mem _ hev'
      exact hqf ev' h'
    · have h' : ev ∈ st.eventQueue := by
        rw [hq]
        exact List.mem_cons_self _ _
      exact hqf ev h'
    · intro b hb hce hcb
      exact hqp'.1 b hb hce hcb

theorem Inv_runSim (data : SimulationData) (cfg : SimConfig)
    (hW : (data.entities.map Entity.id).Nodup) :
    ∀ n, Inv (runSim data cfg n) := by
  intro n
  induction n with
  | zero => exact Inv_init data cfg hW
  | succ n ih =>
    show Inv (Nat.iterate (simStep data cfg) (n + 1) (initState data cfg))
    rw [Function.iterate_succ_apply']
    exact Inv_simStep data cfg _ ih

/-- C5: membership uniqueness is an invariant of every simulation step.  At
every point of a run (any number of `simStep` iterations from the initial
state, for any data whose entity ids are distinct), any two cluster entries
sharing a member are the same entry — every entity belongs to at most one
cluster's member set — and a non-null recorded clusterId names a cluster
that exists and contains the entity (unique by the first part).  The
operations reached by the steps — createCluster, joinCluster and the
fallback's leave-then-join — each preserve this. -/
theorem c5_membership_uniqueness_invariant (data : SimulationData)
    (cfg : SimConfig) (n : Nat)
    (hW : (data.entities.map Entity.id).Nodup) :
    (∀ p ∈ (runSim data cfg n).clusters,
      ∀ q ∈ (runSim data cfg n).clusters,
      ∀ x, x ∈ p.2.members → x ∈ q.2.members → p = q) ∧
    (∀ x es c, alGet (runSim data cfg n).entityStates x = some es →
      es.clusterId = some c →
      ∃ cl, (c, cl) ∈ (runSim data cfg n).clusters ∧ x ∈ cl.members) := by
  obtain ⟨h1, h2, h3, h4, -, -⟩ := Inv_runSim data cfg hW n
  constructor
  · intro p hp q hq x hxp hxq
    exact entry_unique _ h1.2 p q hp hq (h2 p hp q hq x hxp hxq)
  · intro x es c hes hc
    apply h3 x c
    show (alGet (runSim data cfg n).entityStates x).map
      (fun es0 => es0.clusterId) = some (some c)
    rw [hes]
    show some es.clusterId = some (some c)
    rw [hc]

/-- Witness for C5: the two-entity simulation data, the validation config,
and a drained ten-step run. -/
theorem c5_membership_uniqueness_invariant_witness :
    (∀ p ∈ (ClusterSim.runSim ClusterSim.c4wData ClusterSim.c3Config 10).clusters,
      ∀ q ∈ (ClusterSim.runSim ClusterSim.c4wData ClusterSim.c3Config 10).clusters,
      ∀ x, x ∈ p.2.members → x ∈ q.2.members → p = q) ∧
    (∀ x es c, ClusterSim.alGet (ClusterSim.runSim ClusterSim.c4wData ClusterSim.c3Config 10).entityStates x = some es →
      es.clusterId = some c →
      ∃ cl, (c, cl) ∈ (ClusterSim.runSim ClusterSim.c4wData ClusterSim.c3Config 10).clusters ∧ x ∈ cl.members) :=
  c5_membership_uniqueness_invariant ClusterSim.c4wData ClusterSim.c3Config 10
    (by decide)

end C5Main
